import Mathlib

/-!
# Logic gate simulator: signal propagation, wire topology, connection points

A shallow embedding of `Constants.h`, `Gate.cpp`, `Wire.h`, `Wire.cpp`,
`WiringSystem.cpp`, `Sidebar.cpp` and the loop of `main.cpp`.

Modelling conventions
* `std::vector<std::unique_ptr<T>>` is a `List T`; a member function that mutates
  its object returns the new object.
* `int` indices are `Int` (the source stores `-1` in them).  No index arithmetic
  of the source can overflow: the only arithmetic is a decrement of a value that
  is strictly greater than another `int`.
* `float` coordinates are exact rationals.  A test `distance <= r` on a
  square-rooted distance is evaluated on the squared distance, see
  `sqrt_le_iff_sqr_le`.  In the route search the rounding of binary32 can change
  which candidate is accepted; the functions that take part in it are embedded a
  second time, in the namespace `Binary32`, with every operation rounded.
* An unchecked `gates[i]` with `i` out of range is undefined behaviour in the
  source; an operation that would perform one returns `none`.
-/

namespace GateSim

/-! ## raylib value types -/

/-- The raylib `Vector2`. -/
structure Vector2 where
  x : ℚ
  y : ℚ
deriving DecidableEq

/-- The raylib `Rectangle`. -/
structure Rectangle where
  x : ℚ
  y : ℚ
  width : ℚ
  height : ℚ
deriving DecidableEq

/-- The raymath `Vector2DistanceSqr`: squared euclidean distance. -/
def Vector2DistanceSqr (v1 v2 : Vector2) : ℚ :=
  (v1.x - v2.x) * (v1.x - v2.x) + (v1.y - v2.y) * (v1.y - v2.y)

/-- The test `Vector2Distance(v1, v2) <= r` of the source, on squared distances. -/
def distanceLE (v1 v2 : Vector2) (r : ℚ) : Bool :=
  decide (0 ≤ r ∧ Vector2DistanceSqr v1 v2 ≤ r * r)

/-- The raylib `CheckCollisionRecs`: strict overlap on both axes. -/
def CheckCollisionRecs (rec1 rec2 : Rectangle) : Bool :=
  decide (rec1.x < rec2.x + rec2.width ∧ rec1.x + rec1.width > rec2.x ∧
    rec1.y < rec2.y + rec2.height ∧ rec1.y + rec1.height > rec2.y)

/-! ## Constants.h -/

/-- The constant `CONNECTION_SNAP_DISTANCE`. -/
def CONNECTION_SNAP_DISTANCE : ℚ := 15

/-- The enum `GateType`. -/
inductive GateType where
  | INPUT | OUTPUT | AND | OR | NOT | NAND | NOR
deriving DecidableEq

/-- The `size` column of the lookup table `GATE_DATA`. -/
def GATE_DATA_size : GateType → Vector2
  | .INPUT => ⟨60, 40⟩
  | .OUTPUT => ⟨60, 40⟩
  | .AND => ⟨75, 50⟩
  | .OR => ⟨75, 50⟩
  | .NOT => ⟨75, 50⟩
  | .NAND => ⟨75, 50⟩
  | .NOR => ⟨75, 50⟩

/-- The struct `ConnectionPoint`. -/
structure ConnectionPoint where
  position : Vector2
  isInput : Bool
  gateIndex : Int
  inputIndex : Int
deriving DecidableEq

/-! ## Gate.h / Gate.cpp -/

/-- The class `Gate`.  The private member `info` is `GATE_DATA.at(type)`, fixed by
the constructor, and is read through `GetSize`. -/
structure Gate where
  type : GateType
  position : Vector2
  input1 : Bool
  input2 : Bool
  output : Bool
deriving DecidableEq

namespace Gate

/-- The constructor `Gate::Gate(t, pos)`: all three booleans start false. -/
def new (t : GateType) (pos : Vector2) : Gate :=
  ⟨t, pos, false, false, false⟩

/-- The getter `Gate::GetType`. -/
def GetType (g : Gate) : GateType := g.type

/-- The getter `Gate::GetSize`. -/
def GetSize (g : Gate) : Vector2 := GATE_DATA_size g.type

/-- The member `Gate::ComputeOutput`. -/
def ComputeOutput (g : Gate) : Gate :=
  match g.type with
  | .INPUT => { g with output := g.input1 }
  | .OUTPUT => { g with output := g.input1 }
  | .AND => { g with output := g.input1 && g.input2 }
  | .OR => { g with output := g.input1 || g.input2 }
  | .NOT => { g with output := !g.input1 }
  | .NAND => { g with output := !(g.input1 && g.input2) }
  | .NOR => { g with output := !(g.input1 || g.input2) }

/-- The member `Gate::GetBounds`. -/
def GetBounds (g : Gate) : Rectangle :=
  ⟨g.position.x, g.position.y, g.GetSize.x, g.GetSize.y⟩

/-- The member `Gate::CollidesWith`. -/
def CollidesWith (g other : Gate) : Bool :=
  CheckCollisionRecs g.GetBounds other.GetBounds

/-- The member `Gate::GetInputPoint`; `0.5f`, `0.33f`, `0.66f` are `1/2`, `33/100`,
`66/100`. -/
def GetInputPoint (g : Gate) (inputIndex : Int) : Vector2 :=
  if g.type = .INPUT ∨ g.type = .OUTPUT then
    ⟨g.position.x - 8, g.position.y + g.GetSize.y * (1 / 2)⟩
  else
    let offsetY := if inputIndex = 0 then g.GetSize.y * (33 / 100) else g.GetSize.y * (66 / 100)
    ⟨g.position.x - 8, g.position.y + offsetY⟩

/-- The member `Gate::GetOutputPoint`. -/
def GetOutputPoint (g : Gate) : Vector2 :=
  ⟨g.position.x + g.GetSize.x + 8, g.position.y + g.GetSize.y * (1 / 2)⟩

/-- The member `Gate::GetInputCount`. -/
def GetInputCount (g : Gate) : Nat :=
  match g.type with
  | .INPUT => 0
  | .OUTPUT => 1
  | .NOT => 1
  | .AND => 2
  | .OR => 2
  | .NAND => 2
  | .NOR => 2

/-- The member `Gate::HasOutput`. -/
def HasOutput (g : Gate) : Bool := g.type != .OUTPUT

/-- The member `Gate::GetConnectionPoints`: the loop `for i < inputCount` emplaces
the input points, then the output point is emplaced when the gate has one. -/
def GetConnectionPoints (g : Gate) (gateIndex : Int) : List ConnectionPoint :=
  let points := (List.range g.GetInputCount).map
    (fun i => (⟨g.GetInputPoint i, true, gateIndex, i⟩ : ConnectionPoint))
  if g.HasOutput then points ++ [⟨g.GetOutputPoint, false, gateIndex, 0⟩] else points

end Gate

/-- The guard `idx < gates.size()` of the source.  The `int` operand is converted to
`size_t`, so a negative index becomes a huge value and fails the test. -/
def indexInRange (idx : Int) (gates : List Gate) : Bool :=
  decide (0 ≤ idx ∧ idx.toNat < gates.length)

/-! ## Wire.h / Wire.cpp -/

/-- The class `Wire`. -/
structure Wire where
  fromGateIndex : Int
  toGateIndex : Int
  toInputIndex : Int
  state : Bool
  waypoints : List Vector2
deriving DecidableEq

namespace Wire

/-- The constructor `Wire::Wire(from, to, inputIdx)`. -/
def new (fromIdx toIdx inputIdx : Int) : Wire :=
  ⟨fromIdx, toIdx, inputIdx, false, []⟩

/-- The member `Wire::CalculateSimpleLRoute`: pushes two waypoints; `0.7f` is `7/10`. -/
def CalculateSimpleLRoute (waypoints : List Vector2) (start endPt : Vector2) : List Vector2 :=
  let dx := endPt.x - start.x
  let dy := endPt.y - start.y
  if |dx| > |dy| then
    let intermediate : Vector2 := ⟨start.x + dx * (7 / 10), start.y⟩
    waypoints ++ [intermediate] ++ [⟨intermediate.x, endPt.y⟩]
  else
    let intermediate : Vector2 := ⟨start.x, start.y + dy * (7 / 10)⟩
    waypoints ++ [intermediate] ++ [⟨endPt.x, intermediate.y⟩]

/-- The square of what `Wire::DistanceToLineSegment` returns.  The guard
`lineLength == 0` is a test on the squared length, and `lineLength * lineLength`
is the squared length. -/
def DistanceToLineSegmentSqr (point lineStart lineEnd : Vector2) : ℚ :=
  let line : Vector2 := ⟨lineEnd.x - lineStart.x, lineEnd.y - lineStart.y⟩
  let pointToStart : Vector2 := ⟨point.x - lineStart.x, point.y - lineStart.y⟩
  let lineLengthSqr := line.x * line.x + line.y * line.y
  if lineLengthSqr = 0 then
    Vector2DistanceSqr point lineStart
  else
    let t := (pointToStart.x * line.x + pointToStart.y * line.y) / lineLengthSqr
    let t := if t < 0 then 0 else if t > 1 then 1 else t
    let projection : Vector2 := ⟨lineStart.x + line.x * t, lineStart.y + line.y * t⟩
    Vector2DistanceSqr point projection

/-- The test `DistanceToLineSegment(p, a, b) <= threshold` of the source. -/
def segmentNear (point lineStart lineEnd : Vector2) (threshold : ℚ) : Bool :=
  decide (0 ≤ threshold ∧ DistanceToLineSegmentSqr point lineStart lineEnd ≤ threshold * threshold)

/-- The loop of `Wire::IsNearWirePath` over the pairs `waypoints[i], waypoints[i+1]`. -/
def nearPathLoop (mousePos : Vector2) (threshold : ℚ) : List Vector2 → Bool
  | a :: b :: rest =>
    if segmentNear mousePos a b threshold then true
    else nearPathLoop mousePos threshold (b :: rest)
  | _ => false

/-- The member `Wire::IsNearWirePath`. -/
def IsNearWirePath (w : Wire) (mousePos : Vector2) (threshold : ℚ) : Bool :=
  if w.waypoints.length < 2 then false
  else nearPathLoop mousePos threshold w.waypoints

/-- The loop of `Wire::DoesLineIntersectGates` from gate index `i` on, the box
arithmetic taken as exact; `Binary32.lineIntersectLoop` is the same loop with every
operation rounded to binary32. -/
def lineIntersectLoop (w : Wire) (start endPt : Vector2) (clearance : ℚ) :
    Nat → List Gate → Bool
  | _, [] => false
  | i, g :: gs =>
    if (i : Int) = w.fromGateIndex ∨ (i : Int) = w.toGateIndex then
      lineIntersectLoop w start endPt clearance (i + 1) gs
    else
      let gateBounds := g.GetBounds
      let expandedBounds : Rectangle :=
        ⟨gateBounds.x - clearance, gateBounds.y - clearance,
          gateBounds.width + 2 * clearance, gateBounds.height + 2 * clearance⟩
      let lineBounds : Rectangle :=
        ⟨min start.x endPt.x, min start.y endPt.y,
          |endPt.x - start.x| + 1, |endPt.y - start.y| + 1⟩
      if CheckCollisionRecs lineBounds expandedBounds then true
      else lineIntersectLoop w start endPt clearance (i + 1) gs

/-- The member `Wire::DoesLineIntersectGates`. -/
def DoesLineIntersectGates (w : Wire) (start endPt : Vector2) (gates : List Gate)
    (clearance : ℚ) : Bool :=
  lineIntersectLoop w start endPt clearance 0 gates

/-- The member `Wire::DoesRouteIntersectGates`. -/
def DoesRouteIntersectGates (w : Wire) (p1 p2 p3 p4 : Vector2) (gates : List Gate)
    (clearance : ℚ) : Bool :=
  w.DoesLineIntersectGates p1 p2 gates clearance ||
    w.DoesLineIntersectGates p2 p3 gates clearance ||
    w.DoesLineIntersectGates p3 p4 gates clearance

/-- The vector `percentages` of `Wire::CalculateAvoidanceRoute`. -/
def percentages : List ℚ := [1 / 2, 7 / 10, 3 / 10, 4 / 5, 1 / 5]

/-- The vector `offsets` of `Wire::CalculateAvoidanceRoute`. -/
def offsets : List ℚ := [30, 60, 100, -30, -60, -100]

/-- The first loop of `Wire::CalculateAvoidanceRoute`: `some r` when it returns `r`. -/
def straightLoop (w : Wire) (start endPt : Vector2) (gates : List Gate) (clearance : ℚ) :
    List ℚ → Option Vector2
  | [] => none
  | pct :: rest =>
    let dx := endPt.x - start.x
    let dy := endPt.y - start.y
    let horizontalRoute : Vector2 := ⟨start.x + dx * pct, start.y⟩
    if !w.DoesRouteIntersectGates start horizontalRoute ⟨horizontalRoute.x, endPt.y⟩ endPt
        gates clearance then
      some horizontalRoute
    else
      let verticalRoute : Vector2 := ⟨start.x, start.y + dy * pct⟩
      if !w.DoesRouteIntersectGates start verticalRoute ⟨endPt.x, verticalRoute.y⟩ endPt
          gates clearance then
        some verticalRoute
      else straightLoop w start endPt gates clearance rest

/-- The inner loop (over `percentages`) of the offset sweep, for one `offset`. -/
def offsetPctLoop (w : Wire) (start endPt : Vector2) (gates : List Gate) (clearance : ℚ)
    (offset : ℚ) : List ℚ → Option Vector2
  | [] => none
  | pct :: rest =>
    let dx := endPt.x - start.x
    let dy := endPt.y - start.y
    let candidate : Vector2 := ⟨start.x + dx * pct, start.y + offset⟩
    if !w.DoesRouteIntersectGates start candidate ⟨candidate.x, endPt.y⟩ endPt
        gates clearance then
      some candidate
    else
      let candidate : Vector2 := ⟨start.x + offset, start.y + dy * pct⟩
      if !w.DoesRouteIntersectGates start candidate ⟨endPt.x, candidate.y⟩ endPt
          gates clearance then
        some candidate
      else offsetPctLoop w start endPt gates clearance offset rest

/-- The outer loop (over `offsets`) of the offset sweep. -/
def offsetLoop (w : Wire) (start endPt : Vector2) (gates : List Gate) (clearance : ℚ) :
    List ℚ → Option Vector2
  | [] => none
  | offset :: rest =>
    match offsetPctLoop w start endPt gates clearance offset percentages with
    | some r => some r
    | none => offsetLoop w start endPt gates clearance rest

/-- The member `Wire::CalculateAvoidanceRoute`, in exact arithmetic; `{ -1, -1 }` is the
sentinel.  `Binary32.CalculateAvoidanceRoute` is the same function with every operation
rounded to binary32; the two can accept different candidates, see
`CalculateLRoute_not_one_axis`. -/
def CalculateAvoidanceRoute (w : Wire) (start endPt : Vector2) (gates : List Gate)
    (clearance : ℚ) : Vector2 :=
  match straightLoop w start endPt gates clearance percentages with
  | some r => r
  | none =>
    match offsetLoop w start endPt gates clearance offsets with
    | some r => r
    | none => ⟨-1, -1⟩

/-- The member `Wire::CalculateLRoute`; `gates = none` is the null pointer. -/
def CalculateLRoute (w : Wire) (start endPt : Vector2) (gates : Option (List Gate)) : Wire :=
  let waypoints : List Vector2 := [start]
  match gates with
  | none => { w with waypoints := CalculateSimpleLRoute waypoints start endPt }
  | some gs =>
    if gs.isEmpty then
      { w with waypoints := CalculateSimpleLRoute waypoints start endPt }
    else
      let CLEARANCE : ℚ := 5
      let bestRoute := w.CalculateAvoidanceRoute start endPt gs CLEARANCE
      if bestRoute.x ≠ -1 then
        { w with waypoints := waypoints ++ [bestRoute] ++ [⟨bestRoute.x, endPt.y⟩] ++ [endPt] }
      else
        { w with waypoints := CalculateSimpleLRoute waypoints start endPt }

end Wire

/-! ## WiringSystem.h / WiringSystem.cpp -/

/-- The class `WiringSystem`. -/
structure WiringSystem where
  wires : List Wire
  isCreatingWire : Bool
  wireSourceGate : Int
  tempWireEnd : Vector2
deriving DecidableEq

namespace WiringSystem

/-- The state of a freshly constructed `WiringSystem`. -/
def new : WiringSystem := ⟨[], false, -1, ⟨0, 0⟩⟩

/-- The inner loop of `FindConnectionPoint` over the points of one gate. -/
def findInPoints (mousePos : Vector2) : List ConnectionPoint → Option ConnectionPoint
  | [] => none
  | point :: rest =>
    if distanceLE mousePos point.position CONNECTION_SNAP_DISTANCE then some point
    else findInPoints mousePos rest

/-- The outer loop of `FindConnectionPoint` from gate index `i` on. -/
def findFrom (mousePos : Vector2) : Nat → List Gate → Option ConnectionPoint
  | _, [] => none
  | i, g :: gs =>
    match findInPoints mousePos (g.GetConnectionPoints i) with
    | some point => some point
    | none => findFrom mousePos (i + 1) gs

/-- The member `WiringSystem::FindConnectionPoint`; `none` is the null pointer. -/
def FindConnectionPoint (mousePos : Vector2) (gates : List Gate) : Option ConnectionPoint :=
  findFrom mousePos 0 gates

/-- The member `WiringSystem::HandleWireClick`.  The result is `none` when the
unchecked `gates[wireSourceGate]` or `gates[clickedPoint->gateIndex]` is out of range. -/
def HandleWireClick (ws : WiringSystem) (mousePos : Vector2) (gates : List Gate) :
    Option (WiringSystem × Bool) :=
  match FindConnectionPoint mousePos gates with
  | none =>
    if ws.isCreatingWire then
      some ({ ws with isCreatingWire := false, wireSourceGate := -1 }, true)
    else some (ws, false)
  | some clickedPoint =>
    if !ws.isCreatingWire then
      if !clickedPoint.isInput then
        some ({ ws with isCreatingWire := true, wireSourceGate := clickedPoint.gateIndex }, true)
      else some (ws, false)
    else
      if clickedPoint.isInput && clickedPoint.gateIndex != ws.wireSourceGate then
        let alreadyConnected := ws.wires.any (fun wire =>
          wire.toGateIndex == clickedPoint.gateIndex &&
            wire.toInputIndex == clickedPoint.inputIndex)
        if !alreadyConnected then
          if indexInRange ws.wireSourceGate gates && indexInRange clickedPoint.gateIndex gates then
            match gates[ws.wireSourceGate.toNat]?, gates[clickedPoint.gateIndex.toNat]? with
            | some src, some dst =>
              let newWire := Wire.new ws.wireSourceGate clickedPoint.gateIndex
                clickedPoint.inputIndex
              let startPos := src.GetOutputPoint
              let endPos := dst.GetInputPoint clickedPoint.inputIndex
              let newWire := newWire.CalculateLRoute startPos endPos (some gates)
              some ({ ws with wires := ws.wires ++ [newWire], isCreatingWire := false,
                              wireSourceGate := -1 }, true)
            | _, _ => none
          else none
        else some ({ ws with isCreatingWire := false, wireSourceGate := -1 }, true)
      else some ({ ws with isCreatingWire := false, wireSourceGate := -1 }, true)

/-- The loop of `HandleWireDeletion`: `some l` when a wire was erased and `l` remains. -/
def eraseFirstNear (mousePos : Vector2) : List Wire → Option (List Wire)
  | [] => none
  | w :: rest =>
    if w.IsNearWirePath mousePos 10 then some rest
    else (eraseFirstNear mousePos rest).map (fun l => w :: l)

/-- The member `WiringSystem::HandleWireDeletion` (its `gates` argument is unused). -/
def HandleWireDeletion (ws : WiringSystem) (mousePos : Vector2) (_gates : List Gate) :
    WiringSystem × Bool :=
  match eraseFirstNear mousePos ws.wires with
  | some l => ({ ws with wires := l }, true)
  | none => (ws, false)

/-- Phase 1 of `UpdateSignals`, for one gate. -/
def sourcePhase (gate : Gate) : Gate :=
  if gate.GetType = .INPUT then gate.ComputeOutput
  else { gate with input1 := false, input2 := false }

/-- Phase 2 of `UpdateSignals`, for one wire: the body of the propagation loop. -/
def propagateWire (gates : List Gate) (wire : Wire) : List Gate × Wire :=
  if indexInRange wire.fromGateIndex gates && indexInRange wire.toGateIndex gates then
    match gates[wire.fromGateIndex.toNat]?, gates[wire.toGateIndex.toNat]? with
    | some src, some dst =>
      let signal := src.output
      let wire1 := { wire with state := signal }
      if wire.toInputIndex = 0 then
        (gates.set wire.toGateIndex.toNat { dst with input1 := signal }, wire1)
      else if wire.toInputIndex = 1 then
        (gates.set wire.toGateIndex.toNat { dst with input2 := signal }, wire1)
      else (gates, wire1)
    | _, _ => (gates, wire)
  else (gates, wire)

/-- Phase 2 of `UpdateSignals`: the propagation loop, in wire-store order. -/
def propagate : List Gate → List Wire → List Gate × List Wire
  | gates, [] => (gates, [])
  | gates, wire :: rest =>
    let r := propagateWire gates wire
    let r2 := propagate r.1 rest
    (r2.1, r.2 :: r2.2)

/-- Phase 3 of `UpdateSignals`, for one gate. -/
def downstreamPhase (gate : Gate) : Gate :=
  if gate.GetType ≠ .INPUT then gate.ComputeOutput else gate

/-- The final pass of `UpdateSignals`, for one wire. -/
def finalPass (gates : List Gate) (wire : Wire) : Wire :=
  if indexInRange wire.fromGateIndex gates && indexInRange wire.toGateIndex gates then
    match gates[wire.fromGateIndex.toNat]?, gates[wire.toGateIndex.toNat]? with
    | some src, some dst =>
      let wire1 := { wire with state := src.output }
      let startPos := src.GetOutputPoint
      let endPos := dst.GetInputPoint wire.toInputIndex
      wire1.CalculateLRoute startPos endPos (some gates)
    | _, _ => wire
  else wire

/-- The member `WiringSystem::UpdateSignals`: the new wiring system and gate store. -/
def UpdateSignals (ws : WiringSystem) (gates : List Gate) : WiringSystem × List Gate :=
  let gates1 := gates.map sourcePhase
  let r := propagate gates1 ws.wires
  let gates3 := r.1.map downstreamPhase
  let wires4 := r.2.map (finalPass gates3)
  ({ ws with wires := wires4 }, gates3)

/-- The algorithm `std::remove_if` followed by `erase` to the end: the elements
that do not satisfy `pred` are kept, in order. -/
def remove_if (pred : Wire → Bool) : List Wire → List Wire
  | [] => []
  | w :: rest => if pred w then remove_if pred rest else w :: remove_if pred rest

/-- The member `WiringSystem::RemoveWiresForGate`. -/
def RemoveWiresForGate (ws : WiringSystem) (gateIndex : Int) : WiringSystem :=
  let pred : Wire → Bool :=
    fun wire => wire.fromGateIndex == gateIndex || wire.toGateIndex == gateIndex
  { ws with wires := remove_if pred ws.wires }

/-- The loop body of `UpdateWireIndices`, for one wire. -/
def updateWireIndex (removedIndex : Int) (wire : Wire) : Wire :=
  let wire1 := if wire.fromGateIndex > removedIndex then
    { wire with fromGateIndex := wire.fromGateIndex - 1 } else wire
  if wire1.toGateIndex > removedIndex then
    { wire1 with toGateIndex := wire1.toGateIndex - 1 } else wire1

/-- The member `WiringSystem::UpdateWireIndices`. -/
def UpdateWireIndices (ws : WiringSystem) (removedIndex : Int) : WiringSystem :=
  { ws with wires := ws.wires.map (updateWireIndex removedIndex) }

end WiringSystem

/-! ## main.cpp: the DELETE-key block -/

/-- The gate-deletion block of `main`, for `draggedGateIndex = k`:
`RemoveWiresForGate(k); gates.erase(gates.begin() + k); UpdateWireIndices(k)`.
The result is `none` when `k` is not a position of the gate store (the `erase`
is then undefined). -/
def deleteGate (gates : List Gate) (ws : WiringSystem) (k : Int) :
    Option (List Gate × WiringSystem) :=
  if indexInRange k gates then
    let ws1 := ws.RemoveWiresForGate k
    let gates1 := gates.eraseIdx k.toNat
    let ws2 := ws1.UpdateWireIndices k
    some (gates1, ws2)
  else none

/-! ## Notions of the specification -/

/-! ### Signal propagation -/

/-- A wire targets slot `s` of gate `g`. -/
def targets (g s : Int) (w : Wire) : Bool :=
  w.toGateIndex == g && w.toInputIndex == s

/-- The last wire, in wire-store order, that targets slot `s` of gate `g`. -/
def lastWireInto (wires : List Wire) (g s : Int) : Option Wire :=
  (wires.filter (targets g s)).getLast?

/-- The output a gate of the pre-step store shows while the propagation phase runs:
the toggle bit `input1` for an Input-kind gate, the pre-step output otherwise. -/
def outputAtPropagation (g : Gate) : Bool :=
  if g.type = .INPUT then g.input1 else g.output

/-- The value slot `s` of gate `g` is to hold after a step: what the source of the
last wire into `(g, s)` showed during propagation, false when there is no such wire. -/
def slotValue (gates : List Gate) (wires : List Wire) (g s : Int) : Bool :=
  match lastWireInto wires g s with
  | none => false
  | some w =>
    match gates[w.fromGateIndex.toNat]? with
    | some src => outputAtPropagation src
    | none => false

/-- The boolean function of a gate kind on its two slots (the truth tables). -/
def kindFunction : GateType → Bool → Bool → Bool
  | .INPUT, a, _ => a
  | .OUTPUT, a, _ => a
  | .AND, a, b => a && b
  | .OR, a, b => a || b
  | .NOT, a, _ => !a
  | .NAND, a, b => !(a && b)
  | .NOR, a, b => !(a || b)

/-- All wires of a store have source and destination inside the gate store. -/
def WiresInRange (wires : List Wire) (gates : List Gate) : Prop :=
  ∀ w ∈ wires, indexInRange w.fromGateIndex gates = true ∧
    indexInRange w.toGateIndex gates = true

/-- The output shown at position `idx` of a gate store (false outside the store). -/
def outAt (gates : List Gate) (idx : Int) : Bool :=
  match gates[idx.toNat]? with
  | some g => g.output
  | none => false

/-- The value a slot holds after the propagation loop has run over `wires`, when it
held `init` before and `sig` gives the signal read from each source index. -/
def slotAfter (g s : Int) (sig : Int → Bool) : List Wire → Bool → Bool
  | [], init => init
  | w :: rest, init => slotAfter g s sig rest (if targets g s w then sig w.fromGateIndex else init)

/-! ### Wire topology -/

/-- The members of a wire that name its endpoints. -/
def Wire.endpoints (w : Wire) : Int × Int × Int :=
  (w.fromGateIndex, w.toGateIndex, w.toInputIndex)

/-- Fan-in uniqueness: no two wires of the store end at the same
(destination gate, destination slot) pair. -/
def FanInUnique (wires : List Wire) : Prop :=
  wires.Pairwise (fun a b =>
    ¬(a.toGateIndex = b.toGateIndex ∧ a.toInputIndex = b.toInputIndex))

/-- A wire references gate `k`: its source or its destination is `k`. -/
def references (k : Int) (w : Wire) : Bool :=
  w.fromGateIndex == k || w.toGateIndex == k

/-- A gate index after gate `k` has left the store: one less when it was above `k`. -/
def shiftIndex (k i : Int) : Int :=
  if i > k then i - 1 else i

/-- Wire `r` is wire `w` reindexed for the removal of gate `k`: both gate indices
shifted, everything else as it was. -/
def Reindexed (k : Int) (w r : Wire) : Prop :=
  r.fromGateIndex = shiftIndex k w.fromGateIndex ∧
  r.toGateIndex = shiftIndex k w.toGateIndex ∧
  r.toInputIndex = w.toInputIndex ∧ r.state = w.state ∧ r.waypoints = w.waypoints

/-- Wire `r` of the store after the deletion of a gate designates the same source
and destination gates as wire `w` did before. -/
def SameGates (gates gates2 : List Gate) (w r : Wire) : Prop :=
  gates2[r.fromGateIndex.toNat]? = gates[w.fromGateIndex.toNat]? ∧
  gates2[r.toGateIndex.toNat]? = gates[w.toGateIndex.toNat]?

/-- The wiring-system states reachable from the freshly constructed one by the
operations that touch the wire store, each called with any arguments. -/
inductive WireStoreReachable : WiringSystem → Prop
  | init : WireStoreReachable WiringSystem.new
  | click (ws ws2 : WiringSystem) (mousePos : Vector2) (gates : List Gate) (handled : Bool) :
      WireStoreReachable ws → ws.HandleWireClick mousePos gates = some (ws2, handled) →
      WireStoreReachable ws2
  | deletion (ws : WiringSystem) (mousePos : Vector2) (gates : List Gate) :
      WireStoreReachable ws → WireStoreReachable (ws.HandleWireDeletion mousePos gates).1
  | removeForGate (ws : WiringSystem) (k : Int) :
      WireStoreReachable ws → WireStoreReachable (ws.RemoveWiresForGate k)
  | cascade (ws : WiringSystem) (k : Int) :
      WireStoreReachable ws → WireStoreReachable ((ws.RemoveWiresForGate k).UpdateWireIndices k)
  | step (ws : WiringSystem) (gates : List Gate) :
      WireStoreReachable ws → WireStoreReachable (ws.UpdateSignals gates).1

/-! ### Connection points and the wire-creation state machine -/

/-- The connection points of gate `g` at store index `i` in slot order: the input
points by increasing slot index, then the output point when the kind has one. -/
def gatePointsInOrder (g : Gate) (i : Nat) : List ConnectionPoint :=
  (List.range g.GetInputCount).map
      (fun slot => (⟨g.GetInputPoint slot, true, i, slot⟩ : ConnectionPoint)) ++
    (if g.HasOutput then [(⟨g.GetOutputPoint, false, i, 0⟩ : ConnectionPoint)] else [])

/-- Every connection point of a gate store, gates by store index and each gate's points
in slot order. -/
def connectionPointsInOrder (gates : List Gate) : List ConnectionPoint :=
  gates.enum.flatMap (fun ig => gatePointsInOrder ig.2 ig.1)

/-- A connection point lies within the snap radius of a position. -/
def withinSnap (mousePos : Vector2) (p : ConnectionPoint) : Bool :=
  decide (Vector2DistanceSqr mousePos p.position ≤ 15 * 15)

/-- The wiring system back in the Idle state, its wire store untouched. -/
def toIdle (ws : WiringSystem) : WiringSystem :=
  { ws with isCreatingWire := false, wireSourceGate := -1 }

/-- The wiring system in the state PendingSource(`g`), its wire store untouched. -/
def toPending (ws : WiringSystem) (g : Int) : WiringSystem :=
  { ws with isCreatingWire := true, wireSourceGate := g }

/-! ### Wire deletion -/

/-- The point of the segment from `a` to `b` at parameter `s`. -/
def segmentPoint (a b : Vector2) (s : ℚ) : Vector2 :=
  ⟨a.x + (b.x - a.x) * s, a.y + (b.y - a.y) * s⟩

/-- A three-gate store: two Input gates with their toggle bits set, and an AND gate. -/
def sampleGates : List Gate :=
  [⟨.INPUT, ⟨300, 100⟩, true, false, false⟩, ⟨.INPUT, ⟨300, 200⟩, true, false, false⟩,
    ⟨.AND, ⟨500, 150⟩, false, false, false⟩]

/-- A wiring system over `sampleGates`: each Input gate wired to one slot of the AND
gate, with the routes `CalculateLRoute` gives these wires. -/
def sampleSystem : WiringSystem :=
  ⟨[⟨0, 2, 0, false, [⟨368, 120⟩, ⟨430, 120⟩, ⟨430, 333 / 2⟩, ⟨492, 333 / 2⟩]⟩,
    ⟨1, 2, 1, false, [⟨368, 220⟩, ⟨430, 220⟩, ⟨430, 183⟩, ⟨492, 183⟩]⟩], false, -1, ⟨0, 0⟩⟩

/-- A pending wire from gate 0 of the sample store, with both sample wires in place. -/
def samplePending : WiringSystem :=
  { sampleSystem with isCreatingWire := true, wireSourceGate := 0 }

/-- The sample store's first wire alone, with a wire pending from gate 1. -/
def sampleHalfWired : WiringSystem :=
  ⟨[⟨0, 2, 0, false, [⟨368, 120⟩, ⟨430, 120⟩, ⟨430, 333 / 2⟩, ⟨492, 333 / 2⟩]⟩], true, 1, ⟨0, 0⟩⟩

/-- A wire pending from the AND gate (gate 2) of the sample store, no wire stored. -/
def samplePendingSelf : WiringSystem :=
  ⟨[], true, 2, ⟨0, 0⟩⟩

/-! ### Gate placement -/

/-- The gate-placement block of `main`, reached on a click in the main area in placement
mode when no existing gate was hit and a gate type is selected: the new gate is centred
on the mouse and pushed back unless it collides with an existing gate. -/
def placeGate (gates : List Gate) (selectedGateType : GateType) (mousePos : Vector2) :
    List Gate :=
  let gateSize := GATE_DATA_size selectedGateType
  let newPos : Vector2 := ⟨mousePos.x - gateSize.x / 2, mousePos.y - gateSize.y / 2⟩
  let newGate := Gate.new selectedGateType newPos
  let canPlace := !(gates.any (fun existingGate => newGate.CollidesWith existingGate))
  if canPlace then gates ++ [newGate] else gates

/-- Two rectangles overlap: they intersect with positive extent on both axes. -/
def Overlaps (r1 r2 : Rectangle) : Prop :=
  r1.x < r2.x + r2.width ∧ r1.x + r1.width > r2.x ∧
    r1.y < r2.y + r2.height ∧ r1.y + r1.height > r2.y

/-- The gate the placement block proposes for a click at `mousePos`. -/
def proposedGate (selectedGateType : GateType) (mousePos : Vector2) : Gate :=
  Gate.new selectedGateType
    ⟨mousePos.x - (GATE_DATA_size selectedGateType).x / 2,
      mousePos.y - (GATE_DATA_size selectedGateType).y / 2⟩

/-! ### The staleness scenario -/

/-- The store of the staleness scenario: Input gate A with its toggle bit set and AND
gate B, at any positions and with any other member values. -/
def stalenessGates (pA pB : Vector2) (a2 ao b1 b2 bo : Bool) : List Gate :=
  [⟨.INPUT, pA, true, a2, ao⟩, ⟨.AND, pB, b1, b2, bo⟩]

/-- The wiring system of the staleness scenario: one wire from A to slot 0 of B. -/
def stalenessSystem (st : Bool) (wp : List Vector2) : WiringSystem :=
  ⟨[⟨0, 1, 0, st, wp⟩], false, -1, ⟨0, 0⟩⟩

/-- The scenario's second stage: a second Input gate with its toggle bit set is
appended to the gate store and a wire from it to slot 1 of B to the wire store. -/
def connectSecondInput (s : WiringSystem × List Gate) (pC : Vector2) (c2 co st : Bool)
    (wp : List Vector2) : WiringSystem × List Gate :=
  ({ s.1 with wires := s.1.wires ++ [⟨2, 1, 1, st, wp⟩] }, s.2 ++ [⟨.INPUT, pC, true, c2, co⟩])

/-! ### Route synthesis -/

/-- A candidate of the avoidance search: the bend it proposes and the corner at which
the path tested for it turns; the tested path is start, bend, corner, end. -/
structure Candidate where
  bend : Vector2
  corner : Vector2
deriving DecidableEq

/-- The horizontal-first candidate at fraction `f`: the bend keeps the start's y. -/
def horizontalFirst (start endPt : Vector2) (f : ℚ) : Candidate :=
  ⟨⟨start.x + (endPt.x - start.x) * f, start.y⟩, ⟨start.x + (endPt.x - start.x) * f, endPt.y⟩⟩

/-- The vertical-first candidate at fraction `f`: the bend keeps the start's x. -/
def verticalFirst (start endPt : Vector2) (f : ℚ) : Candidate :=
  ⟨⟨start.x, start.y + (endPt.y - start.y) * f⟩, ⟨endPt.x, start.y + (endPt.y - start.y) * f⟩⟩

/-- The offset candidate `(start.x + f·dx, start.y + o)`. -/
def horizontalOffset (start endPt : Vector2) (o f : ℚ) : Candidate :=
  ⟨⟨start.x + (endPt.x - start.x) * f, start.y + o⟩,
    ⟨start.x + (endPt.x - start.x) * f, endPt.y⟩⟩

/-- The offset candidate `(start.x + o, start.y + f·dy)`. -/
def verticalOffset (start endPt : Vector2) (o f : ℚ) : Candidate :=
  ⟨⟨start.x + o, start.y + (endPt.y - start.y) * f⟩,
    ⟨endPt.x, start.y + (endPt.y - start.y) * f⟩⟩

/-- The ten candidates of strategy 1, in the order they are tried. -/
def straightCandidates (start endPt : Vector2) : List Candidate :=
  ([1 / 2, 7 / 10, 3 / 10, 4 / 5, 1 / 5] : List ℚ).flatMap
    (fun f => [horizontalFirst start endPt f, verticalFirst start endPt f])

/-- The sixty candidates of strategy 2 (the offset sweep), in the order they are tried. -/
def offsetCandidates (start endPt : Vector2) : List Candidate :=
  ([30, 60, 100, -30, -60, -100] : List ℚ).flatMap (fun o =>
    ([1 / 2, 7 / 10, 3 / 10, 4 / 5, 1 / 5] : List ℚ).flatMap
      (fun f => [horizontalOffset start endPt o f, verticalOffset start endPt o f]))

/-- The seventy candidates of the avoidance search, in the order they are tried. -/
def candidatesInOrder (start endPt : Vector2) : List Candidate :=
  straightCandidates start endPt ++ offsetCandidates start endPt

/-- The clearance-expanded bounding box of a gate. -/
def expandedBox (g : Gate) (clearance : ℚ) : Rectangle :=
  ⟨g.position.x - clearance, g.position.y - clearance,
    (GATE_DATA_size g.type).x + 2 * clearance, (GATE_DATA_size g.type).y + 2 * clearance⟩

/-- The box the source tests for a segment: its bounding box, one unit larger on each
axis. -/
def segmentBox (a b : Vector2) : Rectangle :=
  ⟨min a.x b.x, min a.y b.y, |b.x - a.x| + 1, |b.y - a.y| + 1⟩

/-- Gate `i` of the store is an obstacle for the wire: it is neither the wire's source
nor its destination. -/
def IsObstacle (w : Wire) (gates : List Gate) (i : Nat) (g : Gate) : Prop :=
  gates[i]? = some g ∧ (i : Int) ≠ w.fromGateIndex ∧ (i : Int) ≠ w.toGateIndex

/-- The segment from `a` to `b` overlaps an expanded obstacle, in the sense the source
tests: the segment's box overlaps the expanded box of some obstacle. -/
def SegmentBlocked (w : Wire) (a b : Vector2) (gates : List Gate) (clearance : ℚ) : Prop :=
  ∃ (i : Nat) (g : Gate), IsObstacle w gates i g ∧
    Overlaps (segmentBox a b) (expandedBox g clearance)

/-- The candidate clears: none of the three segments of its tested path is blocked. -/
def clears (w : Wire) (start endPt : Vector2) (gates : List Gate) (clearance : ℚ)
    (c : Candidate) : Bool :=
  !w.DoesRouteIntersectGates start c.bend c.corner endPt gates clearance

/-- Two gate stores of one length that agree everywhere but at the wire's own source
and destination index. -/
def AgreeOffWire (w : Wire) (gs gs2 : List Gate) : Prop :=
  gs.length = gs2.length ∧
    ∀ i : Nat, (i : Int) ≠ w.fromGateIndex → (i : Int) ≠ w.toGateIndex → gs[i]? = gs2[i]?

/-- The sample store with the first sample wire's own gates replaced (its source,
gate 0, and its destination, gate 2) and gate 1 as it was. -/
def sampleGatesMoved : List Gate :=
  [⟨.INPUT, ⟨100, 400⟩, false, false, true⟩, ⟨.INPUT, ⟨300, 200⟩, true, false, false⟩,
    ⟨.OR, ⟨700, 20⟩, true, true, true⟩]

/-- Two waypoints span a horizontal or a vertical segment (possibly of zero length). -/
def AxisAligned (a b : Vector2) : Prop :=
  a.x = b.x ∨ a.y = b.y

/-- Two waypoints differ along exactly one axis. -/
def DiffersOnOneAxis (a b : Vector2) : Prop :=
  (a.x ≠ b.x ∧ a.y = b.y) ∨ (a.x = b.x ∧ a.y ≠ b.y)

/-- Consecutive waypoints of a route all satisfy `R`. -/
def ConsecutiveWaypoints (R : Vector2 → Vector2 → Prop) (route : List Vector2) : Prop :=
  ∀ (i : Nat) (a b : Vector2), route[i]? = some a → route[i + 1]? = some b → R a b

/-- A two-gate store whose connection points share their height: an Input gate and an
Output gate in one row. -/
def alignedGates : List Gate :=
  [⟨.INPUT, ⟨300, 100⟩, false, false, false⟩, ⟨.OUTPUT, ⟨500, 100⟩, false, false, false⟩]

/-- A store in which a third gate, placed right of the source gate without touching its
footprint, covers the source's output point (368, 120): Input gate 0 at (300, 100),
AND gate 1 at (500, 150), Input gate 2 at (361, 100). -/
def coveredStartGates : List Gate :=
  [⟨.INPUT, ⟨300, 100⟩, false, false, false⟩, ⟨.AND, ⟨500, 150⟩, false, false, false⟩,
    ⟨.INPUT, ⟨361, 100⟩, false, false, false⟩]

/-- A store with a gate standing left of the destination at the destination's height:
Input gate 0 at (300, 100), AND gate 1 at (600, 300), Input gate 2 at (500, 300). -/
def lowObstacleGates : List Gate :=
  [⟨.INPUT, ⟨300, 100⟩, false, false, false⟩, ⟨.AND, ⟨600, 300⟩, false, false, false⟩,
    ⟨.INPUT, ⟨500, 300⟩, false, false, false⟩]

/-- A point lies strictly inside a rectangle. -/
def StrictlyInside (p : Vector2) (r : Rectangle) : Prop :=
  r.x < p.x ∧ p.x < r.x + r.width ∧ r.y < p.y ∧ p.y < r.y + r.height

/-! ### One step, gate by gate and wire by wire -/

/-- The signal the propagation phase reads from source index `idx`, in terms of the
store the step began with: the toggle bit of an Input gate, the output of any other. -/
def signalAt (gates : List Gate) (idx : Int) : Bool :=
  match gates[idx.toNat]? with
  | some src => outputAtPropagation src
  | none => false

/-- What one step makes of gate `g` at index `i`, in terms of the stores it began with. -/
def stepGate (gates : List Gate) (wires : List Wire) (i : Nat) (g : Gate) : Gate :=
  if g.type = .INPUT then
    { g with input1 := slotAfter i 0 (signalAt gates) wires g.input1,
             input2 := slotAfter i 1 (signalAt gates) wires g.input2,
             output := g.input1 }
  else
    { g with input1 := slotAfter i 0 (signalAt gates) wires false,
             input2 := slotAfter i 1 (signalAt gates) wires false,
             output := kindFunction g.type (slotAfter i 0 (signalAt gates) wires false)
               (slotAfter i 1 (signalAt gates) wires false) }

/-- The slot of a gate a wire's slot index names (slot 0 is `input1`, else `input2`). -/
def slotOf (g : Gate) (s : Int) : Bool :=
  if s = 0 then g.input1 else g.input2

/-- A store whose first gate changes its output in the first step: a NOT gate (output
still false) wired to an Output gate. -/
def inverterGates : List Gate :=
  [⟨.NOT, ⟨300, 100⟩, false, false, false⟩, ⟨.OUTPUT, ⟨500, 100⟩, false, false, false⟩]

/-- The wiring system over `inverterGates`: one wire from the NOT gate to slot 0 of the
Output gate. -/
def inverterSystem : WiringSystem :=
  ⟨[⟨0, 1, 0, false, [⟨383, 125⟩, ⟨875 / 2, 125⟩, ⟨875 / 2, 120⟩, ⟨492, 120⟩]⟩], false, -1, ⟨0, 0⟩⟩

/-! ### Wires out of range -/

/-- The guard of the propagation loop and of the final pass: both gate indices of the
wire lie in the gate store. -/
def wireInRange (gates : List Gate) (w : Wire) : Bool :=
  indexInRange w.fromGateIndex gates && indexInRange w.toGateIndex gates

/-- A wire whose source index 5 lies outside the three-gate sample store. -/
def strayWire : Wire :=
  ⟨5, 2, 0, true, [⟨1, 1⟩]⟩

/-- The sample wiring system with `strayWire` put in front of its two wires. -/
def straySystem : WiringSystem :=
  { sampleSystem with wires := strayWire :: sampleSystem.wires }

/-! ### Consecutive steps -/

/-- The stores after `n` consecutive steps, nothing else touching them in between (so
the Input gates' toggle bits are not toggled). -/
def runSteps : Nat → WiringSystem × List Gate → WiringSystem × List Gate
  | 0, s => s
  | n + 1, s => (runSteps n s).1.UpdateSignals (runSteps n s).2

/-- The stores have settled: a further step leaves every gate output and every wire
state unchanged. -/
def Settled (s : WiringSystem × List Gate) : Prop :=
  (s.1.UpdateSignals s.2).2.map Gate.output = s.2.map Gate.output ∧
  (s.1.UpdateSignals s.2).1.wires.map Wire.state = s.1.wires.map Wire.state

/-- The wire store has no feedback cycle: the gate indices can be ranked so that every
wire leads from a lower rank to a higher one. -/
def Acyclic (wires : List Wire) : Prop :=
  ∃ rank : Int → Nat, ∀ w ∈ wires, rank w.fromGateIndex < rank w.toGateIndex

/-- No wire ends at an Input-kind gate (a kind with no input slot). -/
def NoWireIntoInput (wires : List Wire) (gates : List Gate) : Prop :=
  ∀ w ∈ wires, ∀ g, gates[w.toGateIndex.toNat]? = some g → g.type ≠ .INPUT

/-- A well-formed wire store: every wire in range, no two wires into one slot, and each
wire from a gate that has an output to an existing slot of another gate. -/
def WellFormed (wires : List Wire) (gates : List Gate) : Prop :=
  WiresInRange wires gates ∧ FanInUnique wires ∧
  ∀ w ∈ wires, w.fromGateIndex ≠ w.toGateIndex ∧
    (∀ src, gates[w.fromGateIndex.toNat]? = some src → src.HasOutput = true) ∧
    (∀ dst, gates[w.toGateIndex.toNat]? = some dst →
      0 ≤ w.toInputIndex ∧ w.toInputIndex < (dst.GetInputCount : Int))

/-- Stores `s` hold the circuit of stores `s0`: as many gates, of the same kinds, the
Input gates with the same toggle bits, and wires with the same endpoints. -/
def SameCircuit (s0 s : WiringSystem × List Gate) : Prop :=
  s.2.length = s0.2.length ∧
  s.1.wires.map Wire.endpoints = s0.1.wires.map Wire.endpoints ∧
  ∀ (i : Nat) (g0 : Gate), s0.2[i]? = some g0 →
    ∃ g, s.2[i]? = some g ∧ g.type = g0.type ∧ (g0.type = .INPUT → g.input1 = g0.input1)

/-- The signal read from source index `idx` when the outputs are `o`, in the circuit of
the gate store `gates0`. -/
def sigOf (gates0 : List Gate) (o : Int → Bool) (idx : Int) : Bool :=
  match gates0[idx.toNat]? with
  | some g0 => if g0.type = .INPUT then g0.input1 else o idx
  | none => false

/-- The output gate `i` shows after a step taken when the outputs are `o`, in the
circuit of the stores `s0`. -/
def nextOut (s0 : WiringSystem × List Gate) (o : Int → Bool) (i : Nat) : Bool :=
  match s0.2[i]? with
  | none => false
  | some g0 =>
    if g0.type = .INPUT then g0.input1
    else kindFunction g0.type (slotAfter i 0 (sigOf s0.2 o) s0.1.wires false)
      (slotAfter i 1 (sigOf s0.2 o) s0.1.wires false)

/-- Three NOT gates, all outputs false. -/
def ringGates : List Gate :=
  [⟨.NOT, ⟨300, 100⟩, false, false, false⟩, ⟨.NOT, ⟨500, 100⟩, false, false, false⟩,
    ⟨.NOT, ⟨400, 300⟩, false, false, false⟩]

/-- The three NOT gates of `ringGates` wired in a ring: 0 → 1, 1 → 2, 2 → 0. -/
def ringSystem : WiringSystem :=
  ⟨[⟨0, 1, 0, false, []⟩, ⟨1, 2, 0, false, []⟩, ⟨2, 0, 0, false, []⟩], false, -1, ⟨0, 0⟩⟩

/-- A store with both gates of a wire dragged to the left edge of the window: Input gate
0 at (−59, 100), whose output point is (9, 120), and Output gate 1 at (−3, 200), whose
input point is (−11, 220). -/
def leftEdgeGates : List Gate :=
  [⟨.INPUT, ⟨-59, 100⟩, false, false, false⟩, ⟨.OUTPUT, ⟨-3, 200⟩, false, false, false⟩]

/-! ### Combinational value and depth -/

/-- Every wire ends at an existing slot: its slot index is at least 0 and below the slot
count of its destination gate's kind. -/
def SlotsBelowCount (wires : List Wire) (gates : List Gate) : Prop :=
  ∀ w ∈ wires, ∀ dst, gates[w.toGateIndex.toNat]? = some dst →
    0 ≤ w.toInputIndex ∧ w.toInputIndex < (dst.GetInputCount : Int)

/-- The combinational value of gate `i`: the toggle bit for an Input gate; for any other
gate the kind's function of the values `a` and `b` of slots 0 and 1, where the value of
a slot is the combinational value of the source wired into it and false when no wire
ends there. -/
inductive HasVal (gates : List Gate) (wires : List Wire) : Nat → Bool → Prop
  | input (i : Nat) (g : Gate) :
      gates[i]? = some g → g.type = .INPUT → HasVal gates wires i g.input1
  | gate (i : Nat) (g : Gate) (a b : Bool) :
      gates[i]? = some g → g.type ≠ .INPUT →
      (∀ w, lastWireInto wires i 0 = some w → HasVal gates wires w.fromGateIndex.toNat a) →
      (lastWireInto wires i 0 = none → a = false) →
      (∀ w, lastWireInto wires i 1 = some w → HasVal gates wires w.fromGateIndex.toNat b) →
      (lastWireInto wires i 1 = none → b = false) →
      HasVal gates wires i (kindFunction g.type a b)

/-- The depth of gate `i`: 0 for an Input gate; for any other gate 1 + the maximum of
the depths `da` and `db` of the sources wired into slots 0 and 1, an unwired slot
counting 0 (so the depth is 1 when no slot is wired). -/
inductive HasDepth (gates : List Gate) (wires : List Wire) : Nat → Nat → Prop
  | input (i : Nat) (g : Gate) :
      gates[i]? = some g → g.type = .INPUT → HasDepth gates wires i 0
  | gate (i : Nat) (g : Gate) (da db : Nat) :
      gates[i]? = some g → g.type ≠ .INPUT →
      (∀ w, lastWireInto wires i 0 = some w → HasDepth gates wires w.fromGateIndex.toNat da) →
      (lastWireInto wires i 0 = none → da = 0) →
      (∀ w, lastWireInto wires i 1 = some w → HasDepth gates wires w.fromGateIndex.toNat db) →
      (lastWireInto wires i 1 = none → db = 0) →
      HasDepth gates wires i (1 + max da db)

/-! ## Sidebar.cpp and main.cpp: the main loop -/

/-- The raylib `CheckCollisionPointRec`: the left and top edges belong to the rectangle,
the right and bottom edges do not. -/
def CheckCollisionPointRec (point : Vector2) (r : Rectangle) : Bool :=
  decide (point.x ≥ r.x ∧ point.x < r.x + r.width ∧ point.y ≥ r.y ∧ point.y < r.y + r.height)

/-- The constant `SCREEN_HEIGHT`. -/
def SCREEN_HEIGHT : ℚ := 880

/-- The constant `SIDEBAR_WIDTH`. -/
def SIDEBAR_WIDTH : ℚ := 200

/-- The enum `SimulatorMode`. -/
inductive SimulatorMode where
  | PLACEMENT | WIRING
deriving DecidableEq

/-- The member `Gate::ContainsPoint`. -/
def Gate.ContainsPoint (g : Gate) (point : Vector2) : Bool :=
  CheckCollisionPointRec point g.GetBounds

/-- The member `gateTypes` as the constructor `Sidebar::Sidebar` fills it. -/
def Sidebar.gateTypes : List GateType :=
  [.INPUT, .OUTPUT, .AND, .OR, .NOT, .NAND, .NOR]

/-- The gate-button loop of `Sidebar::CheckButtonClick` from the button at height `y` on:
the type of the button hit, if any, and the value of `y` the loop ends with. -/
def Sidebar.buttonLoop (mousePos : Vector2) : ℚ → List GateType → Option GateType × ℚ
  | y, [] => (none, y)
  | y, t :: rest =>
    if CheckCollisionPointRec mousePos ⟨40, y, 75, 50⟩ then (some t, y)
    else Sidebar.buttonLoop mousePos (y + 60) rest

/-- The member `Sidebar::CheckButtonClick`: the gate type returned (`none` for
`(GateType)-1`), then `shouldDeselect`, then `shouldToggleMode`. -/
def Sidebar.CheckButtonClick (mousePos : Vector2) (mode : SimulatorMode) :
    Option GateType × Bool × Bool :=
  if mousePos.x > SIDEBAR_WIDTH then (none, false, false)
  else if CheckCollisionPointRec mousePos ⟨10, SCREEN_HEIGHT - 60, 180, 40⟩ then
    (none, false, true)
  else if mode ≠ .PLACEMENT then (none, false, false)
  else
    match Sidebar.buttonLoop mousePos 120 Sidebar.gateTypes with
    | (some t, _) => (some t, false, false)
    | (none, y) =>
      if CheckCollisionPointRec mousePos ⟨40, y + 20, 75, 30⟩ then (none, true, false)
      else (none, false, false)

/-- The state variables of `main`. -/
structure MainState where
  gates : List Gate
  wiringSystem : WiringSystem
  currentMode : SimulatorMode
  hasSelectedGate : Bool
  selectedGateType : GateType
  draggedGateIndex : Int
  dragOffset : Vector2
deriving DecidableEq

/-- The state `main` enters its loop with. -/
def MainState.new : MainState :=
  ⟨[], WiringSystem.new, .PLACEMENT, false, .INPUT, -1, ⟨0, 0⟩⟩

/-- What raylib reports in one iteration of the loop: `GetMousePosition()`,
`IsMouseButtonPressed`, `IsMouseButtonDown` and `IsMouseButtonReleased` for the left
button, `IsMouseButtonPressed` for the right button, `IsKeyPressed(KEY_DELETE)`. -/
structure FrameInput where
  mousePos : Vector2
  leftPressed : Bool
  leftDown : Bool
  leftReleased : Bool
  rightPressed : Bool
  deletePressed : Bool
deriving DecidableEq

/-- The loop `for i < gates.size()` of the placement branch: the index of the first gate
that contains the mouse position. -/
def findGateAt (mousePos : Vector2) : Nat → List Gate → Option Nat
  | _, [] => none
  | i, g :: rest =>
    if g.ContainsPoint mousePos then some i else findGateAt mousePos (i + 1) rest

/-- The placement branch of the left-click block: a click on an existing gate toggles
it when it is an Input gate and starts dragging it; otherwise a gate of the selected
type, if any, is placed. -/
def placementClick (s : MainState) (mousePos : Vector2) : MainState :=
  match findGateAt mousePos 0 s.gates with
  | some i =>
    match s.gates[i]? with
    | some g =>
      let g1 := if g.GetType = .INPUT then { g with input1 := !g.input1 } else g
      { s with gates := s.gates.set i g1, draggedGateIndex := i,
               dragOffset := ⟨mousePos.x - g.position.x, mousePos.y - g.position.y⟩ }
    | none => s
  | none =>
    if s.hasSelectedGate then
      { s with gates := placeGate s.gates s.selectedGateType mousePos }
    else s

/-- The block `if (IsMouseButtonPressed(MOUSE_LEFT_BUTTON))` of the loop.  The result is
`none` when `HandleWireClick` indexes the gate store out of range. -/
def leftClick (s : MainState) (mousePos : Vector2) : Option MainState :=
  match Sidebar.CheckButtonClick mousePos s.currentMode with
  | (clickedGate, shouldDeselect, shouldToggleMode) =>
    if shouldToggleMode then
      some { s with
        currentMode := if s.currentMode = .PLACEMENT then .WIRING else .PLACEMENT,
        hasSelectedGate := false }
    else if shouldDeselect then some { s with hasSelectedGate := false }
    else
      match clickedGate with
      | some t => some { s with selectedGateType := t, hasSelectedGate := true }
      | none =>
        if mousePos.x > SIDEBAR_WIDTH then
          if s.currentMode = .PLACEMENT then some (placementClick s mousePos)
          else
            match s.wiringSystem.HandleWireClick mousePos s.gates with
            | some r => some { s with wiringSystem := r.1 }
            | none => none
        else some s

/-- The right-click block of the loop. -/
def rightClick (s : MainState) (mousePos : Vector2) : MainState :=
  if s.currentMode = .WIRING ∧ mousePos.x > SIDEBAR_WIDTH then
    { s with wiringSystem := (s.wiringSystem.HandleWireDeletion mousePos s.gates).1 }
  else s

/-- The dragging block of the loop.  The result is `none` when `gates[draggedGateIndex]`
is out of range. -/
def dragging (s : MainState) (inp : FrameInput) : Option MainState :=
  if s.currentMode = .PLACEMENT then
    let moved : Option MainState :=
      if inp.leftDown ∧ s.draggedGateIndex ≠ -1 then
        if indexInRange s.draggedGateIndex s.gates then
          match s.gates[s.draggedGateIndex.toNat]? with
          | some g =>
            let g1 : Gate := { g with position :=
              ⟨inp.mousePos.x - s.dragOffset.x, inp.mousePos.y - s.dragOffset.y⟩ }
            some { s with gates := s.gates.set s.draggedGateIndex.toNat g1 }
          | none => none
        else none
      else some s
    match moved with
    | some s1 => if inp.leftReleased then some { s1 with draggedGateIndex := -1 } else some s1
    | none => none
  else some s

/-- The DELETE-key block of the loop.  The result is `none` when the erased position is
not in the gate store. -/
def deleteKey (s : MainState) (inp : FrameInput) : Option MainState :=
  if inp.deletePressed ∧ s.draggedGateIndex ≠ -1 then
    match deleteGate s.gates s.wiringSystem s.draggedGateIndex with
    | some r => some { s with gates := r.1, wiringSystem := r.2, draggedGateIndex := -1 }
    | none => none
  else some s

/-- The call `wiringSystem.UpdateSignals(gates)` of the loop. -/
def logicStep (s : MainState) : MainState :=
  { s with gates := (s.wiringSystem.UpdateSignals s.gates).2,
           wiringSystem := (s.wiringSystem.UpdateSignals s.gates).1 }

/-- One iteration of the loop of `main` (the rendering changes no state). -/
def mainLoopBody (s : MainState) (inp : FrameInput) : Option MainState :=
  match (if inp.leftPressed then leftClick s inp.mousePos else some s) with
  | none => none
  | some s1 =>
    let s2 := if inp.rightPressed then rightClick s1 inp.mousePos else s1
    match dragging s2 inp with
    | none => none
    | some s3 =>
      match deleteKey s3 inp with
      | none => none
      | some s4 => some (logicStep s4)

/-- The iterations of the loop for a sequence of inputs. -/
def runFrames : List FrameInput → MainState → Option MainState
  | [], s => some s
  | inp :: rest, s =>
    match mainLoopBody s inp with
    | some s1 => runFrames rest s1
    | none => none

/-- The states the program reaches: the initial one and every state an iteration of the
loop produces from a reached state. -/
inductive MainReachable : MainState → Prop
  | init : MainReachable MainState.new
  | frame (s s2 : MainState) (inp : FrameInput) :
      MainReachable s → mainLoopBody s inp = some s2 → MainReachable s2

/-! ### Invariants of the main loop -/

/-- The wire properties the loop maintains: every wire in range, from a gate index other
than its destination index, into an existing slot of its destination gate. -/
def WiresSound (wires : List Wire) (gates : List Gate) : Prop :=
  WiresInRange wires gates ∧ (∀ w ∈ wires, w.fromGateIndex ≠ w.toGateIndex) ∧
    SlotsBelowCount wires gates

/-- Slot 1 of every Input gate of the store is false. -/
def InputSlotsClear (gates : List Gate) : Prop :=
  ∀ g ∈ gates, g.type = .INPUT → g.input2 = false

/-! ### Input sequences -/

/-- A left click at `p`: a frame in which the button goes down, then one in which it is
released. -/
def clickAt (p : Vector2) : List FrameInput :=
  [⟨p, true, true, false, false, false⟩, ⟨p, false, false, true, false, false⟩]

/-- Deleting the gate under `p`: the left button goes down on it, DELETE is pressed
while the button is held, and the button is released. -/
def deleteAt (p : Vector2) : List FrameInput :=
  [⟨p, true, true, false, false, false⟩, ⟨p, false, true, false, false, true⟩,
    ⟨p, false, false, true, false, false⟩]

/-- An input sequence that leaves a wire pending from a gate index outside the store:
select INPUT and place a gate at (300, 100); select NOT and place a gate at (300, 300);
switch to wiring mode and click the NOT gate's output point (383, 325); switch back to
placement mode and delete the Input gate. -/
def stalePendingInputs : List FrameInput :=
  clickAt ⟨50, 130⟩ ++ clickAt ⟨330, 120⟩ ++ clickAt ⟨50, 370⟩ ++ clickAt ⟨675 / 2, 325⟩ ++
    clickAt ⟨100, 840⟩ ++ clickAt ⟨383, 325⟩ ++ clickAt ⟨100, 840⟩ ++ deleteAt ⟨330, 120⟩

/-- An input sequence that stores a wire whose source is an Output gate: select INPUT
and place a gate at (300, 100); select NOT and place a gate at (300, 300); select OUTPUT
and place a gate at (600, 300); switch to wiring mode and click the NOT gate's output
point (383, 325); switch to placement mode and delete the Input gate; switch to wiring
mode and click the NOT gate's input point (292, 633/2). -/
def outputSourceInputs : List FrameInput :=
  clickAt ⟨50, 130⟩ ++ clickAt ⟨330, 120⟩ ++ clickAt ⟨50, 370⟩ ++ clickAt ⟨675 / 2, 325⟩ ++
    clickAt ⟨50, 190⟩ ++ clickAt ⟨630, 320⟩ ++
    clickAt ⟨100, 840⟩ ++ clickAt ⟨383, 325⟩ ++ clickAt ⟨100, 840⟩ ++ deleteAt ⟨330, 120⟩ ++
    clickAt ⟨100, 840⟩ ++ clickAt ⟨292, 633 / 2⟩
/-- What every iteration of the loop maintains: the wires are sound, slot 1 of every
Input gate is false, and a pending wire's source index is not negative. -/
def MainInvariant (s : MainState) : Prop :=
  WiresSound s.wiringSystem.wires s.gates ∧ InputSlotsClear s.gates ∧
    (s.wiringSystem.isCreatingWire = true → 0 ≤ s.wiringSystem.wireSourceGate)
/-- The state the inputs `stalePendingInputs` lead to: the NOT gate alone in the store,
and a wire pending from gate index 1. -/
def stalePendingState : MainState :=
  ⟨[⟨.NOT, ⟨300, 300⟩, false, false, true⟩], ⟨[], true, 1, ⟨0, 0⟩⟩, .PLACEMENT, false, .NOT, -1,
    ⟨30, 20⟩⟩

/-- The state the inputs `outputSourceInputs` lead to: the NOT gate and the Output gate,
and one wire from gate index 1, the Output gate, to slot 0 of the NOT gate. -/
def outputSourceState : MainState :=
  ⟨[⟨.NOT, ⟨300, 300⟩, false, false, true⟩, ⟨.OUTPUT, ⟨600, 300⟩, false, false, false⟩],
    ⟨[⟨1, 0, 0, false, [⟨668, 320⟩, ⟨480, 320⟩, ⟨480, 633 / 2⟩, ⟨292, 633 / 2⟩]⟩], false, -1,
      ⟨0, 0⟩⟩,
    .WIRING, false, .OUTPUT, -1, ⟨30, 20⟩⟩

/-! ## The route search in binary32 arithmetic

The definitions above take `float` arithmetic as exact.  In the route search the
rounding of binary32 can change which candidate is accepted, so the functions of
`Wire.cpp`, `Wire.h` and `Gate.cpp` that take part in it are given here a second time
with every arithmetic operation rounded to binary32 (round to nearest, ties to even;
comparisons, `std::min`, `std::abs` and negation are exact on binary32 values). -/

namespace Binary32

/-- The power `2 ^ k` for an integer `k`. -/
def pow2 (k : Int) : ℚ :=
  if 0 ≤ k then ((2 ^ k.toNat : Nat) : ℚ) else 1 / ((2 ^ (-k).toNat : Nat) : ℚ)

/-- The number of halvings that bring `n` below 2, at most `fuel` of them. -/
def halvings : Nat → Nat → Nat
  | 0, _ => 0
  | fuel + 1, n => if n < 2 then 0 else halvings fuel (n / 2) + 1

/-- The binary logarithm of a positive natural number, rounded down. -/
def floorLog2 (n : Nat) : Nat := halvings n n

/-- The binary exponent of a positive rational `a`: the `e` with `2 ^ e ≤ a < 2 ^ (e + 1)`. -/
def exponent (a : ℚ) : Int :=
  let e : Int := (floorLog2 a.num.natAbs : Int) - (floorLog2 a.den : Int)
  if a < pow2 e then e - 1 else e

/-- The binary32 value nearest to `q`, ties to the even significand: 24 significant bits,
least exponent −126 (below it the spacing stays `2 ^ (−149)`).  Values of magnitude
`2 ^ 128` and above, which binary32 turns into infinities, are not modelled. -/
def round (q : ℚ) : ℚ :=
  if q = 0 then 0
  else
    let a := |q|
    let e := max (exponent a) (-126)
    let ulp := pow2 (e - 23)
    let n := a / ulp
    let fl : Int := n.num / n.den
    let rem := n - fl
    let m : Int := if rem > 1 / 2 ∨ (rem = 1 / 2 ∧ fl % 2 = 1) then fl + 1 else fl
    if q > 0 then m * ulp else -(m * ulp)

/-- The binary32 sum. -/
def add (a b : ℚ) : ℚ := round (a + b)

/-- The binary32 difference. -/
def sub (a b : ℚ) : ℚ := round (a - b)

/-- The binary32 product. -/
def mul (a b : ℚ) : ℚ := round (a * b)

/-- The member `Gate::GetInputPoint`; `0.5f`, `0.33f`, `0.66f` are the binary32 values
nearest to the decimal literals. -/
def GetInputPoint (g : Gate) (inputIndex : Int) : Vector2 :=
  if g.type = .INPUT ∨ g.type = .OUTPUT then
    ⟨sub g.position.x 8, add g.position.y (mul g.GetSize.y (round (1 / 2)))⟩
  else
    let offsetY := if inputIndex = 0 then mul g.GetSize.y (round (33 / 100))
      else mul g.GetSize.y (round (66 / 100))
    ⟨sub g.position.x 8, add g.position.y offsetY⟩

/-- The member `Gate::GetOutputPoint`. -/
def GetOutputPoint (g : Gate) : Vector2 :=
  ⟨add (add g.position.x g.GetSize.x) 8, add g.position.y (mul g.GetSize.y (round (1 / 2)))⟩

/-- The raylib `CheckCollisionRecs`. -/
def CheckCollisionRecs (rec1 rec2 : Rectangle) : Bool :=
  decide (rec1.x < add rec2.x rec2.width ∧ add rec1.x rec1.width > rec2.x ∧
    rec1.y < add rec2.y rec2.height ∧ add rec1.y rec1.height > rec2.y)

/-- The loop of `Wire::DoesLineIntersectGates` from gate index `i` on. -/
def lineIntersectLoop (w : Wire) (start endPt : Vector2) (clearance : ℚ) :
    Nat → List Gate → Bool
  | _, [] => false
  | i, g :: gs =>
    if (i : Int) = w.fromGateIndex ∨ (i : Int) = w.toGateIndex then
      lineIntersectLoop w start endPt clearance (i + 1) gs
    else
      let gateBounds := g.GetBounds
      let expandedBounds : Rectangle :=
        ⟨sub gateBounds.x clearance, sub gateBounds.y clearance,
          add gateBounds.width (mul 2 clearance), add gateBounds.height (mul 2 clearance)⟩
      let lineBounds : Rectangle :=
        ⟨min start.x endPt.x, min start.y endPt.y,
          add |sub endPt.x start.x| 1, add |sub endPt.y start.y| 1⟩
      if CheckCollisionRecs lineBounds expandedBounds then true
      else lineIntersectLoop w start endPt clearance (i + 1) gs

/-- The member `Wire::DoesLineIntersectGates`. -/
def DoesLineIntersectGates (w : Wire) (start endPt : Vector2) (gates : List Gate)
    (clearance : ℚ) : Bool :=
  lineIntersectLoop w start endPt clearance 0 gates

/-- The member `Wire::DoesRouteIntersectGates`. -/
def DoesRouteIntersectGates (w : Wire) (p1 p2 p3 p4 : Vector2) (gates : List Gate)
    (clearance : ℚ) : Bool :=
  DoesLineIntersectGates w p1 p2 gates clearance ||
    DoesLineIntersectGates w p2 p3 gates clearance ||
    DoesLineIntersectGates w p3 p4 gates clearance

/-- The vector `percentages` of `Wire::CalculateAvoidanceRoute`: the binary32 values
nearest to 0.5, 0.7, 0.3, 0.8, 0.2. -/
def percentages : List ℚ :=
  [round (1 / 2), round (7 / 10), round (3 / 10), round (4 / 5), round (1 / 5)]

/-- The vector `offsets` of `Wire::CalculateAvoidanceRoute`. -/
def offsets : List ℚ := [30, 60, 100, -30, -60, -100]

/-- The first loop of `Wire::CalculateAvoidanceRoute`: `some r` when it returns `r`. -/
def straightLoop (w : Wire) (start endPt : Vector2) (gates : List Gate) (clearance : ℚ) :
    List ℚ → Option Vector2
  | [] => none
  | pct :: rest =>
    let dx := sub endPt.x start.x
    let dy := sub endPt.y start.y
    let horizontalRoute : Vector2 := ⟨add start.x (mul dx pct), start.y⟩
    if !DoesRouteIntersectGates w start horizontalRoute ⟨horizontalRoute.x, endPt.y⟩ endPt
        gates clearance then
      some horizontalRoute
    else
      let verticalRoute : Vector2 := ⟨start.x, add start.y (mul dy pct)⟩
      if !DoesRouteIntersectGates w start verticalRoute ⟨endPt.x, verticalRoute.y⟩ endPt
          gates clearance then
        some verticalRoute
      else straightLoop w start endPt gates clearance rest

/-- The inner loop (over `percentages`) of the offset sweep, for one `offset`. -/
def offsetPctLoop (w : Wire) (start endPt : Vector2) (gates : List Gate) (clearance : ℚ)
    (offset : ℚ) : List ℚ → Option Vector2
  | [] => none
  | pct :: rest =>
    let dx := sub endPt.x start.x
    let dy := sub endPt.y start.y
    let candidate : Vector2 := ⟨add start.x (mul dx pct), add start.y offset⟩
    if !DoesRouteIntersectGates w start candidate ⟨candidate.x, endPt.y⟩ endPt
        gates clearance then
      some candidate
    else
      let candidate : Vector2 := ⟨add start.x offset, add start.y (mul dy pct)⟩
      if !DoesRouteIntersectGates w start candidate ⟨endPt.x, candidate.y⟩ endPt
          gates clearance then
        some candidate
      else offsetPctLoop w start endPt gates clearance offset rest

/-- The outer loop (over `offsets`) of the offset sweep. -/
def offsetLoop (w : Wire) (start endPt : Vector2) (gates : List Gate) (clearance : ℚ) :
    List ℚ → Option Vector2
  | [] => none
  | offset :: rest =>
    match offsetPctLoop w start endPt gates clearance offset percentages with
    | some r => some r
    | none => offsetLoop w start endPt gates clearance rest

/-- The member `Wire::CalculateAvoidanceRoute`; `{ -1, -1 }` is the sentinel. -/
def CalculateAvoidanceRoute (w : Wire) (start endPt : Vector2) (gates : List Gate)
    (clearance : ℚ) : Vector2 :=
  match straightLoop w start endPt gates clearance percentages with
  | some r => r
  | none =>
    match offsetLoop w start endPt gates clearance offsets with
    | some r => r
    | none => ⟨-1, -1⟩

/-- The member `Wire::CalculateSimpleLRoute`: pushes two waypoints. -/
def CalculateSimpleLRoute (waypoints : List Vector2) (start endPt : Vector2) : List Vector2 :=
  let dx := sub endPt.x start.x
  let dy := sub endPt.y start.y
  if |dx| > |dy| then
    let intermediate : Vector2 := ⟨add start.x (mul dx (round (7 / 10))), start.y⟩
    waypoints ++ [intermediate] ++ [⟨intermediate.x, endPt.y⟩]
  else
    let intermediate : Vector2 := ⟨start.x, add start.y (mul dy (round (7 / 10)))⟩
    waypoints ++ [intermediate] ++ [⟨endPt.x, intermediate.y⟩]

/-- The member `Wire::CalculateLRoute`; `gates = none` is the null pointer. -/
def CalculateLRoute (w : Wire) (start endPt : Vector2) (gates : Option (List Gate)) : Wire :=
  let waypoints : List Vector2 := [start]
  match gates with
  | none => { w with waypoints := CalculateSimpleLRoute waypoints start endPt }
  | some gs =>
    if gs.isEmpty then
      { w with waypoints := CalculateSimpleLRoute waypoints start endPt }
    else
      let CLEARANCE : ℚ := 5
      let bestRoute := CalculateAvoidanceRoute w start endPt gs CLEARANCE
      if bestRoute.x ≠ -1 then
        { w with waypoints := waypoints ++ [bestRoute] ++ [⟨bestRoute.x, endPt.y⟩] ++ [endPt] }
      else
        { w with waypoints := CalculateSimpleLRoute waypoints start endPt }

end Binary32

/-- A store with gate 0 at a height between two pixels: Input gate 0 at
(300, 2 + 2⁻¹⁹), AND gate 1 at (600, 200), Input gate 2 at (362, 28).  Every coordinate
is a binary32 value.  The output point of gate 0 is (368, 22 + 2⁻¹⁹), just below the top
edge y = 23 of gate 2's expanded box. -/
def subPixelGates : List Gate :=
  [⟨.INPUT, ⟨300, 1048577 / 524288⟩, false, false, false⟩,
    ⟨.AND, ⟨600, 200⟩, false, false, false⟩, ⟨.INPUT, ⟨362, 28⟩, false, false, false⟩]
/-- The bend of the stored route was supplied by the offset sweep (exact arithmetic): the
gate list is not empty, the first loop of `CalculateAvoidanceRoute` returned nothing, and
the search's result is not taken for the sentinel. -/
def OffsetBendStored (w : Wire) (start endPt : Vector2) (gates : Option (List Gate)) : Prop :=
  ∃ gs, gates = some gs ∧ gs.isEmpty = false ∧
    Wire.straightLoop w start endPt gs 5 Wire.percentages = none ∧
    (w.CalculateAvoidanceRoute start endPt gs 5).x ≠ -1

/-- The bend of the stored route was supplied by the offset sweep (binary32 arithmetic). -/
def Binary32.OffsetBendStored (w : Wire) (start endPt : Vector2)
    (gates : Option (List Gate)) : Prop :=
  ∃ gs, gates = some gs ∧ gs.isEmpty = false ∧
    Binary32.straightLoop w start endPt gs 5 Binary32.percentages = none ∧
    (Binary32.CalculateAvoidanceRoute w start endPt gs 5).x ≠ -1
/-- A store in which an input point of gate 0 lies within snap distance of the output
point of gate 1: AND gate 0 at (400, 100), with input points (392, 233/2) and (392, 133),
and Input gate 1 at (316, 100), with output point (384, 120). -/
def shadowedOutputGates : List Gate :=
  [⟨.AND, ⟨400, 100⟩, false, false, false⟩, ⟨.INPUT, ⟨316, 100⟩, false, false, false⟩]

/-! ## Theorems -/

/-! ### Signal propagation -/

theorem indexInRange_iff (idx : Int) (gates : List Gate) :
    indexInRange idx gates = true ↔ 0 ≤ idx ∧ idx.toNat < gates.length := by
  simp [indexInRange]

theorem indexInRange_of_length_eq {gates gates2 : List Gate} (h : gates2.length = gates.length)
    (idx : Int) : indexInRange idx gates2 = indexInRange idx gates := by
  simp [indexInRange, h]

theorem slotAfter_eq (g s : Int) (sig : Int → Bool) (wires : List Wire) (init : Bool) :
    slotAfter g s sig wires init =
      match lastWireInto wires g s with
      | none => init
      | some w => sig w.fromGateIndex := by
  induction wires generalizing init with
  | nil => simp [slotAfter, lastWireInto]
  | cons w rest ih =>
    rw [slotAfter, ih]
    unfold lastWireInto
    by_cases ht : targets g s w = true
    · rw [List.filter_cons_of_pos ht, List.getLast?_cons, if_pos ht]
      cases hl : (List.filter (targets g s) rest).getLast? <;> simp
    · rw [List.filter_cons_of_neg ht, if_neg ht]

theorem propagateWire_length (gates : List Gate) (w : Wire) :
    (WiringSystem.propagateWire gates w).1.length = gates.length := by
  unfold WiringSystem.propagateWire
  split
  · split
    · split
      · simp
      · split <;> simp
    · rfl
  · rfl

theorem propagateWire_get (gates : List Gate) (w : Wire)
    (hr : indexInRange w.fromGateIndex gates = true ∧ indexInRange w.toGateIndex gates = true)
    (i : Nat) (g : Gate) (hg : gates[i]? = some g) :
    ∃ g2, (WiringSystem.propagateWire gates w).1[i]? = some g2 ∧
      g2.type = g.type ∧ g2.position = g.position ∧ g2.output = g.output ∧
      g2.input1 = (if targets i 0 w then outAt gates w.fromGateIndex else g.input1) ∧
      g2.input2 = (if targets i 1 w then outAt gates w.fromGateIndex else g.input2) := by
  obtain ⟨hf, ht⟩ := hr
  have hf2 := (indexInRange_iff _ _).1 hf
  have ht2 := (indexInRange_iff _ _).1 ht
  obtain ⟨src, hsrc⟩ : ∃ src, gates[w.fromGateIndex.toNat]? = some src :=
    ⟨_, List.getElem?_eq_getElem hf2.2⟩
  obtain ⟨dst, hdst⟩ : ∃ dst, gates[w.toGateIndex.toNat]? = some dst :=
    ⟨_, List.getElem?_eq_getElem ht2.2⟩
  have hto : ∀ s : Int, targets i s w = true ↔ (w.toGateIndex.toNat = i ∧ w.toInputIndex = s) := by
    intro s
    simp only [targets, Bool.and_eq_true, beq_iff_eq]
    constructor
    · rintro ⟨h1, h2⟩; exact ⟨by omega, h2⟩
    · rintro ⟨h1, h2⟩; exact ⟨by omega, h2⟩
  unfold WiringSystem.propagateWire
  simp only [hf, ht, Bool.and_self, if_true, hsrc, hdst, outAt]
  by_cases h0 : w.toInputIndex = 0
  · simp only [h0, if_true, List.getElem?_set]
    by_cases hi : w.toGateIndex.toNat = i
    · have hdg : dst = g := by rw [hi] at hdst; rw [hg] at hdst; exact (Option.some.inj hdst).symm
      subst hdg
      have h1 : targets i 0 w = true := (hto 0).2 ⟨hi, h0⟩
      have h2 : ¬ targets i 1 w = true := fun h => by have := ((hto 1).1 h).2; omega
      simp [hi, ht2.2, h1, h2, (List.getElem?_eq_some.1 hg).1]
    · have h1 : ¬ targets i 0 w = true := fun h => hi ((hto 0).1 h).1
      have h2 : ¬ targets i 1 w = true := fun h => hi ((hto 1).1 h).1
      simp [hi, h1, h2, hg]
  · by_cases h1 : w.toInputIndex = 1
    · simp only [h1, if_true, List.getElem?_set]
      by_cases hi : w.toGateIndex.toNat = i
      · have hdg : dst = g := by rw [hi] at hdst; rw [hg] at hdst; exact (Option.some.inj hdst).symm
        subst hdg
        have h3 : targets i 1 w = true := (hto 1).2 ⟨hi, h1⟩
        have h2 : ¬ targets i 0 w = true := fun h => by have := ((hto 0).1 h).2; omega
        simp [hi, ht2.2, h3, h2, (List.getElem?_eq_some.1 hg).1]
      · have h3 : ¬ targets i 0 w = true := fun h => hi ((hto 0).1 h).1
        have h2 : ¬ targets i 1 w = true := fun h => hi ((hto 1).1 h).1
        simp [hi, h3, h2, hg]
    · have h3 : ¬ targets i 0 w = true := fun h => h0 ((hto 0).1 h).2
      have h2 : ¬ targets i 1 w = true := fun h => h1 ((hto 1).1 h).2
      simp [h0, h1, h3, h2, hg]


/-- C2: for all slot values `a`, `b`, `Gate::ComputeOutput` sets the output to
`a ∧ b` for AND, `a ∨ b` for OR, `¬(a ∧ b)` for NAND, `¬(a ∨ b)` for NOR, `¬a` for NOT
and `a` for OUTPUT (the last two whatever `b` is), and changes no other member. -/
theorem ComputeOutput_truth_table (pos : Vector2) (a b o : Bool) :
    Gate.ComputeOutput ⟨.AND, pos, a, b, o⟩ = ⟨.AND, pos, a, b, a && b⟩ ∧
    Gate.ComputeOutput ⟨.OR, pos, a, b, o⟩ = ⟨.OR, pos, a, b, a || b⟩ ∧
    Gate.ComputeOutput ⟨.NAND, pos, a, b, o⟩ = ⟨.NAND, pos, a, b, !(a && b)⟩ ∧
    Gate.ComputeOutput ⟨.NOR, pos, a, b, o⟩ = ⟨.NOR, pos, a, b, !(a || b)⟩ ∧
    Gate.ComputeOutput ⟨.NOT, pos, a, b, o⟩ = ⟨.NOT, pos, a, b, !a⟩ ∧
    Gate.ComputeOutput ⟨.OUTPUT, pos, a, b, o⟩ = ⟨.OUTPUT, pos, a, b, a⟩ := by
  refine ⟨rfl, rfl, rfl, rfl, rfl, rfl⟩

theorem outAt_propagateWire (gates : List Gate) (w : Wire)
    (hr : indexInRange w.fromGateIndex gates = true ∧ indexInRange w.toGateIndex gates = true)
    (idx : Int) : outAt (WiringSystem.propagateWire gates w).1 idx = outAt gates idx := by
  unfold outAt
  cases hg : gates[idx.toNat]? with
  | none =>
    have hlen : gates.length ≤ idx.toNat := by
      by_contra hc
      rw [List.getElem?_eq_getElem (by omega)] at hg
      cases hg
    rw [List.getElem?_eq_none (by rw [propagateWire_length]; exact hlen)]
  | some g =>
    obtain ⟨g2, h2, -, -, ho, -⟩ := propagateWire_get gates w hr idx.toNat g hg
    simp [h2, ho]

theorem propagate_length (wires : List Wire) (gates : List Gate) :
    (WiringSystem.propagate gates wires).1.length = gates.length := by
  induction wires generalizing gates with
  | nil => rfl
  | cons w rest ih => simp only [WiringSystem.propagate, ih, propagateWire_length]

theorem propagate_wires_length (wires : List Wire) (gates : List Gate) :
    (WiringSystem.propagate gates wires).2.length = wires.length := by
  induction wires generalizing gates with
  | nil => rfl
  | cons w rest ih => simp only [WiringSystem.propagate, List.length_cons, ih]

theorem propagate_get (wires : List Wire) (gates : List Gate) (hr : WiresInRange wires gates)
    (i : Nat) (g : Gate) (hg : gates[i]? = some g) :
    ∃ g2, (WiringSystem.propagate gates wires).1[i]? = some g2 ∧
      g2.type = g.type ∧ g2.position = g.position ∧ g2.output = g.output ∧
      g2.input1 = slotAfter i 0 (outAt gates) wires g.input1 ∧
      g2.input2 = slotAfter i 1 (outAt gates) wires g.input2 := by
  induction wires generalizing gates g with
  | nil => exact ⟨g, hg, rfl, rfl, rfl, rfl, rfl⟩
  | cons w rest ih =>
    have hw := hr w (List.mem_cons_self _ _)
    obtain ⟨g1, hg1, ht1, hp1, ho1, hi1, hi2⟩ := propagateWire_get gates w hw i g hg
    have hlen := propagateWire_length gates w
    have hr2 : WiresInRange rest (WiringSystem.propagateWire gates w).1 := by
      intro x hx
      rw [indexInRange_of_length_eq hlen, indexInRange_of_length_eq hlen]
      exact hr x (List.mem_cons_of_mem _ hx)
    obtain ⟨g2, hg2, ht2, hp2, ho2, hj1, hj2⟩ := ih _ hr2 g1 hg1
    have hsig : outAt (WiringSystem.propagateWire gates w).1 = outAt gates :=
      funext (outAt_propagateWire gates w hw)
    refine ⟨g2, hg2, ht2.trans ht1, hp2.trans hp1, ho2.trans ho1, ?_, ?_⟩
    · rw [hj1, hsig, hi1]; rfl
    · rw [hj2, hsig, hi2]; rfl

theorem outAt_sourcePhase (gates : List Gate) (idx : Int) :
    outAt (gates.map WiringSystem.sourcePhase) idx =
      match gates[idx.toNat]? with
      | some src => outputAtPropagation src
      | none => false := by
  unfold outAt
  rw [List.getElem?_map]
  cases hg : gates[idx.toNat]? with
  | none => rfl
  | some g =>
    simp only [Option.map_some', WiringSystem.sourcePhase, Gate.GetType, outputAtPropagation]
    by_cases h : g.type = .INPUT
    · simp [h, Gate.ComputeOutput]
    · simp [h]

theorem ComputeOutput_eq (g : Gate) :
    g.ComputeOutput = { g with output := kindFunction g.type g.input1 g.input2 } := by
  obtain ⟨t, p, a, b, o⟩ := g
  cases t <;> rfl

/-- C1: one call of `UpdateSignals` on a wire store whose wires are all in range
keeps the gate store's length and kinds and leaves (1) every Input-kind gate's output
equal to the toggle bit `input1` it held when the step began (a bit the step itself
keeps unless a wire ends at slot 0 of that Input gate), (2) both slots of every other
gate equal to `slotValue` (the signal the source of the last wire into that slot showed
during propagation, false with no such wire), and (3) every other gate's output equal
to its kind's function of those two slots.  Wires into slots other than 0 and 1 write
nothing, so no hypothesis on the slot index is needed. -/
theorem UpdateSignals_step (ws : WiringSystem) (gates : List Gate)
    (hrange : WiresInRange ws.wires gates) :
    (ws.UpdateSignals gates).2.length = gates.length ∧
    ∀ (i : Nat) (g : Gate), gates[i]? = some g →
      ∃ g2, (ws.UpdateSignals gates).2[i]? = some g2 ∧ g2.type = g.type ∧
        (g.type = .INPUT → g2.output = g.input1 ∧
          (lastWireInto ws.wires i 0 = none → g2.input1 = g.input1)) ∧
        (g.type ≠ .INPUT →
          g2.input1 = slotValue gates ws.wires i 0 ∧
          g2.input2 = slotValue gates ws.wires i 1 ∧
          g2.output = kindFunction g.type (slotValue gates ws.wires i 0)
            (slotValue gates ws.wires i 1)) := by
  have hlen1 : (gates.map WiringSystem.sourcePhase).length = gates.length := List.length_map _ _
  have hr1 : WiresInRange ws.wires (gates.map WiringSystem.sourcePhase) := by
    intro w hw
    rw [indexInRange_of_length_eq hlen1, indexInRange_of_length_eq hlen1]
    exact hrange w hw
  refine ⟨?_, ?_⟩
  · simp [WiringSystem.UpdateSignals, propagate_length]
  · intro i g hg
    have hg1 : (gates.map WiringSystem.sourcePhase)[i]? = some (WiringSystem.sourcePhase g) := by
      rw [List.getElem?_map, hg]; rfl
    obtain ⟨g2, hg2, ht2, -, ho2, hi1, hi2⟩ := propagate_get ws.wires _ hr1 i _ hg1
    have hslotv : ∀ s : Int, ∀ init : Bool,
        slotAfter i s (outAt (gates.map WiringSystem.sourcePhase)) ws.wires init =
          match lastWireInto ws.wires i s with
          | none => init
          | some w =>
            match gates[w.fromGateIndex.toNat]? with
            | some src => outputAtPropagation src
            | none => false := by
      intro s init
      rw [slotAfter_eq]
      cases lastWireInto ws.wires i s with
      | none => rfl
      | some w => exact outAt_sourcePhase gates w.fromGateIndex
    refine ⟨WiringSystem.downstreamPhase g2, ?_, ?_, ?_, ?_⟩
    · simp [WiringSystem.UpdateSignals, List.getElem?_map, hg2]
    · rw [← (show (WiringSystem.sourcePhase g).type = g.type by
        unfold WiringSystem.sourcePhase; split
        · rw [ComputeOutput_eq]
        · rfl), ← ht2]
      unfold WiringSystem.downstreamPhase; split
      · rw [ComputeOutput_eq]
      · rfl
    · intro hin
      have hs : WiringSystem.sourcePhase g = { g with output := g.input1 } := by
        simp [WiringSystem.sourcePhase, Gate.GetType, hin, ComputeOutput_eq, kindFunction]
      have ht : g2.type = .INPUT := by rw [ht2, hs]; exact hin
      refine ⟨by simp [WiringSystem.downstreamPhase, Gate.GetType, ht, ho2, hs], ?_⟩
      intro hnone
      have hsl := hslotv 0 g.input1
      rw [hnone] at hsl
      have hin1 : (WiringSystem.sourcePhase g).input1 = g.input1 := by rw [hs]
      rw [hin1, hsl] at hi1
      simp [WiringSystem.downstreamPhase, Gate.GetType, ht, hi1]
    · intro hin
      have hs : WiringSystem.sourcePhase g = { g with input1 := false, input2 := false } := by
        simp [WiringSystem.sourcePhase, Gate.GetType, hin]
      have ht : g2.type = g.type := by rw [ht2, hs]
      have h1 : g2.input1 = slotValue gates ws.wires i 0 := by
        rw [hi1, hslotv, hs]; rfl
      have h2 : g2.input2 = slotValue gates ws.wires i 1 := by
        rw [hi2, hslotv, hs]; rfl
      have hd : WiringSystem.downstreamPhase g2 = g2.ComputeOutput := by
        simp [WiringSystem.downstreamPhase, Gate.GetType, ht, hin]
      rw [hd, ComputeOutput_eq]
      simp [h1, h2, ht]

theorem sampleSystem_inRange : WiresInRange sampleSystem.wires sampleGates := by
  intro w hw
  simp only [sampleSystem, List.mem_cons, List.mem_singleton, List.not_mem_nil, or_false] at hw
  rcases hw with rfl | rfl <;> exact ⟨by decide, by decide⟩

theorem UpdateSignals_step_witness :
    WiresInRange sampleSystem.wires sampleGates ∧
    (sampleSystem.UpdateSignals sampleGates).2.length = sampleGates.length ∧
    ∀ (i : Nat) (g : Gate), sampleGates[i]? = some g →
      ∃ g2, (sampleSystem.UpdateSignals sampleGates).2[i]? = some g2 ∧ g2.type = g.type ∧
        (g.type = .INPUT → g2.output = g.input1 ∧
          (lastWireInto sampleSystem.wires i 0 = none → g2.input1 = g.input1)) ∧
        (g.type ≠ .INPUT →
          g2.input1 = slotValue sampleGates sampleSystem.wires i 0 ∧
          g2.input2 = slotValue sampleGates sampleSystem.wires i 1 ∧
          g2.output = kindFunction g.type (slotValue sampleGates sampleSystem.wires i 0)
            (slotValue sampleGates sampleSystem.wires i 1)) :=
  ⟨sampleSystem_inRange, UpdateSignals_step sampleSystem sampleGates sampleSystem_inRange⟩

/-! ### Wire topology -/

theorem remove_if_eq_filter (pred : Wire → Bool) (l : List Wire) :
    WiringSystem.remove_if pred l = l.filter (fun w => !pred w) := by
  induction l with
  | nil => rfl
  | cons w rest ih =>
    unfold WiringSystem.remove_if
    by_cases h : pred w = true
    · simp [h, ih]
    · simp [h, ih]

theorem RemoveWiresForGate_wires (ws : WiringSystem) (k : Int) :
    (ws.RemoveWiresForGate k).wires = ws.wires.filter (fun w => !references k w) := by
  unfold WiringSystem.RemoveWiresForGate
  simp only [remove_if_eq_filter]
  rfl

theorem not_references_iff (k : Int) (w : Wire) :
    (!references k w) = true ↔ w.fromGateIndex ≠ k ∧ w.toGateIndex ≠ k := by
  simp [references]

/-- C8: `RemoveWiresForGate(k)` keeps exactly the wires whose source and destination
both differ from `k`: the result is that sub-sequence of the original store, in the
original order, every kept wire with all its fields; the pending-wire state is not
touched. -/
theorem RemoveWiresForGate_spec (ws : WiringSystem) (k : Int) :
    (ws.RemoveWiresForGate k).wires =
      ws.wires.filter (fun w => decide (w.fromGateIndex ≠ k ∧ w.toGateIndex ≠ k)) ∧
    (ws.RemoveWiresForGate k).wires.Sublist ws.wires ∧
    (∀ w, w ∈ (ws.RemoveWiresForGate k).wires ↔
      w ∈ ws.wires ∧ w.fromGateIndex ≠ k ∧ w.toGateIndex ≠ k) ∧
    (ws.RemoveWiresForGate k).isCreatingWire = ws.isCreatingWire ∧
    (ws.RemoveWiresForGate k).wireSourceGate = ws.wireSourceGate := by
  have h : (ws.RemoveWiresForGate k).wires =
      ws.wires.filter (fun w => decide (w.fromGateIndex ≠ k ∧ w.toGateIndex ≠ k)) := by
    rw [RemoveWiresForGate_wires]
    apply List.filter_congr
    intro w _
    rw [Bool.eq_iff_iff, not_references_iff]
    simp
  refine ⟨h, ?_, ?_, rfl, rfl⟩
  · rw [h]; exact List.filter_sublist _
  · intro w
    rw [h, List.mem_filter]
    simp

theorem updateWireIndex_reindexed (k : Int) (w : Wire) :
    Reindexed k w (WiringSystem.updateWireIndex k w) := by
  unfold Reindexed WiringSystem.updateWireIndex shiftIndex
  by_cases h1 : w.fromGateIndex > k <;> by_cases h2 : w.toGateIndex > k <;> simp [h1, h2]

theorem cascade_wires (ws : WiringSystem) (k : Int) :
    ((ws.RemoveWiresForGate k).UpdateWireIndices k).wires =
      (ws.wires.filter (fun w => !references k w)).map (WiringSystem.updateWireIndex k) := by
  unfold WiringSystem.UpdateWireIndices
  simp only [RemoveWiresForGate_wires]

theorem forall₂_map_right_of (R : Wire → Wire → Prop) (f : Wire → Wire) (l : List Wire)
    (h : ∀ w ∈ l, R w (f w)) : List.Forall₂ R l (l.map f) := by
  induction l with
  | nil => exact List.Forall₂.nil
  | cons w rest ih =>
    exact List.Forall₂.cons (h w (List.mem_cons_self _ _))
      (ih (fun x hx => h x (List.mem_cons_of_mem _ hx)))

/-- C4: after `RemoveWiresForGate(k)` then `UpdateWireIndices(k)` the store is, wire for
wire and in the original order, the original wires whose source and destination both
differ from `k`, each with source and destination index lowered by one when it was
above `k` and kept otherwise, and with slot, state and waypoints unchanged; the wire
count has dropped by the number of wires that referenced `k`. -/
theorem cascade_spec (ws : WiringSystem) (k : Int) :
    List.Forall₂ (Reindexed k)
      (ws.wires.filter (fun w => decide (w.fromGateIndex ≠ k ∧ w.toGateIndex ≠ k)))
      ((ws.RemoveWiresForGate k).UpdateWireIndices k).wires ∧
    ((ws.RemoveWiresForGate k).UpdateWireIndices k).wires.length +
      ws.wires.countP (fun w => decide (w.fromGateIndex = k ∨ w.toGateIndex = k)) =
        ws.wires.length := by
  have hf : ws.wires.filter (fun w => decide (w.fromGateIndex ≠ k ∧ w.toGateIndex ≠ k)) =
      ws.wires.filter (fun w => !references k w) := by
    apply List.filter_congr
    intro w _
    rw [Bool.eq_iff_iff, not_references_iff]
    simp
  have hc : ws.wires.countP (fun w => decide (w.fromGateIndex = k ∨ w.toGateIndex = k)) =
      ws.wires.countP (references k) := by
    apply List.countP_congr
    intro w _
    simp [references]
  refine ⟨?_, ?_⟩
  · rw [hf, cascade_wires]
    exact forall₂_map_right_of _ _ _ (fun w _ => updateWireIndex_reindexed k w)
  · rw [hc, cascade_wires, List.length_map, ← List.countP_eq_length_filter,
      List.length_eq_countP_add_countP (references k) ws.wires, Nat.add_comm]
    congr 1
    apply List.countP_congr
    intro w _
    simp

theorem eraseIdx_shift (gates : List Gate) (k i : Int) (hk : 0 ≤ k) (hi : 0 ≤ i) (hne : i ≠ k) :
    (gates.eraseIdx k.toNat)[(shiftIndex k i).toNat]? = gates[i.toNat]? := by
  unfold shiftIndex
  rw [List.getElem?_eraseIdx]
  by_cases h : i > k
  · rw [if_pos h, if_neg (by omega)]
    congr 1
    omega
  · rw [if_neg h, if_pos (by omega)]

theorem shiftIndex_inRange (gates : List Gate) (k i : Int) (hk : indexInRange k gates = true)
    (hi : indexInRange i gates = true) (hne : i ≠ k) :
    indexInRange (shiftIndex k i) (gates.eraseIdx k.toNat) = true := by
  rw [indexInRange_iff] at hk hi ⊢
  rw [List.length_eraseIdx, if_pos hk.2]
  unfold shiftIndex
  by_cases h : i > k
  · rw [if_pos h]; omega
  · rw [if_neg h]; omega

/-- C5: when every wire's source and destination lies in the gate store and `k` is a
position of the store, the deletion block (`RemoveWiresForGate(k)`, erase gate `k`,
`UpdateWireIndices(k)`) succeeds, the new store has one gate less, every remaining
wire's source and destination lies in the new store, and each remaining wire
designates in the new store the gates it designated in the old one. -/
theorem deleteGate_index_validity (gates : List Gate) (ws : WiringSystem) (k : Int)
    (hrange : WiresInRange ws.wires gates) (hk : indexInRange k gates = true) :
    ∃ gates2 ws2, deleteGate gates ws k = some (gates2, ws2) ∧
      gates2 = gates.eraseIdx k.toNat ∧
      gates2.length + 1 = gates.length ∧
      WiresInRange ws2.wires gates2 ∧
      List.Forall₂ (SameGates gates gates2)
        (ws.wires.filter (fun w => decide (w.fromGateIndex ≠ k ∧ w.toGateIndex ≠ k)))
        ws2.wires := by
  have hk2 := (indexInRange_iff _ _).1 hk
  have hf : ws.wires.filter (fun w => decide (w.fromGateIndex ≠ k ∧ w.toGateIndex ≠ k)) =
      ws.wires.filter (fun w => !references k w) := by
    apply List.filter_congr
    intro w _
    rw [Bool.eq_iff_iff, not_references_iff]
    simp
  refine ⟨gates.eraseIdx k.toNat, (ws.RemoveWiresForGate k).UpdateWireIndices k, ?_, rfl, ?_,
    ?_, ?_⟩
  · simp [deleteGate, hk]
  · rw [List.length_eraseIdx, if_pos hk2.2]; omega
  · intro r hr
    rw [cascade_wires, List.mem_map] at hr
    obtain ⟨w, hw, rfl⟩ := hr
    rw [List.mem_filter, not_references_iff] at hw
    obtain ⟨hmem, hne1, hne2⟩ := hw
    obtain ⟨h1, h2, -⟩ := updateWireIndex_reindexed k w
    rw [h1, h2]
    exact ⟨shiftIndex_inRange gates k _ hk (hrange w hmem).1 hne1,
      shiftIndex_inRange gates k _ hk (hrange w hmem).2 hne2⟩
  · rw [hf, cascade_wires]
    apply forall₂_map_right_of
    intro w hw
    rw [List.mem_filter, not_references_iff] at hw
    obtain ⟨hmem, hne1, hne2⟩ := hw
    obtain ⟨h1, h2, -⟩ := updateWireIndex_reindexed k w
    have hr1 := (indexInRange_iff _ _).1 (hrange w hmem).1
    have hr2 := (indexInRange_iff _ _).1 (hrange w hmem).2
    unfold SameGates
    rw [h1, h2]
    exact ⟨eraseIdx_shift gates k _ hk2.1 hr1.1 hne1, eraseIdx_shift gates k _ hk2.1 hr2.1 hne2⟩

theorem deleteGate_index_validity_witness :
    WiresInRange sampleSystem.wires sampleGates ∧ indexInRange 0 sampleGates = true ∧
    ∃ gates2 ws2, deleteGate sampleGates sampleSystem 0 = some (gates2, ws2) ∧
      gates2 = sampleGates.eraseIdx (0 : Int).toNat ∧
      gates2.length + 1 = sampleGates.length ∧
      WiresInRange ws2.wires gates2 ∧
      List.Forall₂ (SameGates sampleGates gates2)
        (sampleSystem.wires.filter (fun w => decide (w.fromGateIndex ≠ 0 ∧ w.toGateIndex ≠ 0)))
        ws2.wires :=
  ⟨sampleSystem_inRange, by decide,
    deleteGate_index_validity sampleGates sampleSystem 0 sampleSystem_inRange (by decide)⟩

theorem CalculateLRoute_eq (w : Wire) (start endPt : Vector2) (gates : Option (List Gate)) :
    w.CalculateLRoute start endPt gates =
      { w with waypoints := (w.CalculateLRoute start endPt gates).waypoints } := by
  unfold Wire.CalculateLRoute
  cases gates with
  | none => rfl
  | some gs =>
    simp only
    split
    · rfl
    · split <;> rfl

/-- What `HandleWireClick` can do to the wire store: nothing, or append one wire whose
(destination, slot) pair no stored wire has, whose endpoints are the pending source
and the clicked point, and with the pending state cleared. -/
theorem HandleWireClick_wires (ws ws2 : WiringSystem) (mousePos : Vector2) (gates : List Gate)
    (handled : Bool) (h : ws.HandleWireClick mousePos gates = some (ws2, handled)) :
    ws2.wires = ws.wires ∨
    ∃ cp newWire, WiringSystem.FindConnectionPoint mousePos gates = some cp ∧
      ws2.wires = ws.wires ++ [newWire] ∧
      newWire.fromGateIndex = ws.wireSourceGate ∧ newWire.toGateIndex = cp.gateIndex ∧
      newWire.toInputIndex = cp.inputIndex ∧ newWire.state = false ∧
      (∀ w ∈ ws.wires, ¬(w.toGateIndex = cp.gateIndex ∧ w.toInputIndex = cp.inputIndex)) := by
  unfold WiringSystem.HandleWireClick at h
  cases hf : WiringSystem.FindConnectionPoint mousePos gates with
  | none =>
    simp only [hf] at h
    split at h <;> · cases h; exact Or.inl rfl
  | some cp =>
    simp only [hf] at h
    split at h
    · split at h <;> · cases h; exact Or.inl rfl
    · split at h
      · split at h
        · rename_i hconn
          split at h
          · split at h
            · rename_i src dst hsrc hdst
              cases h
              refine Or.inr ⟨cp, _, rfl, rfl, ?_, ?_, ?_, ?_, ?_⟩
              · rw [CalculateLRoute_eq]; rfl
              · rw [CalculateLRoute_eq]; rfl
              · rw [CalculateLRoute_eq]; rfl
              · rw [CalculateLRoute_eq]; rfl
              · intro w hw hc
                simp only [Bool.not_eq_true', List.any_eq_false, Bool.and_eq_true, beq_iff_eq]
                  at hconn
                exact hconn w hw hc
            · cases h
          · cases h
        · cases h; exact Or.inl rfl
      · cases h; exact Or.inl rfl

theorem eraseFirstNear_sublist (mousePos : Vector2) (l l2 : List Wire)
    (h : WiringSystem.eraseFirstNear mousePos l = some l2) : l2.Sublist l := by
  induction l generalizing l2 with
  | nil => cases h
  | cons w rest ih =>
    unfold WiringSystem.eraseFirstNear at h
    split at h
    · cases h; exact List.sublist_cons_self _ _
    · cases hr : WiringSystem.eraseFirstNear mousePos rest with
      | none => rw [hr] at h; cases h
      | some l3 =>
        rw [hr] at h
        cases h
        exact (ih l3 hr).cons₂ w

theorem HandleWireDeletion_sublist (ws : WiringSystem) (mousePos : Vector2) (gates : List Gate) :
    (ws.HandleWireDeletion mousePos gates).1.wires.Sublist ws.wires := by
  unfold WiringSystem.HandleWireDeletion
  cases h : WiringSystem.eraseFirstNear mousePos ws.wires with
  | none => exact List.Sublist.refl _
  | some l => exact eraseFirstNear_sublist mousePos _ _ h

theorem propagateWire_endpoints (gates : List Gate) (w : Wire) :
    (WiringSystem.propagateWire gates w).2.endpoints = w.endpoints := by
  unfold WiringSystem.propagateWire
  split
  · split
    · split
      · rfl
      · split <;> rfl
    · rfl
  · rfl

theorem propagate_endpoints (wires : List Wire) (gates : List Gate) :
    (WiringSystem.propagate gates wires).2.map Wire.endpoints = wires.map Wire.endpoints := by
  induction wires generalizing gates with
  | nil => rfl
  | cons w rest ih =>
    simp only [WiringSystem.propagate, List.map_cons, ih, propagateWire_endpoints]

theorem finalPass_endpoints (gates : List Gate) (w : Wire) :
    (WiringSystem.finalPass gates w).endpoints = w.endpoints := by
  unfold WiringSystem.finalPass
  split
  · split
    · rw [CalculateLRoute_eq]; rfl
    · rfl
  · rfl

theorem UpdateSignals_endpoints (ws : WiringSystem) (gates : List Gate) :
    (ws.UpdateSignals gates).1.wires.map Wire.endpoints = ws.wires.map Wire.endpoints := by
  unfold WiringSystem.UpdateSignals
  simp only [List.map_map]
  have hc : ∀ g3 : List Gate, Wire.endpoints ∘ WiringSystem.finalPass g3 = Wire.endpoints :=
    fun g3 => funext (fun w => finalPass_endpoints g3 w)
  rw [hc, propagate_endpoints]

theorem FanInUnique_iff_endpoints (wires : List Wire) :
    FanInUnique wires ↔
      (wires.map Wire.endpoints).Pairwise (fun a b => ¬(a.2.1 = b.2.1 ∧ a.2.2 = b.2.2)) := by
  unfold FanInUnique
  rw [List.pairwise_map]
  rfl

theorem shiftIndex_injective (k a b : Int) (ha : a ≠ k) (hb : b ≠ k)
    (h : shiftIndex k a = shiftIndex k b) : a = b := by
  unfold shiftIndex at h
  by_cases h1 : a > k <;> by_cases h2 : b > k <;> simp only [h1, h2, if_true, if_false] at h <;>
    omega

theorem FanInUnique_click (ws ws2 : WiringSystem) (mousePos : Vector2) (gates : List Gate)
    (handled : Bool) (hu : FanInUnique ws.wires)
    (h : ws.HandleWireClick mousePos gates = some (ws2, handled)) : FanInUnique ws2.wires := by
  rcases HandleWireClick_wires ws ws2 mousePos gates handled h with h1 | ⟨cp, nw, -, h1, -, h2, h3, -, h4⟩
  · rw [h1]; exact hu
  · rw [h1]
    unfold FanInUnique at hu ⊢
    rw [List.pairwise_append]
    refine ⟨hu, List.pairwise_singleton _ _, ?_⟩
    intro a ha b hb
    rw [List.mem_singleton] at hb
    subst hb
    rw [h2, h3]
    exact h4 a ha

theorem FanInUnique_cascade (ws : WiringSystem) (k : Int) (hu : FanInUnique ws.wires) :
    FanInUnique ((ws.RemoveWiresForGate k).UpdateWireIndices k).wires := by
  rw [cascade_wires]
  unfold FanInUnique at hu ⊢
  rw [List.pairwise_map]
  refine List.Pairwise.imp_of_mem ?_ (hu.sublist (List.filter_sublist _))
  intro a b ha hb hab hc
  rw [List.mem_filter, not_references_iff] at ha hb
  obtain ⟨-, ha2, ha3, -⟩ := updateWireIndex_reindexed k a
  obtain ⟨-, hb2, hb3, -⟩ := updateWireIndex_reindexed k b
  rw [ha2, hb2, ha3, hb3] at hc
  exact hab ⟨shiftIndex_injective k _ _ ha.2.2 hb.2.2 hc.1, hc.2⟩

theorem FanInUnique_step (ws : WiringSystem) (gates : List Gate) (hu : FanInUnique ws.wires) :
    FanInUnique (ws.UpdateSignals gates).1.wires := by
  rw [FanInUnique_iff_endpoints] at hu ⊢
  rw [UpdateSignals_endpoints]
  exact hu

/-- C3: fan-in uniqueness is preserved by `HandleWireClick`, by `HandleWireDeletion`,
by `RemoveWiresForGate(k)`, and by `RemoveWiresForGate(k)` followed by
`UpdateWireIndices(k)`; so it holds in every state reachable from the freshly
constructed wiring system (whose wire store is empty) by these operations and
`UpdateSignals`. -/
theorem FanInUnique_invariant :
    (∀ (ws ws2 : WiringSystem) (mousePos : Vector2) (gates : List Gate) (handled : Bool),
      FanInUnique ws.wires → ws.HandleWireClick mousePos gates = some (ws2, handled) →
      FanInUnique ws2.wires) ∧
    (∀ (ws : WiringSystem) (mousePos : Vector2) (gates : List Gate),
      FanInUnique ws.wires → FanInUnique (ws.HandleWireDeletion mousePos gates).1.wires) ∧
    (∀ (ws : WiringSystem) (k : Int),
      FanInUnique ws.wires → FanInUnique (ws.RemoveWiresForGate k).wires) ∧
    (∀ (ws : WiringSystem) (k : Int),
      FanInUnique ws.wires →
      FanInUnique ((ws.RemoveWiresForGate k).UpdateWireIndices k).wires) ∧
    (∀ ws : WiringSystem, WireStoreReachable ws → FanInUnique ws.wires) := by
  have hdel : ∀ (ws : WiringSystem) (mousePos : Vector2) (gates : List Gate),
      FanInUnique ws.wires → FanInUnique (ws.HandleWireDeletion mousePos gates).1.wires :=
    fun ws mousePos gates hu => hu.sublist (HandleWireDeletion_sublist ws mousePos gates)
  have hrem : ∀ (ws : WiringSystem) (k : Int),
      FanInUnique ws.wires → FanInUnique (ws.RemoveWiresForGate k).wires := by
    intro ws k hu
    rw [RemoveWiresForGate_wires]
    exact hu.sublist (List.filter_sublist _)
  refine ⟨fun ws ws2 mousePos gates handled hu h =>
      FanInUnique_click ws ws2 mousePos gates handled hu h, hdel, hrem,
    FanInUnique_cascade, ?_⟩
  intro ws hreach
  induction hreach with
  | init => exact List.Pairwise.nil
  | click ws ws2 mousePos gates handled _ h ih =>
    exact FanInUnique_click ws ws2 mousePos gates handled ih h
  | deletion ws mousePos gates _ ih => exact hdel ws mousePos gates ih
  | removeForGate ws k _ ih => exact hrem ws k ih
  | cascade ws k _ ih => exact FanInUnique_cascade ws k ih
  | step ws gates _ ih => exact FanInUnique_step ws gates ih

/-! ### Connection points -/

/-- The square-rooted test of the source and the squared test of the model agree. -/
theorem sqrt_le_iff_sqr_le (d r : ℚ) (hd : 0 ≤ d) :
    Real.sqrt (d : ℝ) ≤ (r : ℝ) ↔ 0 ≤ r ∧ d ≤ r * r := by
  have hd2 : (0 : ℝ) ≤ (d : ℝ) := by exact_mod_cast hd
  constructor
  · intro h
    have hr : (0 : ℝ) ≤ (r : ℝ) := le_trans (Real.sqrt_nonneg _) h
    refine ⟨by exact_mod_cast hr, ?_⟩
    have h2 : (d : ℝ) ≤ (r : ℝ) ^ 2 := (Real.sqrt_le_left hr).1 h
    have h3 : (d : ℝ) ≤ ((r * r : ℚ) : ℝ) := by push_cast; nlinarith
    exact_mod_cast h3
  · rintro ⟨hr, h⟩
    have hr2 : (0 : ℝ) ≤ (r : ℝ) := by exact_mod_cast hr
    have h3 : (d : ℝ) ≤ (r : ℝ) ^ 2 := by
      have : (d : ℝ) ≤ ((r * r : ℚ) : ℝ) := by exact_mod_cast h
      push_cast at this; nlinarith
    exact (Real.sqrt_le_left hr2).2 h3

theorem distanceLE_snap (mousePos : Vector2) (p : ConnectionPoint) :
    distanceLE mousePos p.position CONNECTION_SNAP_DISTANCE = withinSnap mousePos p := by
  unfold distanceLE withinSnap CONNECTION_SNAP_DISTANCE
  simp

theorem findInPoints_eq_find (mousePos : Vector2) (points : List ConnectionPoint) :
    WiringSystem.findInPoints mousePos points = points.find? (withinSnap mousePos) := by
  induction points with
  | nil => rfl
  | cons p rest ih =>
    unfold WiringSystem.findInPoints
    rw [distanceLE_snap, List.find?_cons]
    cases h : withinSnap mousePos p
    · simp [ih]
    · simp

theorem GetConnectionPoints_eq (g : Gate) (i : Nat) :
    g.GetConnectionPoints i = gatePointsInOrder g i := by
  unfold Gate.GetConnectionPoints gatePointsInOrder
  cases g.HasOutput <;> simp

theorem findFrom_eq_find (mousePos : Vector2) (gates : List Gate) (i : Nat) :
    WiringSystem.findFrom mousePos i gates =
      ((gates.enumFrom i).flatMap (fun ig => gatePointsInOrder ig.2 ig.1)).find?
        (withinSnap mousePos) := by
  induction gates generalizing i with
  | nil => rfl
  | cons g rest ih =>
    unfold WiringSystem.findFrom
    rw [List.enumFrom_cons, List.flatMap_cons, List.find?_append, findInPoints_eq_find,
      GetConnectionPoints_eq, ih]
    cases List.find? (withinSnap mousePos) (gatePointsInOrder g i) <;> rfl

theorem FindConnectionPoint_eq_find (mousePos : Vector2) (gates : List Gate) :
    WiringSystem.FindConnectionPoint mousePos gates =
      (connectionPointsInOrder gates).find? (withinSnap mousePos) :=
  findFrom_eq_find mousePos gates 0

theorem mem_connectionPointsInOrder (gates : List Gate) (p : ConnectionPoint)
    (h : p ∈ connectionPointsInOrder gates) :
    ∃ (i : Nat) (g : Gate), gates[i]? = some g ∧ p ∈ gatePointsInOrder g i ∧
      p.gateIndex = (i : Int) := by
  unfold connectionPointsInOrder at h
  rw [List.mem_flatMap] at h
  obtain ⟨⟨i, g⟩, hig, hp⟩ := h
  have hg : gates[i]? = some g := by
    rw [List.mk_mem_enum_iff_getElem?] at hig
    exact hig
  refine ⟨i, g, hg, hp, ?_⟩
  simp only [gatePointsInOrder, List.mem_append, List.mem_map, List.mem_range] at hp
  rcases hp with ⟨_, _, rfl⟩ | hp
  · rfl
  · split at hp
    · rw [List.mem_singleton] at hp; rw [hp]
    · cases hp

theorem FindConnectionPoint_some (mousePos : Vector2) (gates : List Gate) (cp : ConnectionPoint)
    (h : WiringSystem.FindConnectionPoint mousePos gates = some cp) :
    cp ∈ connectionPointsInOrder gates ∧ withinSnap mousePos cp = true ∧
      indexInRange cp.gateIndex gates = true := by
  rw [FindConnectionPoint_eq_find] at h
  have hmem := List.mem_of_find?_eq_some h
  have hp := List.find?_some h
  refine ⟨hmem, hp, ?_⟩
  obtain ⟨i, g, hg, -, hi⟩ := mem_connectionPointsInOrder gates cp hmem
  rw [indexInRange_iff, hi]
  have := (List.getElem?_eq_some.1 hg).1
  exact ⟨by omega, by simpa using this⟩

/-- C6: in state PendingSource, a click that lands (through `FindConnectionPoint`) on
an input point whose (gate, slot) already has a wire, on an input point of the pending
source gate itself, or on an output point, returns true and leaves the wiring system
in the Idle state (`isCreatingWire = false`, `wireSourceGate = -1`) with its wire store
exactly as it was. -/
theorem HandleWireClick_invalid_target (ws : WiringSystem) (mousePos : Vector2)
    (gates : List Gate) (cp : ConnectionPoint)
    (hpending : ws.isCreatingWire = true)
    (hclick : WiringSystem.FindConnectionPoint mousePos gates = some cp)
    (hinvalid :
      (cp.isInput = true ∧
        ∃ w ∈ ws.wires, w.toGateIndex = cp.gateIndex ∧ w.toInputIndex = cp.inputIndex) ∨
      (cp.isInput = true ∧ cp.gateIndex = ws.wireSourceGate) ∨
      cp.isInput = false) :
    ws.HandleWireClick mousePos gates = some (toIdle ws, true) ∧
    (toIdle ws).wires = ws.wires ∧ (toIdle ws).isCreatingWire = false ∧
    (toIdle ws).wireSourceGate = -1 := by
  refine ⟨?_, rfl, rfl, rfl⟩
  unfold WiringSystem.HandleWireClick
  simp only [hclick, hpending, Bool.not_true, Bool.false_eq_true, if_false]
  rcases hinvalid with ⟨hin, w, hw, h1, h2⟩ | ⟨hin, hs⟩ | hout
  · by_cases hne : cp.gateIndex = ws.wireSourceGate
    · simp [hin, hne, toIdle]
    · have hany : (ws.wires.any fun wire =>
          wire.toGateIndex == cp.gateIndex && wire.toInputIndex == cp.inputIndex) = true := by
        rw [List.any_eq_true]
        exact ⟨w, hw, by simp [h1, h2]⟩
      simp [hin, hne, hany, toIdle]
  · simp [hin, hs, toIdle]
  · simp [hout, toIdle]

theorem HandleWireClick_invalid_target_witness :
    samplePending.HandleWireClick ⟨492, 165⟩ sampleGates = some (toIdle samplePending, true) ∧
    samplePendingSelf.HandleWireClick ⟨492, 185⟩ sampleGates =
      some (toIdle samplePendingSelf, true) ∧
    samplePending.HandleWireClick ⟨368, 220⟩ sampleGates = some (toIdle samplePending, true) :=
  ⟨(HandleWireClick_invalid_target samplePending ⟨492, 165⟩ sampleGates
      ⟨⟨492, 333 / 2⟩, true, 2, 0⟩ rfl (by decide!)
      (Or.inl ⟨rfl, ⟨0, 2, 0, false, [⟨368, 120⟩, ⟨430, 120⟩, ⟨430, 333 / 2⟩, ⟨492, 333 / 2⟩]⟩,
        by decide!, rfl, rfl⟩)).1,
   (HandleWireClick_invalid_target samplePendingSelf ⟨492, 185⟩ sampleGates
      ⟨⟨492, 183⟩, true, 2, 1⟩ rfl (by decide!) (Or.inr (Or.inl ⟨rfl, rfl⟩))).1,
   (HandleWireClick_invalid_target samplePending ⟨368, 220⟩ sampleGates
      ⟨⟨368, 220⟩, false, 1, 0⟩ rfl (by decide!) (Or.inr (Or.inr rfl))).1⟩

/-- C7 (amended): `HandleWireClick` is the two-state wire-creation machine, a click being
on the point `FindConnectionPoint` returns, the first one within snap distance.  From
Idle, a click on an output point of gate `g` gives PendingSource(`g`), returns true and
keeps the wire store.  From
PendingSource(`s`), a click on empty space gives Idle, returns true and keeps the wire
store.  From PendingSource(`s`) with `s` a position of the gate store, a click on an
input point `(d, slot)` with `d ≠ s` and no wire into `(d, slot)` appends one wire
(source `s`, destination `d`, that slot, state false) behind the unchanged earlier
wires, gives Idle and returns true. -/
theorem HandleWireClick_machine :
    (∀ (ws : WiringSystem) (mousePos : Vector2) (gates : List Gate) (cp : ConnectionPoint),
      ws.isCreatingWire = false →
      WiringSystem.FindConnectionPoint mousePos gates = some cp → cp.isInput = false →
      ws.HandleWireClick mousePos gates = some (toPending ws cp.gateIndex, true)) ∧
    (∀ (ws : WiringSystem) (mousePos : Vector2) (gates : List Gate),
      ws.isCreatingWire = true →
      WiringSystem.FindConnectionPoint mousePos gates = none →
      ws.HandleWireClick mousePos gates = some (toIdle ws, true)) ∧
    (∀ (ws : WiringSystem) (mousePos : Vector2) (gates : List Gate) (cp : ConnectionPoint),
      ws.isCreatingWire = true → indexInRange ws.wireSourceGate gates = true →
      WiringSystem.FindConnectionPoint mousePos gates = some cp → cp.isInput = true →
      cp.gateIndex ≠ ws.wireSourceGate →
      (∀ w ∈ ws.wires, ¬(w.toGateIndex = cp.gateIndex ∧ w.toInputIndex = cp.inputIndex)) →
      ∃ newWire : Wire,
        ws.HandleWireClick mousePos gates =
          some ({ toIdle ws with wires := ws.wires ++ [newWire] }, true) ∧
        newWire.fromGateIndex = ws.wireSourceGate ∧ newWire.toGateIndex = cp.gateIndex ∧
        newWire.toInputIndex = cp.inputIndex ∧ newWire.state = false) := by
  refine ⟨?_, ?_, ?_⟩
  · intro ws mousePos gates cp hidle hclick hout
    unfold WiringSystem.HandleWireClick
    simp [hclick, hidle, hout, toPending]
  · intro ws mousePos gates hpending hclick
    unfold WiringSystem.HandleWireClick
    simp [hclick, hpending, toIdle]
  · intro ws mousePos gates cp hpending hsrc hclick hin hne hfree
    have hdst := (FindConnectionPoint_some mousePos gates cp hclick).2.2
    have hs2 := (indexInRange_iff _ _).1 hsrc
    have hd2 := (indexInRange_iff _ _).1 hdst
    have hany : (ws.wires.any fun wire =>
        wire.toGateIndex == cp.gateIndex && wire.toInputIndex == cp.inputIndex) = false := by
      rw [List.any_eq_false]
      intro w hw
      simpa using hfree w hw
    refine ⟨(Wire.new ws.wireSourceGate cp.gateIndex cp.inputIndex).CalculateLRoute
      (gates[ws.wireSourceGate.toNat]).GetOutputPoint
      ((gates[cp.gateIndex.toNat]).GetInputPoint cp.inputIndex) (some gates), ?_, ?_, ?_, ?_, ?_⟩
    · unfold WiringSystem.HandleWireClick
      simp only [hclick, hpending, hin, hany, hsrc, hdst, List.getElem?_eq_getElem hs2.2,
        List.getElem?_eq_getElem hd2.2, toIdle]
      simp [hne]
    · rw [CalculateLRoute_eq]; rfl
    · rw [CalculateLRoute_eq]; rfl
    · rw [CalculateLRoute_eq]; rfl
    · rw [CalculateLRoute_eq]; rfl

/-! ### Wire deletion -/

theorem sampleSystem_fanIn : FanInUnique sampleSystem.wires := by
  unfold FanInUnique sampleSystem
  decide

theorem sampleSystem_reachable : WireStoreReachable sampleSystem := by
  have h1 : WireStoreReachable (toPending WiringSystem.new 0) :=
    WireStoreReachable.click WiringSystem.new _ ⟨368, 120⟩ sampleGates true
      WireStoreReachable.init (by decide!)
  have h2 : WireStoreReachable { sampleHalfWired with isCreatingWire := false, wireSourceGate := -1 } :=
    WireStoreReachable.click _ _ ⟨492, 165⟩ sampleGates true h1 (by decide!)
  have h3 : WireStoreReachable sampleHalfWired :=
    WireStoreReachable.click _ _ ⟨368, 220⟩ sampleGates true h2 (by decide!)
  exact WireStoreReachable.click _ _ ⟨492, 185⟩ sampleGates true h3 (by decide!)

theorem FanInUnique_invariant_witness :
    FanInUnique sampleSystem.wires ∧
    FanInUnique ((sampleSystem.RemoveWiresForGate 0).UpdateWireIndices 0).wires :=
  ⟨FanInUnique_invariant.2.2.2.2 sampleSystem sampleSystem_reachable,
    FanInUnique_invariant.2.2.2.1 sampleSystem 0 sampleSystem_fanIn⟩

theorem HandleWireClick_machine_witness :
    sampleSystem.HandleWireClick ⟨368, 120⟩ sampleGates = some (toPending sampleSystem 0, true) ∧
    samplePending.HandleWireClick ⟨0, 0⟩ sampleGates = some (toIdle samplePending, true) ∧
    ∃ newWire : Wire,
      sampleHalfWired.HandleWireClick ⟨492, 185⟩ sampleGates =
        some ({ toIdle sampleHalfWired with wires := sampleHalfWired.wires ++ [newWire] }, true) ∧
      newWire.fromGateIndex = 1 ∧ newWire.toGateIndex = 2 ∧ newWire.toInputIndex = 1 ∧
      newWire.state = false :=
  ⟨HandleWireClick_machine.1 sampleSystem ⟨368, 120⟩ sampleGates ⟨⟨368, 120⟩, false, 0, 0⟩
      rfl (by decide!) rfl,
   HandleWireClick_machine.2.1 samplePending ⟨0, 0⟩ sampleGates rfl (by decide!),
   HandleWireClick_machine.2.2 sampleHalfWired ⟨492, 185⟩ sampleGates ⟨⟨492, 183⟩, true, 2, 1⟩
      rfl (by decide) (by decide!) rfl (by decide) (by decide!)⟩

/-! ### The staleness scenario -/

theorem UpdateSignals_gates (ws : WiringSystem) (gates : List Gate) :
    (ws.UpdateSignals gates).2 =
      (WiringSystem.propagate (gates.map WiringSystem.sourcePhase) ws.wires).1.map
        WiringSystem.downstreamPhase := rfl

/-- C11: with gate store [Input A (toggle bit true), AND B] and the single wire
A → B slot 0, one step gives B.output = false; after a second Input gate with toggle bit
true and a wire from it to B slot 1 are appended, one further step gives
B.output = true.  This holds at any gate positions and for any initial slot, output,
wire-state and waypoint values. -/
theorem staleness_scenario (pA pB pC : Vector2) (a2 ao b1 b2 bo c2 co st st2 : Bool)
    (wp wp2 : List Vector2) :
    (((stalenessSystem st wp).UpdateSignals (stalenessGates pA pB a2 ao b1 b2 bo)).2[1]?).map
        Gate.output = some false ∧
    (((connectSecondInput
        ((stalenessSystem st wp).UpdateSignals (stalenessGates pA pB a2 ao b1 b2 bo))
        pC c2 co st2 wp2).1.UpdateSignals
      (connectSecondInput
        ((stalenessSystem st wp).UpdateSignals (stalenessGates pA pB a2 ao b1 b2 bo))
        pC c2 co st2 wp2).2).2[1]?).map Gate.output = some true := by
  have h1 : ((stalenessSystem st wp).UpdateSignals (stalenessGates pA pB a2 ao b1 b2 bo)).2 =
      [⟨.INPUT, pA, true, a2, true⟩, ⟨.AND, pB, true, false, false⟩] := by
    rw [UpdateSignals_gates]
    simp [stalenessSystem, stalenessGates, WiringSystem.propagate, WiringSystem.propagateWire,
      WiringSystem.sourcePhase, WiringSystem.downstreamPhase, Gate.GetType, Gate.ComputeOutput,
      indexInRange]
  have h1w : ((stalenessSystem st wp).UpdateSignals
      (stalenessGates pA pB a2 ao b1 b2 bo)).1.wires.map Wire.endpoints = [(0, 1, 0)] := by
    rw [UpdateSignals_endpoints]; rfl
  refine ⟨by rw [h1]; rfl, ?_⟩
  rw [UpdateSignals_gates]
  simp only [connectSecondInput, h1]
  generalize ((stalenessSystem st wp).UpdateSignals
    (stalenessGates pA pB a2 ao b1 b2 bo)).1.wires = ws1 at h1w ⊢
  obtain ⟨w, rfl⟩ : ∃ w, ws1 = [w] := by
    cases ws1 with
    | nil => simp at h1w
    | cons w r =>
      cases r with
      | nil => exact ⟨w, rfl⟩
      | cons _ _ => simp at h1w
  obtain ⟨f, t, i, s, l⟩ := w
  simp only [List.map_cons, List.map_nil, Wire.endpoints, List.cons.injEq, Prod.mk.injEq,
    and_true] at h1w
  obtain ⟨rfl, rfl, rfl⟩ := h1w
  simp [WiringSystem.propagate, WiringSystem.propagateWire,
    WiringSystem.sourcePhase, WiringSystem.downstreamPhase, Gate.GetType, Gate.ComputeOutput,
    indexInRange]

/-! ### Gate placement -/

theorem lineIntersectLoop_iff (w : Wire) (a b : Vector2) (clearance : ℚ) (gates : List Gate)
    (i : Nat) :
    w.lineIntersectLoop a b clearance i gates = true ↔
      ∃ (j : Nat) (g : Gate), gates[j]? = some g ∧ ((i + j : Nat) : Int) ≠ w.fromGateIndex ∧
        ((i + j : Nat) : Int) ≠ w.toGateIndex ∧
        Overlaps (segmentBox a b) (expandedBox g clearance) := by
  induction gates generalizing i with
  | nil => simp [Wire.lineIntersectLoop]
  | cons g rest ih =>
    have hbox : CheckCollisionRecs
        ⟨min a.x b.x, min a.y b.y, |b.x - a.x| + 1, |b.y - a.y| + 1⟩
        ⟨g.GetBounds.x - clearance, g.GetBounds.y - clearance,
          g.GetBounds.width + 2 * clearance, g.GetBounds.height + 2 * clearance⟩ = true ↔
        Overlaps (segmentBox a b) (expandedBox g clearance) := by
      simp [CheckCollisionRecs, Overlaps, segmentBox, expandedBox, Gate.GetBounds, Gate.GetSize]
    have hshift : (∃ (j : Nat) (g2 : Gate), rest[j]? = some g2 ∧
          ((i + 1 + j : Nat) : Int) ≠ w.fromGateIndex ∧
          ((i + 1 + j : Nat) : Int) ≠ w.toGateIndex ∧
          Overlaps (segmentBox a b) (expandedBox g2 clearance)) ↔
        ∃ (j : Nat) (g2 : Gate), (g :: rest)[j + 1]? = some g2 ∧
          ((i + (j + 1) : Nat) : Int) ≠ w.fromGateIndex ∧
          ((i + (j + 1) : Nat) : Int) ≠ w.toGateIndex ∧
          Overlaps (segmentBox a b) (expandedBox g2 clearance) := by
      constructor
      · rintro ⟨j, g2, h1, h2, h3, h4⟩
        exact ⟨j, g2, by simpa using h1, by rwa [show i + (j + 1) = i + 1 + j by omega],
          by rwa [show i + (j + 1) = i + 1 + j by omega], h4⟩
      · rintro ⟨j, g2, h1, h2, h3, h4⟩
        exact ⟨j, g2, by simpa using h1, by rwa [show i + 1 + j = i + (j + 1) by omega],
          by rwa [show i + 1 + j = i + (j + 1) by omega], h4⟩
    unfold Wire.lineIntersectLoop
    by_cases hskip : (i : Int) = w.fromGateIndex ∨ (i : Int) = w.toGateIndex
    · rw [if_pos hskip, ih, hshift]
      constructor
      · rintro ⟨j, g2, h⟩
        exact ⟨j + 1, g2, h⟩
      · rintro ⟨j, g2, h1, h2, h3, h4⟩
        cases j with
        | zero =>
          exfalso
          rcases hskip with h | h
          · exact h2 (by simpa using h)
          · exact h3 (by simpa using h)
        | succ j => exact ⟨j, g2, h1, h2, h3, h4⟩
    · rw [if_neg hskip]
      simp only
      by_cases hc : CheckCollisionRecs
          ⟨min a.x b.x, min a.y b.y, |b.x - a.x| + 1, |b.y - a.y| + 1⟩
          ⟨g.GetBounds.x - clearance, g.GetBounds.y - clearance,
            g.GetBounds.width + 2 * clearance, g.GetBounds.height + 2 * clearance⟩ = true
      · rw [if_pos hc]
        simp only [true_iff]
        push_neg at hskip
        exact ⟨0, g, by simp, by simpa using hskip.1, by simpa using hskip.2, hbox.1 hc⟩
      · rw [if_neg hc, ih, hshift]
        constructor
        · rintro ⟨j, g2, h⟩
          exact ⟨j + 1, g2, h⟩
        · rintro ⟨j, g2, h1, h2, h3, h4⟩
          cases j with
          | zero =>
            simp only [List.getElem?_cons_zero, Option.some.injEq] at h1
            subst h1
            exact absurd (hbox.2 h4) hc
          | succ j => exact ⟨j, g2, h1, h2, h3, h4⟩

theorem DoesLineIntersectGates_iff (w : Wire) (a b : Vector2) (gates : List Gate)
    (clearance : ℚ) :
    w.DoesLineIntersectGates a b gates clearance = true ↔ SegmentBlocked w a b gates clearance := by
  unfold Wire.DoesLineIntersectGates SegmentBlocked IsObstacle
  rw [lineIntersectLoop_iff]
  simp only [zero_add, and_assoc]

theorem clears_eq_false_iff (w : Wire) (start endPt : Vector2) (gates : List Gate)
    (clearance : ℚ) (c : Candidate) :
    clears w start endPt gates clearance c = false ↔
      SegmentBlocked w start c.bend gates clearance ∨
      SegmentBlocked w c.bend c.corner gates clearance ∨
      SegmentBlocked w c.corner endPt gates clearance := by
  unfold clears Wire.DoesRouteIntersectGates
  simp only [Bool.not_eq_false', Bool.or_eq_true, DoesLineIntersectGates_iff, or_assoc]

theorem straightLoop_eq_find (w : Wire) (start endPt : Vector2) (gates : List Gate)
    (clearance : ℚ) (l : List ℚ) :
    w.straightLoop start endPt gates clearance l =
      ((l.flatMap (fun f => [horizontalFirst start endPt f, verticalFirst start endPt f])).find?
        (clears w start endPt gates clearance)).map Candidate.bend := by
  induction l with
  | nil => rfl
  | cons f rest ih =>
    unfold Wire.straightLoop
    simp only [List.flatMap_cons, List.cons_append, List.nil_append, List.find?_cons]
    have h1 : (!w.DoesRouteIntersectGates start ⟨start.x + (endPt.x - start.x) * f, start.y⟩
        ⟨start.x + (endPt.x - start.x) * f, endPt.y⟩ endPt gates clearance) =
        clears w start endPt gates clearance (horizontalFirst start endPt f) := rfl
    have h2 : (!w.DoesRouteIntersectGates start ⟨start.x, start.y + (endPt.y - start.y) * f⟩
        ⟨endPt.x, start.y + (endPt.y - start.y) * f⟩ endPt gates clearance) =
        clears w start endPt gates clearance (verticalFirst start endPt f) := rfl
    rw [h1, h2, ih]
    cases clears w start endPt gates clearance (horizontalFirst start endPt f)
    · cases clears w start endPt gates clearance (verticalFirst start endPt f)
      · simp
      · simp [verticalFirst]
    · simp [horizontalFirst]

theorem offsetPctLoop_eq_find (w : Wire) (start endPt : Vector2) (gates : List Gate)
    (clearance offset : ℚ) (l : List ℚ) :
    w.offsetPctLoop start endPt gates clearance offset l =
      ((l.flatMap (fun f =>
          [horizontalOffset start endPt offset f, verticalOffset start endPt offset f])).find?
        (clears w start endPt gates clearance)).map Candidate.bend := by
  induction l with
  | nil => rfl
  | cons f rest ih =>
    unfold Wire.offsetPctLoop
    simp only [List.flatMap_cons, List.cons_append, List.nil_append, List.find?_cons]
    have h1 : (!w.DoesRouteIntersectGates start
        ⟨start.x + (endPt.x - start.x) * f, start.y + offset⟩
        ⟨start.x + (endPt.x - start.x) * f, endPt.y⟩ endPt gates clearance) =
        clears w start endPt gates clearance (horizontalOffset start endPt offset f) := rfl
    have h2 : (!w.DoesRouteIntersectGates start
        ⟨start.x + offset, start.y + (endPt.y - start.y) * f⟩
        ⟨endPt.x, start.y + (endPt.y - start.y) * f⟩ endPt gates clearance) =
        clears w start endPt gates clearance (verticalOffset start endPt offset f) := rfl
    rw [h1, h2, ih]
    cases clears w start endPt gates clearance (horizontalOffset start endPt offset f)
    · cases clears w start endPt gates clearance (verticalOffset start endPt offset f)
      · simp
      · simp [verticalOffset]
    · simp [horizontalOffset]

theorem offsetLoop_eq_find (w : Wire) (start endPt : Vector2) (gates : List Gate)
    (clearance : ℚ) (l : List ℚ) :
    w.offsetLoop start endPt gates clearance l =
      ((l.flatMap (fun o => Wire.percentages.flatMap (fun f =>
          [horizontalOffset start endPt o f, verticalOffset start endPt o f]))).find?
        (clears w start endPt gates clearance)).map Candidate.bend := by
  induction l with
  | nil => rfl
  | cons o rest ih =>
    unfold Wire.offsetLoop
    rw [List.flatMap_cons, List.find?_append, offsetPctLoop_eq_find, ih]
    cases List.find? (clears w start endPt gates clearance)
      (Wire.percentages.flatMap fun f =>
        [horizontalOffset start endPt o f, verticalOffset start endPt o f]) <;> simp

theorem CalculateAvoidanceRoute_eq_find (w : Wire) (start endPt : Vector2) (gates : List Gate)
    (clearance : ℚ) :
    w.CalculateAvoidanceRoute start endPt gates clearance =
      match (candidatesInOrder start endPt).find? (clears w start endPt gates clearance) with
      | some c => c.bend
      | none => ⟨-1, -1⟩ := by
  unfold Wire.CalculateAvoidanceRoute candidatesInOrder
  rw [List.find?_append, straightLoop_eq_find, offsetLoop_eq_find]
  have hs : (Wire.percentages.flatMap fun f =>
      [horizontalFirst start endPt f, verticalFirst start endPt f]) =
      straightCandidates start endPt := rfl
  have ho : (Wire.offsets.flatMap fun o => Wire.percentages.flatMap fun f =>
      [horizontalOffset start endPt o f, verticalOffset start endPt o f]) =
      offsetCandidates start endPt := rfl
  rw [hs, ho]
  cases List.find? (clears w start endPt gates clearance) (straightCandidates start endPt) with
  | some c => rfl
  | none =>
    cases List.find? (clears w start endPt gates clearance) (offsetCandidates start endPt) <;> rfl

theorem DoesLineIntersectGates_congr (w w2 : Wire) (a b : Vector2) (gs gs2 : List Gate)
    (clearance : ℚ) (hfrom : w2.fromGateIndex = w.fromGateIndex)
    (hto : w2.toGateIndex = w.toGateIndex) (hagree : AgreeOffWire w gs gs2) :
    w.DoesLineIntersectGates a b gs clearance = w2.DoesLineIntersectGates a b gs2 clearance := by
  rw [Bool.eq_iff_iff, DoesLineIntersectGates_iff, DoesLineIntersectGates_iff]
  unfold SegmentBlocked IsObstacle
  rw [hfrom, hto]
  constructor
  · rintro ⟨i, g, ⟨h1, h2, h3⟩, h4⟩
    exact ⟨i, g, ⟨by rw [← hagree.2 i h2 h3]; exact h1, h2, h3⟩, h4⟩
  · rintro ⟨i, g, ⟨h1, h2, h3⟩, h4⟩
    exact ⟨i, g, ⟨by rw [hagree.2 i h2 h3]; exact h1, h2, h3⟩, h4⟩

theorem clears_congr (w w2 : Wire) (start endPt : Vector2) (gs gs2 : List Gate)
    (clearance : ℚ) (hfrom : w2.fromGateIndex = w.fromGateIndex)
    (hto : w2.toGateIndex = w.toGateIndex) (hagree : AgreeOffWire w gs gs2) :
    clears w start endPt gs clearance = clears w2 start endPt gs2 clearance := by
  funext c
  unfold clears Wire.DoesRouteIntersectGates
  rw [DoesLineIntersectGates_congr w w2 _ _ gs gs2 clearance hfrom hto hagree,
    DoesLineIntersectGates_congr w w2 _ _ gs gs2 clearance hfrom hto hagree,
    DoesLineIntersectGates_congr w w2 _ _ gs gs2 clearance hfrom hto hagree]

theorem CalculateLRoute_waypoints (w : Wire) (start endPt : Vector2) (gates : Option (List Gate)) :
    (w.CalculateLRoute start endPt gates).waypoints =
      match gates with
      | none => Wire.CalculateSimpleLRoute [start] start endPt
      | some gs =>
        if gs.isEmpty then Wire.CalculateSimpleLRoute [start] start endPt
        else if (w.CalculateAvoidanceRoute start endPt gs 5).x ≠ -1 then
          [start, w.CalculateAvoidanceRoute start endPt gs 5,
            ⟨(w.CalculateAvoidanceRoute start endPt gs 5).x, endPt.y⟩, endPt]
        else Wire.CalculateSimpleLRoute [start] start endPt := by
  unfold Wire.CalculateLRoute
  cases gates with
  | none => rfl
  | some gs =>
    simp only
    split
    · rfl
    · split <;> rfl

/-- C18: the route depends only on start, end and the gates other than the wire's own
source and destination.  Two wires with the same source and destination index, whatever
their state and previous waypoints, routed with the same start and end over two gate
stores of one length that agree at every other index, get identical waypoints; so do
two such wires routed without a gate list. -/
theorem CalculateLRoute_depends_on_obstacles (w w2 : Wire) (start endPt : Vector2)
    (gs gs2 : List Gate) (hfrom : w2.fromGateIndex = w.fromGateIndex)
    (hto : w2.toGateIndex = w.toGateIndex) (hagree : AgreeOffWire w gs gs2) :
    (w.CalculateLRoute start endPt (some gs)).waypoints =
      (w2.CalculateLRoute start endPt (some gs2)).waypoints ∧
    (w.CalculateLRoute start endPt none).waypoints =
      (w2.CalculateLRoute start endPt none).waypoints := by
  refine ⟨?_, rfl⟩
  have hroute : w.CalculateAvoidanceRoute start endPt gs 5 =
      w2.CalculateAvoidanceRoute start endPt gs2 5 := by
    rw [CalculateAvoidanceRoute_eq_find, CalculateAvoidanceRoute_eq_find,
      clears_congr w w2 start endPt gs gs2 5 hfrom hto hagree]
  have hempty : gs.isEmpty = gs2.isEmpty := by
    have hlen := hagree.1
    cases gs <;> cases gs2 <;> simp_all
  rw [CalculateLRoute_waypoints, CalculateLRoute_waypoints]
  simp only [hroute, hempty]

/-! ### Route synthesis: the offset sweep in exact arithmetic

The lemmas of this section are about the search in exact arithmetic.  They do not carry
over to binary32, where rounding can let an offset candidate clear although its
strategy-1 counterpart is blocked. -/

theorem min_add_abs_sub (a b : ℚ) : min a b + (|b - a| + 1) = max a b + 1 := by
  rcases le_total a b with h | h
  · rw [min_eq_left h, max_eq_right h, abs_of_nonneg (by linarith)]; ring
  · rw [min_eq_right h, max_eq_left h, abs_of_nonpos (by linarith)]; ring

theorem Overlaps_segmentBox_iff (a b : Vector2) (E : Rectangle) :
    Overlaps (segmentBox a b) E ↔
      (a.x < E.x + E.width ∨ b.x < E.x + E.width) ∧ (E.x < a.x + 1 ∨ E.x < b.x + 1) ∧
      (a.y < E.y + E.height ∨ b.y < E.y + E.height) ∧ (E.y < a.y + 1 ∨ E.y < b.y + 1) := by
  unfold Overlaps segmentBox
  simp only [min_add_abs_sub, gt_iff_lt, min_lt_iff, lt_max_iff]
  constructor
  · rintro ⟨h1, h2, h3, h4⟩
    refine ⟨h1, ?_, h3, ?_⟩
    · rcases le_total a.x b.x with h | h
      · rw [max_eq_right h] at h2; exact Or.inr h2
      · rw [max_eq_left h] at h2; exact Or.inl h2
    · rcases le_total a.y b.y with h | h
      · rw [max_eq_right h] at h4; exact Or.inr h4
      · rw [max_eq_left h] at h4; exact Or.inl h4
  · rintro ⟨h1, h2, h3, h4⟩
    refine ⟨h1, ?_, h3, ?_⟩
    · rcases h2 with h | h
      · exact lt_of_lt_of_le h (by linarith [le_max_left a.x b.x])
      · exact lt_of_lt_of_le h (by linarith [le_max_right a.x b.x])
    · rcases h4 with h | h
      · exact lt_of_lt_of_le h (by linarith [le_max_left a.y b.y])
      · exact lt_of_lt_of_le h (by linarith [le_max_right a.y b.y])

theorem expandedBox_extent (g : Gate) (clearance : ℚ) (hc : 0 ≤ clearance) :
    0 ≤ (expandedBox g clearance).width ∧ 0 ≤ (expandedBox g clearance).height := by
  obtain ⟨t, p, a, b, o⟩ := g
  cases t <;> simp only [expandedBox, GATE_DATA_size] <;> constructor <;> linarith

/-- A box that meets the vertical segment from `(x, y1)` to `(x, y2)` meets the segment
from `(x0, y1)` to `(x, t)` or the vertical segment from `(x, t)` to `(x, y2)`. -/
theorem detour_vertical (E : Rectangle) (hE : 0 ≤ E.height) (x x0 y1 y2 t : ℚ)
    (h : Overlaps (segmentBox ⟨x, y1⟩ ⟨x, y2⟩) E) :
    Overlaps (segmentBox ⟨x0, y1⟩ ⟨x, t⟩) E ∨ Overlaps (segmentBox ⟨x, t⟩ ⟨x, y2⟩) E := by
  simp only [Overlaps_segmentBox_iff, or_self] at h ⊢
  obtain ⟨hx1, hx2, hy1, hy2⟩ := h
  rcases hy1 with hy1 | hy1 <;> rcases hy2 with hy2 | hy2
  · exact Or.inl ⟨Or.inr hx1, Or.inr hx2, Or.inl hy1, Or.inl hy2⟩
  · rcases lt_or_le t (E.y + E.height) with ht | ht
    · exact Or.inr ⟨hx1, hx2, Or.inl ht, Or.inr hy2⟩
    · exact Or.inl ⟨Or.inr hx1, Or.inr hx2, Or.inl hy1, Or.inr (by linarith)⟩
  · rcases lt_or_le t (E.y + E.height) with ht | ht
    · exact Or.inl ⟨Or.inr hx1, Or.inr hx2, Or.inr ht, Or.inl hy2⟩
    · exact Or.inr ⟨hx1, hx2, Or.inr hy1, Or.inl (by linarith)⟩
  · exact Or.inr ⟨hx1, hx2, Or.inr hy1, Or.inr hy2⟩

/-- A box that meets the horizontal segment from `(x1, y)` to `(x2, y)` meets the segment
from `(x1, y0)` to `(t, y)` or the horizontal segment from `(t, y)` to `(x2, y)`. -/
theorem detour_horizontal (E : Rectangle) (hE : 0 ≤ E.width) (y y0 x1 x2 t : ℚ)
    (h : Overlaps (segmentBox ⟨x1, y⟩ ⟨x2, y⟩) E) :
    Overlaps (segmentBox ⟨x1, y0⟩ ⟨t, y⟩) E ∨ Overlaps (segmentBox ⟨t, y⟩ ⟨x2, y⟩) E := by
  simp only [Overlaps_segmentBox_iff, or_self] at h ⊢
  obtain ⟨hx1, hx2, hy1, hy2⟩ := h
  rcases hx1 with hx1 | hx1 <;> rcases hx2 with hx2 | hx2
  · exact Or.inl ⟨Or.inl hx1, Or.inl hx2, Or.inr hy1, Or.inr hy2⟩
  · rcases lt_or_le t (E.x + E.width) with ht | ht
    · exact Or.inr ⟨Or.inl ht, Or.inr hx2, hy1, hy2⟩
    · exact Or.inl ⟨Or.inl hx1, Or.inr (by linarith), Or.inr hy1, Or.inr hy2⟩
  · rcases lt_or_le t (E.x + E.width) with ht | ht
    · exact Or.inl ⟨Or.inr ht, Or.inl hx2, Or.inr hy1, Or.inr hy2⟩
    · exact Or.inr ⟨Or.inr hx1, Or.inl (by linarith), hy1, hy2⟩
  · exact Or.inr ⟨Or.inr hx1, Or.inr hx2, hy1, hy2⟩

theorem SegmentBlocked_mono (w : Wire) (a b a2 b2 : Vector2) (gates : List Gate)
    (clearance : ℚ)
    (h : ∀ E : Rectangle, Overlaps (segmentBox a b) E → Overlaps (segmentBox a2 b2) E)
    (hb : SegmentBlocked w a b gates clearance) : SegmentBlocked w a2 b2 gates clearance := by
  obtain ⟨i, g, hobs, hov⟩ := hb
  exact ⟨i, g, hobs, h _ hov⟩

theorem horizontalOffset_blocked (w : Wire) (start endPt : Vector2) (gates : List Gate)
    (clearance : ℚ) (hc : 0 ≤ clearance) (o f : ℚ)
    (h : clears w start endPt gates clearance (horizontalFirst start endPt f) = false) :
    clears w start endPt gates clearance (horizontalOffset start endPt o f) = false := by
  rw [clears_eq_false_iff] at h ⊢
  simp only [horizontalFirst, horizontalOffset] at h ⊢
  rcases h with h | h | h
  · left
    refine SegmentBlocked_mono w _ _ _ _ gates clearance ?_ h
    intro E hE
    simp only [Overlaps_segmentBox_iff, or_self] at hE ⊢
    exact ⟨hE.1, hE.2.1, Or.inl hE.2.2.1, Or.inl hE.2.2.2⟩
  · obtain ⟨i, g, hobs, hov⟩ := h
    rcases detour_vertical _ (expandedBox_extent g clearance hc).2 _ start.x _ _
      (start.y + o) hov with h1 | h1
    · exact Or.inl ⟨i, g, hobs, h1⟩
    · exact Or.inr (Or.inl ⟨i, g, hobs, h1⟩)
  · exact Or.inr (Or.inr h)

theorem verticalOffset_blocked (w : Wire) (start endPt : Vector2) (gates : List Gate)
    (clearance : ℚ) (hc : 0 ≤ clearance) (o f : ℚ)
    (h : clears w start endPt gates clearance (verticalFirst start endPt f) = false) :
    clears w start endPt gates clearance (verticalOffset start endPt o f) = false := by
  rw [clears_eq_false_iff] at h ⊢
  simp only [verticalFirst, verticalOffset] at h ⊢
  rcases h with h | h | h
  · left
    refine SegmentBlocked_mono w _ _ _ _ gates clearance ?_ h
    intro E hE
    simp only [Overlaps_segmentBox_iff, or_self] at hE ⊢
    exact ⟨Or.inl hE.1, Or.inl hE.2.1, hE.2.2.1, hE.2.2.2⟩
  · obtain ⟨i, g, hobs, hov⟩ := h
    rcases detour_horizontal _ (expandedBox_extent g clearance hc).1 _ start.y _ _
      (start.x + o) hov with h1 | h1
    · exact Or.inl ⟨i, g, hobs, h1⟩
    · exact Or.inr (Or.inl ⟨i, g, hobs, h1⟩)
  · exact Or.inr (Or.inr h)

theorem mem_straightCandidates (start endPt : Vector2) (c : Candidate) :
    c ∈ straightCandidates start endPt ↔
      ∃ f ∈ Wire.percentages, c = horizontalFirst start endPt f ∨ c = verticalFirst start endPt f := by
  unfold straightCandidates Wire.percentages
  simp only [List.mem_flatMap, List.mem_cons, List.mem_singleton, List.not_mem_nil, or_false]

theorem mem_offsetCandidates (start endPt : Vector2) (c : Candidate) :
    c ∈ offsetCandidates start endPt ↔
      ∃ o ∈ Wire.offsets, ∃ f ∈ Wire.percentages,
        c = horizontalOffset start endPt o f ∨ c = verticalOffset start endPt o f := by
  unfold offsetCandidates Wire.percentages Wire.offsets
  simp only [List.mem_flatMap, List.mem_cons, List.mem_singleton, List.not_mem_nil, or_false]

theorem offsetCandidates_blocked (w : Wire) (start endPt : Vector2) (gates : List Gate)
    (clearance : ℚ) (hc : 0 ≤ clearance)
    (h : ∀ c ∈ straightCandidates start endPt, clears w start endPt gates clearance c = false) :
    ∀ c ∈ offsetCandidates start endPt, clears w start endPt gates clearance c = false := by
  intro c hmem
  rw [mem_offsetCandidates] at hmem
  obtain ⟨o, -, f, hf, rfl | rfl⟩ := hmem
  · exact horizontalOffset_blocked w start endPt gates clearance hc o f
      (h _ ((mem_straightCandidates _ _ _).2 ⟨f, hf, Or.inl rfl⟩))
  · exact verticalOffset_blocked w start endPt gates clearance hc o f
      (h _ ((mem_straightCandidates _ _ _).2 ⟨f, hf, Or.inr rfl⟩))

/-- In exact arithmetic, with a clearance that is not negative, the offset sweep does not
supply the bend: the search returns the bend of the first clearing strategy-1 candidate
or (-1, -1).  In binary32 arithmetic this fails, see `CalculateLRoute_not_one_axis`. -/
theorem CalculateAvoidanceRoute_eq_straight (w : Wire) (start endPt : Vector2)
    (gates : List Gate) (clearance : ℚ) (hc : 0 ≤ clearance) :
    w.CalculateAvoidanceRoute start endPt gates clearance =
      match (straightCandidates start endPt).find? (clears w start endPt gates clearance) with
      | some c => c.bend
      | none => ⟨-1, -1⟩ := by
  rw [CalculateAvoidanceRoute_eq_find]
  unfold candidatesInOrder
  rw [List.find?_append]
  cases hs : (straightCandidates start endPt).find? (clears w start endPt gates clearance) with
  | some c => rfl
  | none =>
    have hall : ∀ c ∈ straightCandidates start endPt,
        clears w start endPt gates clearance c = false := by
      rw [List.find?_eq_none] at hs
      intro c hmem
      simpa using hs c hmem
    have ho : (offsetCandidates start endPt).find? (clears w start endPt gates clearance) =
        none := by
      rw [List.find?_eq_none]
      intro c hmem
      simp [offsetCandidates_blocked w start endPt gates clearance hc hall c hmem]
    rw [ho]
    rfl

theorem consecutive_three (R : Vector2 → Vector2 → Prop) (a b c : Vector2) (h1 : R a b)
    (h2 : R b c) : ConsecutiveWaypoints R [a, b, c] := by
  intro i x y hx hy
  match i with
  | 0 => simp at hx hy; subst hx hy; exact h1
  | 1 => simp at hx hy; subst hx hy; exact h2
  | (n + 2) => simp at hy

theorem consecutive_four (R : Vector2 → Vector2 → Prop) (a b c d : Vector2) (h1 : R a b)
    (h2 : R b c) (h3 : R c d) : ConsecutiveWaypoints R [a, b, c, d] := by
  intro i x y hx hy
  match i with
  | 0 => simp at hx hy; subst hx hy; exact h1
  | 1 => simp at hx hy; subst hx hy; exact h2
  | 2 => simp at hx hy; subst hx hy; exact h3
  | (n + 3) => simp at hy

theorem CalculateSimpleLRoute_axis_aligned (start endPt : Vector2) :
    (Wire.CalculateSimpleLRoute [start] start endPt).length = 3 ∧
    ConsecutiveWaypoints AxisAligned (Wire.CalculateSimpleLRoute [start] start endPt) := by
  unfold Wire.CalculateSimpleLRoute
  simp only
  split
  · exact ⟨rfl, consecutive_three _ _ _ _ (Or.inr rfl) (Or.inl rfl)⟩
  · exact ⟨rfl, consecutive_three _ _ _ _ (Or.inl rfl) (Or.inr rfl)⟩

/-! ### Route synthesis: the endpoints and the stored path -/

theorem CalculateSimpleLRoute_last (start endPt : Vector2) (hne : start ≠ endPt) :
    (Wire.CalculateSimpleLRoute [start] start endPt).getLast? ≠ some endPt := by
  unfold Wire.CalculateSimpleLRoute
  simp only
  split
  · rename_i h
    simp only [List.singleton_append, List.cons_append, List.nil_append, List.getLast?_cons_cons,
      List.getLast?_singleton, ne_eq, Option.some.injEq]
    intro heq
    have hx : start.x + (endPt.x - start.x) * (7 / 10) = endPt.x := congrArg Vector2.x heq
    have hdx : endPt.x - start.x = 0 := by linarith
    rw [hdx, abs_zero] at h
    exact absurd h (not_lt.2 (abs_nonneg _))
  · rename_i h
    simp only [List.singleton_append, List.cons_append, List.nil_append, List.getLast?_cons_cons,
      List.getLast?_singleton, ne_eq, Option.some.injEq]
    intro heq
    have hy : start.y + (endPt.y - start.y) * (7 / 10) = endPt.y := congrArg Vector2.y heq
    have hdy : endPt.y - start.y = 0 := by linarith
    rw [hdy, abs_zero] at h
    have hdx : endPt.x - start.x = 0 := abs_eq_zero.1 (le_antisymm (not_lt.1 h) (abs_nonneg _))
    apply hne
    obtain ⟨sx, sy⟩ := start
    obtain ⟨ex, ey⟩ := endPt
    simp only [Vector2.mk.injEq] at hdx hdy ⊢
    exact ⟨by linarith, by linarith⟩

/-- C14 (the code at the failing inputs): every route starts at `start`, but whenever the
simple L-route is used and start and end differ, the route's last waypoint is not
`end`: so without a gate list, with an empty one, and in the store `coveredStartGates`,
where every candidate is obstructed and the wire from gate 0 to slot 0 of gate 1 gets
the three waypoints (368, 120), (2274/5, 120), (2274/5, 333/2) instead of ending at
(492, 333/2); `HandleWireClick` stores that wire with that route. -/
theorem CalculateLRoute_fallback_misses_end :
    (∀ (w : Wire) (start endPt : Vector2) (gates : Option (List Gate)),
      (w.CalculateLRoute start endPt gates).waypoints.head? = some start) ∧
    (∀ (w : Wire) (start endPt : Vector2), start ≠ endPt →
      (w.CalculateLRoute start endPt none).waypoints.getLast? ≠ some endPt ∧
      (w.CalculateLRoute start endPt (some [])).waypoints.getLast? ≠ some endPt) ∧
    ((Wire.new 0 1 0).CalculateAvoidanceRoute ⟨368, 120⟩ ⟨492, 333 / 2⟩ coveredStartGates 5 =
        ⟨-1, -1⟩ ∧
      ((Wire.new 0 1 0).CalculateLRoute ⟨368, 120⟩ ⟨492, 333 / 2⟩
        (some coveredStartGates)).waypoints =
        [⟨368, 120⟩, ⟨2274 / 5, 120⟩, ⟨2274 / 5, 333 / 2⟩] ∧
      WiringSystem.HandleWireClick ⟨[], true, 0, ⟨0, 0⟩⟩ ⟨492, 333 / 2⟩ coveredStartGates =
        some (⟨[⟨0, 1, 0, false, [⟨368, 120⟩, ⟨2274 / 5, 120⟩, ⟨2274 / 5, 333 / 2⟩]⟩],
          false, -1, ⟨0, 0⟩⟩, true)) := by
  refine ⟨?_, ?_, by decide!, by decide!, by decide!⟩
  · intro w start endPt gates
    rw [CalculateLRoute_waypoints]
    have hs : (Wire.CalculateSimpleLRoute [start] start endPt).head? = some start := by
      unfold Wire.CalculateSimpleLRoute
      simp only
      split <;> rfl
    cases gates with
    | none => exact hs
    | some gs =>
      simp only
      split
      · exact hs
      · split
        · rfl
        · exact hs
  · intro w start endPt hne
    rw [CalculateLRoute_waypoints, CalculateLRoute_waypoints]
    exact ⟨CalculateSimpleLRoute_last start endPt hne, CalculateSimpleLRoute_last start endPt hne⟩

/-- C16 (the code at the failing input): in the store `lowObstacleGates` the search for
the wire from gate 0 to slot 0 of gate 1 finds the vertical-first bend (368, 873/4), so
no fallback is used; the stored route turns at (368, 633/2), not at the corner
(592, 873/4) of the tested path, and its last segment runs through the expanded box of
gate 2: the source's own test reports the intersection, and the point (530, 633/2) of
that segment lies strictly inside the box.  `HandleWireClick` stores the wire with
that route. -/
theorem CalculateLRoute_stored_route_blocked :
    (Wire.new 0 1 0).CalculateAvoidanceRoute ⟨368, 120⟩ ⟨592, 633 / 2⟩ lowObstacleGates 5 =
      ⟨368, 873 / 4⟩ ∧
    ((Wire.new 0 1 0).CalculateLRoute ⟨368, 120⟩ ⟨592, 633 / 2⟩
      (some lowObstacleGates)).waypoints =
      [⟨368, 120⟩, ⟨368, 873 / 4⟩, ⟨368, 633 / 2⟩, ⟨592, 633 / 2⟩] ∧
    (Wire.new 0 1 0).DoesLineIntersectGates ⟨368, 633 / 2⟩ ⟨592, 633 / 2⟩ lowObstacleGates 5 =
      true ∧
    segmentPoint ⟨368, 633 / 2⟩ ⟨592, 633 / 2⟩ (81 / 112) = ⟨530, 633 / 2⟩ ∧
    StrictlyInside ⟨530, 633 / 2⟩ (expandedBox ⟨.INPUT, ⟨500, 300⟩, false, false, false⟩ 5) ∧
    lowObstacleGates[2]? = some ⟨.INPUT, ⟨500, 300⟩, false, false, false⟩ ∧
    WiringSystem.HandleWireClick ⟨[], true, 0, ⟨0, 0⟩⟩ ⟨592, 633 / 2⟩ lowObstacleGates =
      some (⟨[⟨0, 1, 0, false, [⟨368, 120⟩, ⟨368, 873 / 4⟩, ⟨368, 633 / 2⟩, ⟨592, 633 / 2⟩]⟩],
        false, -1, ⟨0, 0⟩⟩, true) := by
  refine ⟨by decide!, by decide!, by decide!, by decide!, ?_, rfl, by decide!⟩
  unfold StrictlyInside expandedBox GATE_DATA_size
  norm_num

/-! ### One step, gate by gate and wire by wire -/

theorem outAt_sourcePhase_eq (gates : List Gate) :
    outAt (gates.map WiringSystem.sourcePhase) = signalAt gates :=
  funext (fun idx => outAt_sourcePhase gates idx)

theorem WiresInRange_of_length_eq {gates gates2 : List Gate} (wires : List Wire)
    (h : gates2.length = gates.length) (hr : WiresInRange wires gates) :
    WiresInRange wires gates2 := by
  intro w hw
  rw [indexInRange_of_length_eq h, indexInRange_of_length_eq h]
  exact hr w hw

theorem UpdateSignals_length (ws : WiringSystem) (gates : List Gate) :
    (ws.UpdateSignals gates).2.length = gates.length := by
  simp [WiringSystem.UpdateSignals, propagate_length]

theorem UpdateSignals_gate (ws : WiringSystem) (gates : List Gate)
    (hr : WiresInRange ws.wires gates) (i : Nat) (g : Gate) (hg : gates[i]? = some g) :
    (ws.UpdateSignals gates).2[i]? = some (stepGate gates ws.wires i g) := by
  have hr1 : WiresInRange ws.wires (gates.map WiringSystem.sourcePhase) :=
    WiresInRange_of_length_eq _ (List.length_map _ _) hr
  have hg1 : (gates.map WiringSystem.sourcePhase)[i]? = some (WiringSystem.sourcePhase g) := by
    rw [List.getElem?_map, hg]; rfl
  obtain ⟨g2, hg2, ht2, hp2, ho2, hi1, hi2⟩ := propagate_get ws.wires _ hr1 i _ hg1
  rw [outAt_sourcePhase_eq] at hi1 hi2
  rw [UpdateSignals_gates, List.getElem?_map, hg2]
  simp only [Option.map_some', Option.some.injEq]
  obtain ⟨t2, p2, a2, b2, o2⟩ := g2
  obtain ⟨t, p, a, b, o⟩ := g
  simp only at ht2 hp2 ho2 hi1 hi2
  by_cases hin : t = .INPUT
  · subst hin
    simp only [WiringSystem.sourcePhase, Gate.GetType, Gate.ComputeOutput, if_true] at ht2 hp2 ho2 hi1 hi2
    subst ht2 hp2 ho2 hi1 hi2
    simp [WiringSystem.downstreamPhase, Gate.GetType, stepGate]
  · simp only [WiringSystem.sourcePhase, Gate.GetType, hin, if_false] at ht2 hp2 ho2 hi1 hi2
    subst ht2 hp2 ho2 hi1 hi2
    simp only [WiringSystem.downstreamPhase, Gate.GetType, ne_eq, hin, not_false_eq_true, if_true,
      stepGate, if_false, ComputeOutput_eq]

theorem UpdateSignals_wires (ws : WiringSystem) (gates : List Gate) :
    (ws.UpdateSignals gates).1.wires =
      (WiringSystem.propagate (gates.map WiringSystem.sourcePhase) ws.wires).2.map
        (WiringSystem.finalPass (ws.UpdateSignals gates).2) := rfl

theorem finalPass_state (gates : List Gate) (w : Wire)
    (hr : indexInRange w.fromGateIndex gates = true ∧ indexInRange w.toGateIndex gates = true) :
    (WiringSystem.finalPass gates w).state = outAt gates w.fromGateIndex := by
  have hf2 := (indexInRange_iff _ _).1 hr.1
  have ht2 := (indexInRange_iff _ _).1 hr.2
  unfold WiringSystem.finalPass outAt
  simp only [hr.1, hr.2, Bool.and_self, if_true, List.getElem?_eq_getElem hf2.2,
    List.getElem?_eq_getElem ht2.2]
  rw [CalculateLRoute_eq]

theorem UpdateSignals_wire (ws : WiringSystem) (gates : List Gate)
    (hr : WiresInRange ws.wires gates) (j : Nat) (w : Wire) (hw : ws.wires[j]? = some w) :
    ∃ w2, (ws.UpdateSignals gates).1.wires[j]? = some w2 ∧ w2.endpoints = w.endpoints ∧
      w2.state = outAt (ws.UpdateSignals gates).2 w.fromGateIndex := by
  have hep := congrArg (fun l => l[j]?)
    (propagate_endpoints ws.wires (gates.map WiringSystem.sourcePhase))
  simp only [List.getElem?_map, hw, Option.map_some'] at hep
  cases hp : (WiringSystem.propagate (gates.map WiringSystem.sourcePhase) ws.wires).2[j]? with
  | none => rw [hp] at hep; cases hep
  | some wp =>
    rw [hp] at hep
    simp only [Option.map_some', Option.some.injEq] at hep
    have hfrom : wp.fromGateIndex = w.fromGateIndex := congrArg (fun e => e.1) hep
    have hto : wp.toGateIndex = w.toGateIndex := congrArg (fun e => e.2.1) hep
    have hwr := hr w (List.getElem?_mem hw)
    have hlen := UpdateSignals_length ws gates
    have hr2 : indexInRange wp.fromGateIndex (ws.UpdateSignals gates).2 = true ∧
        indexInRange wp.toGateIndex (ws.UpdateSignals gates).2 = true := by
      rw [hfrom, hto, indexInRange_of_length_eq hlen, indexInRange_of_length_eq hlen]
      exact hwr
    refine ⟨WiringSystem.finalPass (ws.UpdateSignals gates).2 wp, ?_, ?_, ?_⟩
    · rw [UpdateSignals_wires, List.getElem?_map, hp]; rfl
    · rw [finalPass_endpoints, hep]
    · rw [finalPass_state _ _ hr2, hfrom]

/-! ### The cached state of a wire -/

theorem FanInUnique_eq (wires : List Wire) (hu : FanInUnique wires) (a b : Wire)
    (ha : a ∈ wires) (hb : b ∈ wires) (hto : a.toGateIndex = b.toGateIndex)
    (hslot : a.toInputIndex = b.toInputIndex) : a = b := by
  unfold FanInUnique at hu
  rw [List.pairwise_iff_getElem] at hu
  obtain ⟨i, hi, rfl⟩ := List.getElem_of_mem ha
  obtain ⟨j, hj, rfl⟩ := List.getElem_of_mem hb
  rcases Nat.lt_trichotomy i j with h | h | h
  · exact absurd ⟨hto, hslot⟩ (hu i j hi hj h)
  · subst h; rfl
  · exact absurd ⟨hto.symm, hslot.symm⟩ (hu j i hj hi h)

theorem lastWireInto_of_unique (wires : List Wire) (hu : FanInUnique wires) (w : Wire)
    (hw : w ∈ wires) : lastWireInto wires w.toGateIndex w.toInputIndex = some w := by
  unfold lastWireInto
  have hmem : w ∈ wires.filter (targets w.toGateIndex w.toInputIndex) := by
    rw [List.mem_filter]
    exact ⟨hw, by simp [targets]⟩
  cases hl : (wires.filter (targets w.toGateIndex w.toInputIndex)).getLast? with
  | none =>
    rw [List.getLast?_eq_none_iff] at hl
    rw [hl] at hmem
    cases hmem
  | some w0 =>
    have h0 := List.mem_of_getLast?_eq_some hl
    rw [List.mem_filter] at h0
    obtain ⟨h0mem, h0t⟩ := h0
    simp only [targets, Bool.and_eq_true, beq_iff_eq] at h0t
    rw [FanInUnique_eq wires hu w0 w h0mem hw h0t.1 h0t.2]

theorem slotOf_stepGate (gates : List Gate) (wires : List Wire) (hu : FanInUnique wires)
    (w : Wire) (hw : w ∈ wires) (hs : w.toInputIndex = 0 ∨ w.toInputIndex = 1)
    (hto : 0 ≤ w.toGateIndex) (dst : Gate) :
    slotOf (stepGate gates wires w.toGateIndex.toNat dst) w.toInputIndex =
      signalAt gates w.fromGateIndex := by
  have hlast := lastWireInto_of_unique wires hu w hw
  have hcast : ((w.toGateIndex.toNat : Nat) : Int) = w.toGateIndex := Int.toNat_of_nonneg hto
  have hval : ∀ init : Bool,
      slotAfter (w.toGateIndex.toNat : Nat) w.toInputIndex (signalAt gates) wires init =
        signalAt gates w.fromGateIndex := by
    intro init
    rw [slotAfter_eq, hcast, hlast]
  unfold slotOf stepGate
  rcases hs with h0 | h1
  · rw [h0] at hval ⊢
    by_cases hin : dst.type = .INPUT
    · simp only [hin, if_true]; exact hval _
    · simp only [hin, if_true, if_false]; exact hval _
  · rw [h1] at hval ⊢
    by_cases hin : dst.type = .INPUT
    · simp only [hin, if_true, one_ne_zero, if_false]; exact hval _
    · simp only [hin, one_ne_zero, if_false]; exact hval _

/-- C13 (as stated, refuted): in the store `inverterGates` one step leaves the wire's
cached state true while slot 0 of its destination holds false, the value propagation
read before the NOT gate recomputed its output. -/
theorem wire_state_not_slot :
    WiresInRange inverterSystem.wires inverterGates ∧ FanInUnique inverterSystem.wires ∧
    ((inverterSystem.UpdateSignals inverterGates).1.wires[0]?).map Wire.state = some true ∧
    ((inverterSystem.UpdateSignals inverterGates).2[1]?).map (fun g => slotOf g 0) =
      some false := by
  refine ⟨?_, ?_, by decide!, by decide!⟩
  · intro w hw
    simp only [inverterSystem, List.mem_singleton] at hw
    subst hw
    exact ⟨by decide, by decide⟩
  · unfold FanInUnique inverterSystem
    decide

/-- C13 (amended): after one step on an in-range, fan-in-unique wire store, a wire with
slot 0 or 1 has as cached state its source gate's output at the end of the step (the
final pass overwrites what propagation cached), and its destination slot holds the
value propagation read from the source; the two agree whenever the source is an
Input-kind gate or the step left the source's output unchanged. -/
theorem wire_state_after_step (ws : WiringSystem) (gates : List Gate)
    (hrange : WiresInRange ws.wires gates) (hunique : FanInUnique ws.wires)
    (j : Nat) (w : Wire) (hw : ws.wires[j]? = some w)
    (hslot : w.toInputIndex = 0 ∨ w.toInputIndex = 1) :
    ∃ w2 src src2 dst2,
      (ws.UpdateSignals gates).1.wires[j]? = some w2 ∧
      gates[w.fromGateIndex.toNat]? = some src ∧
      (ws.UpdateSignals gates).2[w.fromGateIndex.toNat]? = some src2 ∧
      (ws.UpdateSignals gates).2[w.toGateIndex.toNat]? = some dst2 ∧
      w2.state = src2.output ∧
      slotOf dst2 w.toInputIndex = outputAtPropagation src ∧
      ((src.type = .INPUT ∨ src2.output = src.output) →
        w2.state = slotOf dst2 w.toInputIndex) := by
  have hmem := List.getElem?_mem hw
  have hwr := hrange w hmem
  have hf2 := (indexInRange_iff _ _).1 hwr.1
  have ht2 := (indexInRange_iff _ _).1 hwr.2
  have hsrc : gates[w.fromGateIndex.toNat]? = some gates[w.fromGateIndex.toNat] :=
    List.getElem?_eq_getElem hf2.2
  have hdst : gates[w.toGateIndex.toNat]? = some gates[w.toGateIndex.toNat] :=
    List.getElem?_eq_getElem ht2.2
  obtain ⟨w2, hw2, -, hstate⟩ := UpdateSignals_wire ws gates hrange j w hw
  have hsrc2 := UpdateSignals_gate ws gates hrange _ _ hsrc
  have hdst2 := UpdateSignals_gate ws gates hrange _ _ hdst
  have hst : w2.state = (stepGate gates ws.wires w.fromGateIndex.toNat
      gates[w.fromGateIndex.toNat]).output := by
    rw [hstate]
    unfold outAt
    rw [hsrc2]
  have hsl : slotOf (stepGate gates ws.wires w.toGateIndex.toNat gates[w.toGateIndex.toNat])
      w.toInputIndex = outputAtPropagation gates[w.fromGateIndex.toNat] := by
    rw [slotOf_stepGate gates ws.wires hunique w hmem hslot ht2.1]
    unfold signalAt
    rw [hsrc]
  refine ⟨w2, _, _, _, hw2, hsrc, hsrc2, hdst2, hst, hsl, ?_⟩
  intro h
  rw [hst, hsl]
  unfold outputAtPropagation
  by_cases hin : gates[w.fromGateIndex.toNat].type = .INPUT
  · simp [hin, stepGate]
  · rcases h with h | h
    · exact absurd h hin
    · rw [if_neg hin]; exact h

theorem wire_state_after_step_witness :
    ∃ w2 src src2 dst2,
      (sampleSystem.UpdateSignals sampleGates).1.wires[1]? = some w2 ∧
      sampleGates[(1 : Int).toNat]? = some src ∧
      (sampleSystem.UpdateSignals sampleGates).2[(1 : Int).toNat]? = some src2 ∧
      (sampleSystem.UpdateSignals sampleGates).2[(2 : Int).toNat]? = some dst2 ∧
      w2.state = src2.output ∧
      slotOf dst2 1 = outputAtPropagation src ∧
      ((src.type = .INPUT ∨ src2.output = src.output) → w2.state = slotOf dst2 1) :=
  wire_state_after_step sampleSystem sampleGates sampleSystem_inRange sampleSystem_fanIn 1
    ⟨1, 2, 1, false, [⟨368, 220⟩, ⟨430, 220⟩, ⟨430, 183⟩, ⟨492, 183⟩]⟩ (by decide!)
    (Or.inr rfl)

/-! ### Wires out of range -/

theorem propagateWire_out_of_range (gates : List Gate) (w : Wire)
    (h : wireInRange gates w = false) : WiringSystem.propagateWire gates w = (gates, w) := by
  unfold wireInRange at h
  unfold WiringSystem.propagateWire
  rw [h]
  rfl

theorem wireInRange_of_length_eq {gates gates2 : List Gate} (h : gates2.length = gates.length)
    (w : Wire) : wireInRange gates2 w = wireInRange gates w := by
  unfold wireInRange
  rw [indexInRange_of_length_eq h, indexInRange_of_length_eq h]

theorem propagate_filter (gates0 : List Gate) (wires : List Wire) (gates : List Gate)
    (hlen : gates.length = gates0.length) :
    (WiringSystem.propagate gates wires).1 =
      (WiringSystem.propagate gates (wires.filter (wireInRange gates0))).1 := by
  induction wires generalizing gates with
  | nil => rfl
  | cons w rest ih =>
    by_cases hw : wireInRange gates0 w = true
    · rw [List.filter_cons_of_pos hw]
      simp only [WiringSystem.propagate]
      exact ih _ ((propagateWire_length gates w).trans hlen)
    · rw [List.filter_cons_of_neg hw]
      simp only [WiringSystem.propagate]
      have hw2 : wireInRange gates w = false := by
        rw [wireInRange_of_length_eq hlen]
        simpa using hw
      rw [propagateWire_out_of_range gates w hw2]
      exact ih gates hlen

theorem propagate_out_of_range (gates0 : List Gate) (wires : List Wire) (gates : List Gate)
    (hlen : gates.length = gates0.length) (j : Nat) (w : Wire) (hw : wires[j]? = some w)
    (hout : wireInRange gates0 w = false) :
    (WiringSystem.propagate gates wires).2[j]? = some w := by
  induction wires generalizing gates j with
  | nil => simp at hw
  | cons x rest ih =>
    simp only [WiringSystem.propagate]
    cases j with
    | zero =>
      simp only [List.getElem?_cons_zero, Option.some.injEq] at hw ⊢
      subst hw
      have hw2 : wireInRange gates x = false := by
        rw [wireInRange_of_length_eq hlen]; exact hout
      rw [propagateWire_out_of_range gates x hw2]
    | succ k =>
      simp only [List.getElem?_cons_succ] at hw ⊢
      exact ih _ ((propagateWire_length gates x).trans hlen) k hw

theorem finalPass_out_of_range (gates : List Gate) (w : Wire)
    (h : wireInRange gates w = false) : WiringSystem.finalPass gates w = w := by
  unfold wireInRange at h
  unfold WiringSystem.finalPass
  rw [h]
  rfl

/-- C20 (as stated, refuted): a step over the sample store with a wire whose source
index is 5 completes and returns stores: the stray wire is still first in the wire
store, with the state and waypoints it had, and the gates are what the step makes of
them without that wire. -/
theorem UpdateSignals_completes_with_stray_wire :
    wireInRange sampleGates strayWire = false ∧
    (straySystem.UpdateSignals sampleGates).1.wires[0]? = some strayWire ∧
    (straySystem.UpdateSignals sampleGates).1.wires.length = 3 ∧
    (straySystem.UpdateSignals sampleGates).2 = (sampleSystem.UpdateSignals sampleGates).2 := by
  refine ⟨by decide, by decide!, by decide!, by decide!⟩

/-- C20 (amended): a wire whose source or destination index is out of range is skipped
by the step, which completes all the same: the gate store it returns is the one it
returns for the wire store without the out-of-range wires, no wire is added or removed,
and each out-of-range wire keeps its place, cached state and waypoints. -/
theorem UpdateSignals_skips_out_of_range (ws : WiringSystem) (gates : List Gate) :
    (ws.UpdateSignals gates).2 =
      (WiringSystem.UpdateSignals { ws with wires := ws.wires.filter (wireInRange gates) }
        gates).2 ∧
    (ws.UpdateSignals gates).1.wires.length = ws.wires.length ∧
    ∀ (j : Nat) (w : Wire), ws.wires[j]? = some w → wireInRange gates w = false →
      (ws.UpdateSignals gates).1.wires[j]? = some w := by
  refine ⟨?_, ?_, ?_⟩
  · rw [UpdateSignals_gates, UpdateSignals_gates]
    simp only
    rw [propagate_filter gates ws.wires _ (List.length_map _ _)]
  · rw [UpdateSignals_wires, List.length_map, propagate_wires_length]
  · intro j w hw hout
    rw [UpdateSignals_wires, List.getElem?_map,
      propagate_out_of_range gates ws.wires _ (List.length_map _ _) j w hw hout]
    simp only [Option.map_some', Option.some.injEq]
    apply finalPass_out_of_range
    rw [wireInRange_of_length_eq (UpdateSignals_length ws gates)]
    exact hout

/-! ### Consecutive steps -/

theorem targets_endpoints (g s : Int) (w : Wire) :
    targets g s w = (w.endpoints.2.1 == g && w.endpoints.2.2 == s) := rfl

theorem slotAfter_congr (g s : Int) (sig : Int → Bool) (wa wb : List Wire) (init : Bool)
    (h : wa.map Wire.endpoints = wb.map Wire.endpoints) :
    slotAfter g s sig wa init = slotAfter g s sig wb init := by
  induction wa generalizing wb init with
  | nil =>
    cases wb with
    | nil => rfl
    | cons _ _ => simp at h
  | cons a ra ih =>
    cases wb with
    | nil => simp at h
    | cons b rb =>
      simp only [List.map_cons, List.cons.injEq] at h
      obtain ⟨hab, hrest⟩ := h
      have hfrom : a.fromGateIndex = b.fromGateIndex := congrArg (fun e => e.1) hab
      simp only [slotAfter, targets_endpoints, hab, hfrom]
      exact ih rb _ hrest

theorem slotAfter_congr_sig (g s : Int) (sig sig2 : Int → Bool) (wires : List Wire) (init : Bool)
    (h : ∀ w ∈ wires, targets g s w = true → sig w.fromGateIndex = sig2 w.fromGateIndex) :
    slotAfter g s sig wires init = slotAfter g s sig2 wires init := by
  induction wires generalizing init with
  | nil => rfl
  | cons a rest ih =>
    simp only [slotAfter]
    have hrest : ∀ init2 : Bool, slotAfter g s sig rest init2 = slotAfter g s sig2 rest init2 :=
      fun init2 => ih init2 (fun w hw => h w (List.mem_cons_of_mem _ hw))
    by_cases ht : targets g s a = true
    · rw [if_pos ht, if_pos ht, h a (List.mem_cons_self _ _) ht]
      exact hrest _
    · rw [if_neg ht, if_neg ht]
      exact hrest _

theorem slotAfter_no_target (g s : Int) (sig : Int → Bool) (wires : List Wire) (init : Bool)
    (h : ∀ w ∈ wires, targets g s w = false) : slotAfter g s sig wires init = init := by
  induction wires generalizing init with
  | nil => rfl
  | cons a rest ih =>
    simp only [slotAfter, h a (List.mem_cons_self _ _), Bool.false_eq_true, if_false]
    exact ih _ (fun w hw => h w (List.mem_cons_of_mem _ hw))

theorem mem_of_endpoints_eq (wa wb : List Wire)
    (h : wa.map Wire.endpoints = wb.map Wire.endpoints) (w : Wire) (hw : w ∈ wa) :
    ∃ w0 ∈ wb, w0.endpoints = w.endpoints := by
  have hm : w.endpoints ∈ wb.map Wire.endpoints := by
    rw [← h]; exact List.mem_map_of_mem _ hw
  rw [List.mem_map] at hm
  exact hm

theorem WiresInRange_of_SameCircuit (s0 s : WiringSystem × List Gate) (hs : SameCircuit s0 s)
    (hr : WiresInRange s0.1.wires s0.2) : WiresInRange s.1.wires s.2 := by
  intro w hw
  obtain ⟨w0, hw0, he⟩ := mem_of_endpoints_eq _ _ hs.2.1 w hw
  have hfrom : w0.fromGateIndex = w.fromGateIndex := congrArg (fun e => e.1) he
  have hto : w0.toGateIndex = w.toGateIndex := congrArg (fun e => e.2.1) he
  rw [indexInRange_of_length_eq hs.1, indexInRange_of_length_eq hs.1, ← hfrom, ← hto]
  exact hr w0 hw0

theorem SameCircuit_refl (s0 : WiringSystem × List Gate) : SameCircuit s0 s0 :=
  ⟨rfl, rfl, fun _ g0 h => ⟨g0, h, rfl, fun _ => rfl⟩⟩

theorem stepGate_type (gates : List Gate) (wires : List Wire) (i : Nat) (g : Gate) :
    (stepGate gates wires i g).type = g.type := by
  unfold stepGate
  split <;> rfl

theorem SameCircuit_step (s0 s : WiringSystem × List Gate) (hr : WiresInRange s0.1.wires s0.2)
    (hni : NoWireIntoInput s0.1.wires s0.2) (hs : SameCircuit s0 s) :
    SameCircuit s0 (s.1.UpdateSignals s.2) := by
  have hrs := WiresInRange_of_SameCircuit s0 s hs hr
  refine ⟨(UpdateSignals_length s.1 s.2).trans hs.1,
    (UpdateSignals_endpoints s.1 s.2).trans hs.2.1, ?_⟩
  intro i g0 hg0
  obtain ⟨g, hg, ht, htog⟩ := hs.2.2 i g0 hg0
  refine ⟨_, UpdateSignals_gate s.1 s.2 hrs i g hg, (stepGate_type _ _ _ _).trans ht, ?_⟩
  intro hin
  have hgin : g.type = .INPUT := ht.trans hin
  have hnt : ∀ w ∈ s.1.wires, targets (i : Int) 0 w = false := by
    intro w hw
    obtain ⟨w0, hw0, he⟩ := mem_of_endpoints_eq _ _ hs.2.1 w hw
    have hto : w0.toGateIndex = w.toGateIndex := congrArg (fun e => e.2.1) he
    by_contra hc
    simp only [targets, Bool.and_eq_true, beq_iff_eq, Bool.not_eq_false] at hc
    have h0 : w0.toGateIndex.toNat = i := by rw [hto, hc.1]; simp
    exact hni w0 hw0 g0 (by rw [h0]; exact hg0) hin
  unfold stepGate
  rw [if_pos hgin]
  simp only
  rw [slotAfter_no_target _ _ _ _ _ hnt]
  exact htog hin

theorem SameCircuit_runSteps (s0 : WiringSystem × List Gate) (hr : WiresInRange s0.1.wires s0.2)
    (hni : NoWireIntoInput s0.1.wires s0.2) (n : Nat) : SameCircuit s0 (runSteps n s0) := by
  induction n with
  | zero => exact SameCircuit_refl s0
  | succ n ih => exact SameCircuit_step s0 _ hr hni ih

theorem signalAt_eq_sigOf (s0 s : WiringSystem × List Gate) (hs : SameCircuit s0 s) :
    signalAt s.2 = sigOf s0.2 (outAt s.2) := by
  funext idx
  unfold signalAt sigOf
  cases hg0 : s0.2[idx.toNat]? with
  | none =>
    have hlen : s0.2.length ≤ idx.toNat := by
      by_contra hc
      rw [List.getElem?_eq_getElem (by omega)] at hg0
      cases hg0
    rw [List.getElem?_eq_none (by rw [hs.1]; exact hlen)]
  | some g0 =>
    obtain ⟨g, hg, ht, htog⟩ := hs.2.2 _ g0 hg0
    rw [hg]
    simp only [outputAtPropagation, outAt, hg, ht]
    by_cases hin : g0.type = .INPUT
    · rw [if_pos hin, if_pos hin]; exact htog hin
    · rw [if_neg hin, if_neg hin]

theorem outAt_step (s0 s : WiringSystem × List Gate) (hr : WiresInRange s0.1.wires s0.2)
    (hs : SameCircuit s0 s) (i : Nat) (hi : i < s0.2.length) :
    outAt (s.1.UpdateSignals s.2).2 (i : Int) = nextOut s0 (outAt s.2) i := by
  have hrs := WiresInRange_of_SameCircuit s0 s hs hr
  have hg0 : s0.2[i]? = some s0.2[i] := List.getElem?_eq_getElem hi
  obtain ⟨g, hg, ht, htog⟩ := hs.2.2 i _ hg0
  have h1 : outAt (s.1.UpdateSignals s.2).2 (i : Int) = (stepGate s.2 s.1.wires i g).output := by
    unfold outAt
    simp only [Int.toNat_ofNat, UpdateSignals_gate s.1 s.2 hrs i g hg]
  rw [h1]
  unfold nextOut
  simp only [hg0]
  unfold stepGate
  rw [signalAt_eq_sigOf s0 s hs, ← ht,
    slotAfter_congr _ _ _ _ _ false hs.2.1, slotAfter_congr _ _ _ _ _ false hs.2.1]
  by_cases hin : g.type = .INPUT
  · rw [if_pos hin, if_pos hin]; exact htog (ht ▸ hin)
  · rw [if_neg hin, if_neg hin]

theorem outAt_of_getElem (gates : List Gate) (k : Nat) (g : Gate) (hg : gates[k]? = some g) :
    outAt gates (k : Int) = g.output := by
  unfold outAt
  simp only [Int.toNat_ofNat, hg]

theorem nextOut_congr (s0 : WiringSystem × List Gate) (hr : WiresInRange s0.1.wires s0.2)
    (rank : Int → Nat)
    (hrank : ∀ w ∈ s0.1.wires, rank w.fromGateIndex < rank w.toGateIndex)
    (o o2 : Int → Bool) (i : Nat)
    (h : ∀ k : Nat, k < s0.2.length → rank (k : Int) < rank (i : Int) →
      o (k : Int) = o2 (k : Int)) :
    nextOut s0 o i = nextOut s0 o2 i := by
  have hsig : ∀ s : Int, ∀ w ∈ s0.1.wires, targets (i : Int) s w = true →
      sigOf s0.2 o w.fromGateIndex = sigOf s0.2 o2 w.fromGateIndex := by
    intro s w hw ht
    simp only [targets, Bool.and_eq_true, beq_iff_eq] at ht
    have hf := (indexInRange_iff _ _).1 (hr w hw).1
    have hlt := hrank w hw
    rw [ht.1] at hlt
    have hcast : ((w.fromGateIndex.toNat : Nat) : Int) = w.fromGateIndex :=
      Int.toNat_of_nonneg hf.1
    have hk := h w.fromGateIndex.toNat hf.2 (by rw [hcast]; exact hlt)
    rw [hcast] at hk
    unfold sigOf
    cases s0.2[w.fromGateIndex.toNat]? with
    | none => rfl
    | some g0 =>
      simp only
      by_cases hin : g0.type = .INPUT
      · rw [if_pos hin, if_pos hin]
      · rw [if_neg hin, if_neg hin]; exact hk
  unfold nextOut
  cases s0.2[i]? with
  | none => rfl
  | some g0 =>
    simp only
    rw [slotAfter_congr_sig _ _ _ _ _ _ (hsig 0), slotAfter_congr_sig _ _ _ _ _ _ (hsig 1)]

theorem runSteps_stable (s0 : WiringSystem × List Gate) (hr : WiresInRange s0.1.wires s0.2)
    (hni : NoWireIntoInput s0.1.wires s0.2) (rank : Int → Nat)
    (hrank : ∀ w ∈ s0.1.wires, rank w.fromGateIndex < rank w.toGateIndex) (r : Nat) :
    ∀ i : Nat, i < s0.2.length → rank (i : Int) = r → ∀ t : Nat, r + 1 ≤ t →
      outAt (runSteps (t + 1) s0).2 (i : Int) = outAt (runSteps t s0).2 (i : Int) := by
  induction r using Nat.strong_induction_on with
  | _ r ih =>
    intro i hi hri t ht
    obtain ⟨t2, rfl⟩ : ∃ t2, t = t2 + 1 := ⟨t - 1, by omega⟩
    have e1 : outAt (runSteps (t2 + 1 + 1) s0).2 (i : Int) =
        nextOut s0 (outAt (runSteps (t2 + 1) s0).2) i :=
      outAt_step s0 (runSteps (t2 + 1) s0) hr (SameCircuit_runSteps s0 hr hni _) i hi
    have e2 : outAt (runSteps (t2 + 1) s0).2 (i : Int) =
        nextOut s0 (outAt (runSteps t2 s0).2) i :=
      outAt_step s0 (runSteps t2 s0) hr (SameCircuit_runSteps s0 hr hni _) i hi
    rw [e1, e2]
    apply nextOut_congr s0 hr rank hrank
    intro k hk hlt
    exact ih (rank (k : Int)) (by omega) k hk rfl t2 (by omega)

theorem exists_bound (f : Nat → Nat) (n : Nat) : ∃ R, ∀ i, i < n → f i ≤ R := by
  induction n with
  | zero => exact ⟨0, fun i hi => absurd hi (Nat.not_lt_zero i)⟩
  | succ n ih =>
    obtain ⟨R, hR⟩ := ih
    refine ⟨max R (f n), fun i hi => ?_⟩
    rcases Nat.lt_succ_iff_lt_or_eq.1 hi with h | h
    · exact le_trans (hR i h) (le_max_left _ _)
    · subst h; exact le_max_right _ _

/-- C12 (amended): a wire store that is in range, ends no wire at an Input gate and has
no feedback cycle settles: when nothing but steps touches the stores, there is a number
`n` such that after `n` or more consecutive steps a further step leaves every gate
output and every wire state unchanged.  Dependency chains against store order are
covered: they only raise `n`. -/
theorem acyclic_settles (ws : WiringSystem) (gates : List Gate)
    (hrange : WiresInRange ws.wires gates) (hni : NoWireIntoInput ws.wires gates)
    (hacyclic : Acyclic ws.wires) :
    ∃ n, ∀ m, n ≤ m → Settled (runSteps m (ws, gates)) := by
  obtain ⟨rank, hrank⟩ := hacyclic
  obtain ⟨R, hR⟩ := exists_bound (fun i => rank (i : Int)) gates.length
  have hstable : ∀ (i : Nat), i < gates.length → ∀ t, R + 1 ≤ t →
      outAt (runSteps (t + 1) (ws, gates)).2 (i : Int) =
        outAt (runSteps t (ws, gates)).2 (i : Int) := by
    intro i hi t ht
    exact runSteps_stable (ws, gates) hrange hni rank hrank _ i hi rfl t
      (le_trans (Nat.succ_le_succ (hR i hi)) ht)
  refine ⟨R + 1, fun m hm => ?_⟩
  have hsame := SameCircuit_runSteps (ws, gates) hrange hni
  have hinr := fun n => WiresInRange_of_SameCircuit (ws, gates) _ (hsame n) hrange
  have hlenm : ∀ n, (runSteps n (ws, gates)).2.length = gates.length := fun n => (hsame n).1
  constructor
  · apply List.ext_getElem?
    intro k
    rw [List.getElem?_map, List.getElem?_map]
    by_cases hk : k < gates.length
    · have hk1 : k < (runSteps m (ws, gates)).2.length := by rw [hlenm m]; exact hk
      have hk2 : k < (runSteps (m + 1) (ws, gates)).2.length := by
        rw [hlenm (m + 1)]; exact hk
      have h1 := List.getElem?_eq_getElem hk1
      have h2 : ((runSteps m (ws, gates)).1.UpdateSignals (runSteps m (ws, gates)).2).2[k]? =
          some (runSteps (m + 1) (ws, gates)).2[k] := List.getElem?_eq_getElem hk2
      have hst := hstable k hk m hm
      rw [outAt_of_getElem _ k _ h1] at hst
      have h2b : outAt (runSteps (m + 1) (ws, gates)).2 (k : Int) =
          (runSteps (m + 1) (ws, gates)).2[k].output := outAt_of_getElem _ k _ h2
      rw [h2b] at hst
      rw [h1, h2]
      simp only [Option.map_some', hst]
    · have hk1 : (runSteps m (ws, gates)).2.length ≤ k := by rw [hlenm m]; omega
      have hk2 : ((runSteps m (ws, gates)).1.UpdateSignals
          (runSteps m (ws, gates)).2).2.length ≤ k := by
        rw [UpdateSignals_length]; exact hk1
      rw [List.getElem?_eq_none hk1, List.getElem?_eq_none hk2]
  · obtain ⟨m2, rfl⟩ : ∃ m2, m = m2 + 1 := ⟨m - 1, by omega⟩
    apply List.ext_getElem?
    intro j
    rw [List.getElem?_map, List.getElem?_map]
    cases hj : (runSteps m2 (ws, gates)).1.wires[j]? with
    | none =>
      have hlen0 : (runSteps m2 (ws, gates)).1.wires.length ≤ j := by
        by_contra hc
        rw [List.getElem?_eq_getElem (by omega)] at hj
        cases hj
      have hl := fun n => congrArg List.length (hsame n).2.1
      simp only [List.length_map] at hl
      have hlen1 : (runSteps (m2 + 1) (ws, gates)).1.wires.length ≤ j := by
        rw [hl (m2 + 1), ← hl m2]; exact hlen0
      have hlen2 : ((runSteps (m2 + 1) (ws, gates)).1.UpdateSignals
          (runSteps (m2 + 1) (ws, gates)).2).1.wires.length ≤ j := by
        have := hl (m2 + 1 + 1)
        simp only [runSteps] at this hlen1 ⊢
        rw [this, ← hl m2]; exact hlen0
      rw [List.getElem?_eq_none hlen1, List.getElem?_eq_none hlen2]
    | some w =>
      obtain ⟨w2, hw2, he2, hs2⟩ := UpdateSignals_wire _ _ (hinr m2) j w hj
      have hw2b : (runSteps (m2 + 1) (ws, gates)).1.wires[j]? = some w2 := hw2
      obtain ⟨w3, hw3, -, hs3⟩ := UpdateSignals_wire _ _ (hinr (m2 + 1)) j w2 hw2b
      have hfrom : w2.fromGateIndex = w.fromGateIndex := congrArg (fun e => e.1) he2
      have hwr := (indexInRange_iff _ _).1 (hinr m2 w (List.getElem?_mem hj)).1
      have hcast : ((w.fromGateIndex.toNat : Nat) : Int) = w.fromGateIndex :=
        Int.toNat_of_nonneg hwr.1
      have hlt : w.fromGateIndex.toNat < gates.length := by
        have := hwr.2
        rw [hlenm m2] at this
        exact this
      have hst := hstable _ hlt (m2 + 1) hm
      rw [hcast] at hst
      rw [hw2b, hw3]
      simp only [Option.map_some', Option.some.injEq]
      rw [hs3, hfrom, hs2]
      exact hst

theorem outAt_eq_map (gates : List Gate) (idx : Int) :
    outAt gates idx = ((gates.map Gate.output)[idx.toNat]?).getD false := by
  unfold outAt
  rw [List.getElem?_map]
  cases gates[idx.toNat]? <;> rfl

theorem NoWireIntoInput_of_WellFormed (wires : List Wire) (gates : List Gate)
    (h : WellFormed wires gates) : NoWireIntoInput wires gates := by
  intro w hw g hg hin
  have hslot := (h.2.2 w hw).2.2 g hg
  have hcount : g.GetInputCount = 0 := by
    unfold Gate.GetInputCount
    rw [hin]
  rw [hcount] at hslot
  have h2 := hslot.2
  simp only [Nat.cast_zero] at h2
  omega

theorem ringSystem_inRange : WiresInRange ringSystem.wires ringGates := by
  intro w hw
  simp only [ringSystem, List.mem_cons, List.mem_singleton, List.not_mem_nil, or_false] at hw
  rcases hw with rfl | rfl | rfl <;> exact ⟨by decide, by decide⟩

theorem ringSystem_noInput : NoWireIntoInput ringSystem.wires ringGates := by
  intro w _ g hg
  have hmem := List.getElem?_mem hg
  simp only [ringGates, List.mem_cons, List.mem_singleton, List.not_mem_nil, or_false] at hmem
  rcases hmem with rfl | rfl | rfl <;> simp

theorem ring_nextOut (o : Int → Bool) :
    nextOut (ringSystem, ringGates) o 0 = !(o 2) ∧
    nextOut (ringSystem, ringGates) o 1 = !(o 0) ∧
    nextOut (ringSystem, ringGates) o 2 = !(o 1) := by
  simp [nextOut, ringSystem, ringGates, slotAfter, targets, sigOf, kindFunction]

/-- C12 (as stated, refuted): three NOT gates wired in a ring, a well-formed wire store
(each wire in range, from one gate's output to slot 0 of another gate, no two wires
into one slot), never settle: after any number of steps a further step changes a gate
output or a wire state. -/
theorem ring_never_settles :
    WellFormed ringSystem.wires ringGates ∧
    ¬ ∃ n, Settled (runSteps n (ringSystem, ringGates)) := by
  refine ⟨⟨ringSystem_inRange, by unfold FanInUnique ringSystem; decide, ?_⟩, ?_⟩
  · intro w hw
    simp only [ringSystem, List.mem_cons, List.mem_singleton, List.not_mem_nil, or_false] at hw
    rcases hw with rfl | rfl | rfl <;>
      · refine ⟨by decide, ?_, ?_⟩
        · intro src hsrc
          simp only [ringGates] at hsrc
          have h := Option.some.inj hsrc
          subst h
          rfl
        · intro dst hdst
          simp only [ringGates] at hdst
          have h := Option.some.inj hdst
          subst h
          exact ⟨by decide, by decide⟩
  rintro ⟨n, hout, -⟩
  have hsame := SameCircuit_runSteps (ringSystem, ringGates) ringSystem_inRange
    ringSystem_noInput n
  have hfix : outAt ((runSteps n (ringSystem, ringGates)).1.UpdateSignals
      (runSteps n (ringSystem, ringGates)).2).2 = outAt (runSteps n (ringSystem, ringGates)).2 := by
    funext idx
    rw [outAt_eq_map, outAt_eq_map, hout]
  have hstep := fun (i : Nat) (hi : i < 3) =>
    outAt_step (ringSystem, ringGates) _ ringSystem_inRange hsame i hi
  rw [hfix] at hstep
  obtain ⟨e0, e1, e2⟩ := ring_nextOut (outAt (runSteps n (ringSystem, ringGates)).2)
  have h0 := (hstep 0 (by norm_num)).trans e0
  have h1 := (hstep 1 (by norm_num)).trans e1
  have h2 := (hstep 2 (by norm_num)).trans e2
  simp only [Nat.cast_zero, Nat.cast_one, Nat.cast_ofNat] at h0 h1 h2
  generalize outAt (runSteps n (ringSystem, ringGates)).2 = o at h0 h1 h2
  cases ha : o 0 <;> cases hb : o 1 <;> cases hc : o 2 <;> simp [ha, hb, hc] at h0 h1 h2

theorem sampleSystem_noInput : NoWireIntoInput sampleSystem.wires sampleGates := by
  intro w hw g hg
  simp only [sampleSystem, List.mem_cons, List.mem_singleton, List.not_mem_nil, or_false] at hw
  rcases hw with rfl | rfl <;>
    · simp only [sampleGates] at hg
      have hg2 := Option.some.inj hg
      subst hg2
      simp

theorem sampleSystem_acyclic : Acyclic sampleSystem.wires := by
  refine ⟨fun i => i.toNat, ?_⟩
  intro w hw
  simp only [sampleSystem, List.mem_cons, List.mem_singleton, List.not_mem_nil, or_false] at hw
  rcases hw with rfl | rfl <;> decide

theorem acyclic_settles_witness :
    WiresInRange sampleSystem.wires sampleGates ∧
    NoWireIntoInput sampleSystem.wires sampleGates ∧ Acyclic sampleSystem.wires ∧
    ∃ n, ∀ m, n ≤ m → Settled (runSteps m (sampleSystem, sampleGates)) :=
  ⟨sampleSystem_inRange, sampleSystem_noInput, sampleSystem_acyclic,
    acyclic_settles sampleSystem sampleGates sampleSystem_inRange sampleSystem_noInput
      sampleSystem_acyclic⟩

theorem sampleGatesMoved_agree : AgreeOffWire (Wire.new 0 2 0) sampleGates sampleGatesMoved := by
  refine ⟨rfl, fun i h0 h2 => ?_⟩
  match i with
  | 0 => exact absurd rfl h0
  | 1 => rfl
  | 2 => exact absurd rfl h2
  | (n + 3) => rfl

theorem CalculateLRoute_depends_on_obstacles_witness :
    AgreeOffWire (Wire.new 0 2 0) sampleGates sampleGatesMoved ∧
    ((Wire.new 0 2 0).CalculateLRoute ⟨368, 120⟩ ⟨492, 333 / 2⟩ (some sampleGates)).waypoints =
      (Wire.CalculateLRoute ⟨0, 2, 1, true, [⟨9, 9⟩]⟩ ⟨368, 120⟩ ⟨492, 333 / 2⟩
        (some sampleGatesMoved)).waypoints :=
  ⟨sampleGatesMoved_agree,
    (CalculateLRoute_depends_on_obstacles (Wire.new 0 2 0) ⟨0, 2, 1, true, [⟨9, 9⟩]⟩
      ⟨368, 120⟩ ⟨492, 333 / 2⟩ sampleGates sampleGatesMoved rfl rfl sampleGatesMoved_agree).1⟩

/-! ### The connection points of one gate -/

theorem map_flatMap_cast {α : Type} (F : Int → α) (l : List Nat) :
    List.map F (l.flatMap fun a => [(a : Int)]) = List.map (fun k : Nat => F (Int.ofNat k)) l := by
  induction l with
  | nil => rfl
  | cons a rest ih => rw [List.flatMap_cons, List.map_append, ih]; rfl

/-- C22: `GetInputCount` is 0 exactly for the Input kind, 1 exactly for Not and Output,
2 exactly for And, Or, Nand and Nor; and `GetConnectionPoints(i)` is a list of exactly
`GetInputCount` input points, the one at position `k` being the input point of slot `k`
with slot index `k`, followed by exactly one output point (slot index 0) when the kind
is not Output and by nothing when it is; every point carries the gate index `i`. -/
theorem GetConnectionPoints_spec (g : Gate) (i : Int) :
    (g.GetInputCount = 0 ↔ g.type = .INPUT) ∧
    (g.GetInputCount = 1 ↔ g.type = .NOT ∨ g.type = .OUTPUT) ∧
    (g.GetInputCount = 2 ↔
      g.type = .AND ∨ g.type = .OR ∨ g.type = .NAND ∨ g.type = .NOR) ∧
    ∃ ins outs : List ConnectionPoint, g.GetConnectionPoints i = ins ++ outs ∧
      ins.length = g.GetInputCount ∧
      (∀ (k : Nat) (p : ConnectionPoint), ins[k]? = some p →
        p = ⟨g.GetInputPoint k, true, i, k⟩) ∧
      outs = (if g.type = .OUTPUT then [] else [⟨g.GetOutputPoint, false, i, 0⟩]) ∧
      ∀ p ∈ g.GetConnectionPoints i, p.gateIndex = i := by
  refine ⟨?_, ?_, ?_, ?_⟩
  · unfold Gate.GetInputCount; cases g.type <;> simp
  · unfold Gate.GetInputCount; cases g.type <;> simp
  · unfold Gate.GetInputCount; cases g.type <;> simp
  · refine ⟨(List.range g.GetInputCount).map
        (fun k : Nat => (⟨g.GetInputPoint k, true, i, k⟩ : ConnectionPoint)),
      if g.type = .OUTPUT then [] else [⟨g.GetOutputPoint, false, i, 0⟩], ?_, ?_, ?_, rfl, ?_⟩
    · have hgen : g.GetConnectionPoints i =
          (List.range g.GetInputCount).map
              (fun k : Nat => (⟨g.GetInputPoint k, true, i, k⟩ : ConnectionPoint)) ++
            (if g.HasOutput then [(⟨g.GetOutputPoint, false, i, 0⟩ : ConnectionPoint)] else []) := by
        unfold Gate.GetConnectionPoints
        cases g.HasOutput <;> simp [map_flatMap_cast]
      rw [hgen]
      unfold Gate.HasOutput
      by_cases h : g.type = .OUTPUT
      · simp [h]
      · simp [h]
    · simp
    · intro k p hp
      rw [List.getElem?_map] at hp
      cases hk : (List.range g.GetInputCount)[k]? with
      | none => rw [hk] at hp; simp at hp
      | some v =>
        rw [hk] at hp
        have hv : v = k := by
          have hlt : k < (List.range g.GetInputCount).length := by
            by_contra hcon
            rw [List.getElem?_eq_none (Nat.le_of_not_lt hcon)] at hk
            simp at hk
          rw [List.getElem?_eq_getElem hlt, List.getElem_range] at hk
          exact (Option.some.inj hk).symm
        subst hv
        simp only [Option.map_some', Option.some.injEq] at hp
        exact hp.symm
    · intro p hp
      unfold Gate.GetConnectionPoints at hp
      split at hp
      · rw [List.mem_append, List.mem_map, List.mem_singleton] at hp
        rcases hp with ⟨k, _, hk⟩ | hp
        · rw [← hk]
        · rw [hp]
      · rw [List.mem_map] at hp
        obtain ⟨k, _, hk⟩ := hp
        rw [← hk]

/-! ### The cached state of an in-range wire, in any wire store -/

theorem UpdateSignals_wire_inRange (ws : WiringSystem) (gates : List Gate) (j : Nat) (w : Wire)
    (hw : ws.wires[j]? = some w) (hr : wireInRange gates w = true) :
    ∃ w2, (ws.UpdateSignals gates).1.wires[j]? = some w2 ∧ w2.endpoints = w.endpoints ∧
      w2.state = outAt (ws.UpdateSignals gates).2 w.fromGateIndex := by
  have hep := congrArg (fun l => l[j]?)
    (propagate_endpoints ws.wires (gates.map WiringSystem.sourcePhase))
  simp only [List.getElem?_map, hw, Option.map_some'] at hep
  cases hp : (WiringSystem.propagate (gates.map WiringSystem.sourcePhase) ws.wires).2[j]? with
  | none => rw [hp] at hep; cases hep
  | some wp =>
    rw [hp] at hep
    simp only [Option.map_some', Option.some.injEq] at hep
    have hfrom : wp.fromGateIndex = w.fromGateIndex := congrArg (fun e => e.1) hep
    have hto : wp.toGateIndex = w.toGateIndex := congrArg (fun e => e.2.1) hep
    have hwr : indexInRange w.fromGateIndex gates = true ∧
        indexInRange w.toGateIndex gates = true := by
      unfold wireInRange at hr
      rw [Bool.and_eq_true] at hr
      exact hr
    have hlen := UpdateSignals_length ws gates
    have hr2 : indexInRange wp.fromGateIndex (ws.UpdateSignals gates).2 = true ∧
        indexInRange wp.toGateIndex (ws.UpdateSignals gates).2 = true := by
      rw [hfrom, hto, indexInRange_of_length_eq hlen, indexInRange_of_length_eq hlen]
      exact hwr
    refine ⟨WiringSystem.finalPass (ws.UpdateSignals gates).2 wp, ?_, ?_, ?_⟩
    · rw [UpdateSignals_wires, List.getElem?_map, hp]; rfl
    · rw [finalPass_endpoints, hep]
    · rw [finalPass_state _ _ hr2, hfrom]

/-- C28: after a step, in any gate store and any wire store, the wire at each
position `j` whose source and destination index lie in the gate store is still at
position `j` with the same endpoints, and its cached state equals the output its source
gate shows in the gate store the step returns. -/
theorem wire_state_is_source_output (ws : WiringSystem) (gates : List Gate) (j : Nat)
    (w : Wire) (hw : ws.wires[j]? = some w) (hr : wireInRange gates w = true) :
    ∃ w2 src2, (ws.UpdateSignals gates).1.wires[j]? = some w2 ∧
      w2.endpoints = w.endpoints ∧
      (ws.UpdateSignals gates).2[w.fromGateIndex.toNat]? = some src2 ∧
      w2.state = src2.output := by
  obtain ⟨w2, hw2, hep, hst⟩ := UpdateSignals_wire_inRange ws gates j w hw hr
  have hwr : indexInRange w.fromGateIndex gates = true := by
    unfold wireInRange at hr
    rw [Bool.and_eq_true] at hr
    exact hr.1
  have hlt : w.fromGateIndex.toNat < (ws.UpdateSignals gates).2.length := by
    rw [UpdateSignals_length]
    exact ((indexInRange_iff _ _).1 hwr).2
  refine ⟨w2, (ws.UpdateSignals gates).2[w.fromGateIndex.toNat], hw2, hep,
    List.getElem?_eq_getElem hlt, ?_⟩
  rw [hst]
  unfold outAt
  rw [List.getElem?_eq_getElem hlt]

theorem wire_state_is_source_output_witness :
    ∃ w2 src2, (straySystem.UpdateSignals sampleGates).1.wires[1]? = some w2 ∧
      w2.endpoints = (0, 2, 0) ∧
      (straySystem.UpdateSignals sampleGates).2[(0 : Int).toNat]? = some src2 ∧
      w2.state = src2.output :=
  wire_state_is_source_output straySystem sampleGates 1
    ⟨0, 2, 0, false, [⟨368, 120⟩, ⟨430, 120⟩, ⟨430, 333 / 2⟩, ⟨492, 333 / 2⟩]⟩ (by decide!)
    (by decide)

/-! ### What a step leaves unchanged -/

theorem WiresInRange_filter (wires : List Wire) (gates : List Gate) :
    WiresInRange (wires.filter (wireInRange gates)) gates := by
  intro w hw
  have h := (List.mem_filter.1 hw).2
  unfold wireInRange at h
  rw [Bool.and_eq_true] at h
  exact h

theorem UpdateSignals_gate_any (ws : WiringSystem) (gates : List Gate) (i : Nat) (g : Gate)
    (hg : gates[i]? = some g) :
    (ws.UpdateSignals gates).2[i]? =
      some (stepGate gates (ws.wires.filter (wireInRange gates)) i g) := by
  have h1 : (ws.UpdateSignals gates).2 =
      (({ ws with wires := ws.wires.filter (wireInRange gates) } : WiringSystem).UpdateSignals
        gates).2 := by
    rw [UpdateSignals_gates, UpdateSignals_gates,
      propagate_filter gates ws.wires (gates.map WiringSystem.sourcePhase) (List.length_map _ _)]
  rw [h1]
  exact UpdateSignals_gate _ gates (WiresInRange_filter ws.wires gates) i g hg

theorem stepGate_position (gates : List Gate) (wires : List Wire) (i : Nat) (g : Gate) :
    (stepGate gates wires i g).position = g.position := by
  unfold stepGate
  split <;> rfl

theorem targets_false_of_noInput (wires : List Wire) (gates : List Gate)
    (hni : NoWireIntoInput wires gates) (i : Nat) (g : Gate) (hg : gates[i]? = some g)
    (hin : g.type = .INPUT) (s : Int) :
    ∀ w ∈ wires.filter (wireInRange gates), targets i s w = false := by
  intro w hw
  have hmem := (List.mem_filter.1 hw).1
  cases ht : targets i s w with
  | false => rfl
  | true =>
    exfalso
    unfold targets at ht
    rw [Bool.and_eq_true, beq_iff_eq] at ht
    have h := hni w hmem g
    rw [ht.1, Int.toNat_ofNat] at h
    exact h hg hin

/-- C30: a step leaves unchanged the number and order of the gates and of the wires,
every gate's kind and position, and every wire's source index, destination index and
destination slot, whatever the stores are; and when no wire ends at an Input-kind gate,
it leaves both slots of every Input gate unchanged, the toggle bit `input1` among them;
the pending-wire members of the wiring system are left as they were. -/
theorem UpdateSignals_frame (ws : WiringSystem) (gates : List Gate) :
    (ws.UpdateSignals gates).2.length = gates.length ∧
    (∀ (i : Nat) (g : Gate), gates[i]? = some g →
      ∃ g2, (ws.UpdateSignals gates).2[i]? = some g2 ∧ g2.type = g.type ∧
        g2.position = g.position) ∧
    (ws.UpdateSignals gates).1.wires.length = ws.wires.length ∧
    (∀ (j : Nat) (w : Wire), ws.wires[j]? = some w →
      ∃ w2, (ws.UpdateSignals gates).1.wires[j]? = some w2 ∧
        w2.fromGateIndex = w.fromGateIndex ∧ w2.toGateIndex = w.toGateIndex ∧
        w2.toInputIndex = w.toInputIndex) ∧
    (ws.UpdateSignals gates).1.isCreatingWire = ws.isCreatingWire ∧
    (ws.UpdateSignals gates).1.wireSourceGate = ws.wireSourceGate ∧
    (NoWireIntoInput ws.wires gates →
      ∀ (i : Nat) (g : Gate), gates[i]? = some g → g.type = .INPUT →
        ∃ g2, (ws.UpdateSignals gates).2[i]? = some g2 ∧ g2.input1 = g.input1 ∧
          g2.input2 = g.input2) := by
  have hep := UpdateSignals_endpoints ws gates
  refine ⟨UpdateSignals_length ws gates, ?_, ?_, ?_, rfl, rfl, ?_⟩
  · intro i g hg
    exact ⟨_, UpdateSignals_gate_any ws gates i g hg, stepGate_type _ _ _ _,
      stepGate_position _ _ _ _⟩
  · have h := congrArg List.length hep
    rw [List.length_map, List.length_map] at h
    exact h
  · intro j w hw
    have h := congrArg (fun l => l[j]?) hep
    simp only [List.getElem?_map, hw, Option.map_some'] at h
    cases hw2 : (ws.UpdateSignals gates).1.wires[j]? with
    | none => rw [hw2] at h; cases h
    | some w2 =>
      rw [hw2] at h
      simp only [Option.map_some', Option.some.injEq] at h
      exact ⟨w2, rfl, congrArg (fun e => e.1) h, congrArg (fun e => e.2.1) h,
        congrArg (fun e => e.2.2) h⟩
  · intro hni i g hg hin
    refine ⟨_, UpdateSignals_gate_any ws gates i g hg, ?_, ?_⟩
    · unfold stepGate
      rw [if_pos hin]
      exact slotAfter_no_target _ _ _ _ _ (targets_false_of_noInput _ _ hni i g hg hin 0)
    · unfold stepGate
      rw [if_pos hin]
      exact slotAfter_no_target _ _ _ _ _ (targets_false_of_noInput _ _ hni i g hg hin 1)

/-! ### Route synthesis: an obstacle over the start point -/

theorem candidatesInOrder_length (start endPt : Vector2) :
    (candidatesInOrder start endPt).length = 70 := rfl

theorem CalculateLRoute_of_find (w : Wire) (start endPt : Vector2) (gs : List Gate)
    (c : Candidate) (hne : gs ≠ [])
    (hfind : (candidatesInOrder start endPt).find? (clears w start endPt gs 5) = some c) :
    (c.bend.x ≠ -1 → (w.CalculateLRoute start endPt (some gs)).waypoints =
      [start, c.bend, ⟨c.bend.x, endPt.y⟩, endPt]) ∧
    (c.bend.x = -1 → (w.CalculateLRoute start endPt (some gs)).waypoints =
      Wire.CalculateSimpleLRoute [start] start endPt) := by
  have hb : w.CalculateAvoidanceRoute start endPt gs 5 = c.bend := by
    rw [CalculateAvoidanceRoute_eq_find, hfind]
  have hemp : gs.isEmpty = false := by
    cases gs with
    | nil => exact absurd rfl hne
    | cons a rest => rfl
  rw [CalculateLRoute_waypoints]
  simp only [hemp, Bool.false_eq_true, if_false, hb]
  exact ⟨fun h => by rw [if_pos h], fun h => by rw [if_neg (not_not.2 h)]⟩

/-- C23 (the code at the failing input): whenever the accepted candidate is a
horizontal-first one (and its bend is not taken for the sentinel) the stored route is
the tested path start, b, (b.x, end.y), end.  In the store `lowObstacleGates`, for the
wire from gate 0 to slot 0 of gate 1, the accepted candidate is the vertical-first one
at fraction 1/2 with bend b = (368, 873/4); the path tested for it is
start, b, (592, 873/4), end, but the stored route is start, b, (368, 633/2), end. -/
theorem CalculateLRoute_stores_untested_path :
    (∀ (w : Wire) (start endPt : Vector2) (gs : List Gate) (f : ℚ), gs ≠ [] →
      (candidatesInOrder start endPt).find? (clears w start endPt gs 5) =
        some (horizontalFirst start endPt f) →
      (horizontalFirst start endPt f).bend.x ≠ -1 →
      (w.CalculateLRoute start endPt (some gs)).waypoints =
        [start, (horizontalFirst start endPt f).bend,
          (horizontalFirst start endPt f).corner, endPt]) ∧
    (candidatesInOrder ⟨368, 120⟩ ⟨592, 633 / 2⟩).find?
        (clears (Wire.new 0 1 0) ⟨368, 120⟩ ⟨592, 633 / 2⟩ lowObstacleGates 5) =
      some (verticalFirst ⟨368, 120⟩ ⟨592, 633 / 2⟩ (1 / 2)) ∧
    verticalFirst ⟨368, 120⟩ ⟨592, 633 / 2⟩ (1 / 2) = ⟨⟨368, 873 / 4⟩, ⟨592, 873 / 4⟩⟩ ∧
    ((Wire.new 0 1 0).CalculateLRoute ⟨368, 120⟩ ⟨592, 633 / 2⟩
      (some lowObstacleGates)).waypoints =
      [⟨368, 120⟩, ⟨368, 873 / 4⟩, ⟨368, 633 / 2⟩, ⟨592, 633 / 2⟩] ∧
    ((Wire.new 0 1 0).CalculateLRoute ⟨368, 120⟩ ⟨592, 633 / 2⟩
      (some lowObstacleGates)).waypoints ≠
      [⟨368, 120⟩, ⟨368, 873 / 4⟩, ⟨592, 873 / 4⟩, ⟨592, 633 / 2⟩] := by
  refine ⟨?_, by decide!, by decide!, by decide!, by decide!⟩
  intro w start endPt gs f hne hfind hx
  exact (CalculateLRoute_of_find w start endPt gs _ hne hfind).1 hx

/-- C24 (the code at the failing input): when the first clearing candidate's bend has
an x other than −1 the stored route is the four waypoints start, bend, (bend.x, end.y),
end; when its x is −1 the fallback runs although a candidate clears.  In the store
`leftEdgeGates`, for the wire from gate 0 to gate 1, the first candidate (horizontal
first at fraction 1/2, bend (−1, 120)) clears, `CalculateAvoidanceRoute` returns it, and
`CalculateLRoute` stores the three-waypoint simple route (9, 120), (9, 190), (−11, 190);
a step over this store leaves the wire with that route. -/
theorem CalculateLRoute_falls_back_though_clear :
    (∀ (w : Wire) (start endPt : Vector2) (gs : List Gate) (c : Candidate), gs ≠ [] →
      (candidatesInOrder start endPt).find? (clears w start endPt gs 5) = some c →
      (c.bend.x ≠ -1 → (w.CalculateLRoute start endPt (some gs)).waypoints =
        [start, c.bend, ⟨c.bend.x, endPt.y⟩, endPt]) ∧
      (c.bend.x = -1 → (w.CalculateLRoute start endPt (some gs)).waypoints =
        Wire.CalculateSimpleLRoute [start] start endPt)) ∧
    leftEdgeGates[0]?.map Gate.GetOutputPoint = some ⟨9, 120⟩ ∧
    leftEdgeGates[1]?.map (fun g => g.GetInputPoint 0) = some ⟨-11, 220⟩ ∧
    clears (Wire.new 0 1 0) ⟨9, 120⟩ ⟨-11, 220⟩ leftEdgeGates 5
      (horizontalFirst ⟨9, 120⟩ ⟨-11, 220⟩ (1 / 2)) = true ∧
    (candidatesInOrder ⟨9, 120⟩ ⟨-11, 220⟩).find?
        (clears (Wire.new 0 1 0) ⟨9, 120⟩ ⟨-11, 220⟩ leftEdgeGates 5) =
      some (horizontalFirst ⟨9, 120⟩ ⟨-11, 220⟩ (1 / 2)) ∧
    (Wire.new 0 1 0).CalculateAvoidanceRoute ⟨9, 120⟩ ⟨-11, 220⟩ leftEdgeGates 5 = ⟨-1, 120⟩ ∧
    ((Wire.new 0 1 0).CalculateLRoute ⟨9, 120⟩ ⟨-11, 220⟩ (some leftEdgeGates)).waypoints =
      [⟨9, 120⟩, ⟨9, 190⟩, ⟨-11, 190⟩] ∧
    ((⟨[Wire.new 0 1 0], false, -1, ⟨0, 0⟩⟩ : WiringSystem).UpdateSignals
      leftEdgeGates).1.wires.map Wire.waypoints = [[⟨9, 120⟩, ⟨9, 190⟩, ⟨-11, 190⟩]] := by
  refine ⟨?_, by decide!, by decide!, by decide!, by decide!, by decide!, by decide!,
    by decide!⟩
  intro w start endPt gs c hne hfind
  exact CalculateLRoute_of_find w start endPt gs c hne hfind

/-! ### Settling in depth-many steps -/

theorem lastWireInto_mem (wires : List Wire) (g s : Int) (w : Wire)
    (h : lastWireInto wires g s = some w) : w ∈ wires ∧ targets g s w = true := by
  unfold lastWireInto at h
  have hm := List.mem_of_getLast?_eq_some h
  exact ⟨(List.mem_filter.1 hm).1, (List.mem_filter.1 hm).2⟩

theorem NoWireIntoInput_of_SlotsBelowCount (wires : List Wire) (gates : List Gate)
    (h : SlotsBelowCount wires gates) : NoWireIntoInput wires gates := by
  intro w hw g hg hin
  have hs := h w hw g hg
  have hcount : g.GetInputCount = 0 := by
    unfold Gate.GetInputCount
    rw [hin]
  rw [hcount] at hs
  omega

theorem HasVal_input_eq (gates : List Gate) (wires : List Wire) (i : Nat) (v : Bool) (g : Gate)
    (h : HasVal gates wires i v) (hg : gates[i]? = some g) (hin : g.type = .INPUT) :
    v = g.input1 := by
  cases h with
  | input _ g2 hg2 _ =>
    rw [hg] at hg2
    rw [Option.some.inj hg2]
  | gate _ g2 a b hg2 hnin _ _ _ _ =>
    rw [hg] at hg2
    rw [← Option.some.inj hg2] at hnin
    exact absurd hin hnin

theorem HasDepth_pos (gates : List Gate) (wires : List Wire) (i d : Nat) (g : Gate)
    (h : HasDepth gates wires i d) (hg : gates[i]? = some g) (hnin : g.type ≠ .INPUT) :
    1 ≤ d := by
  cases h with
  | input _ g2 hg2 hin =>
    rw [hg] at hg2
    rw [← Option.some.inj hg2] at hin
    exact absurd hin hnin
  | gate _ g2 da db _ _ _ _ _ _ => omega

theorem HasVal_unique (gates : List Gate) (wires : List Wire) (i : Nat) (v v2 : Bool)
    (h : HasVal gates wires i v) (h2 : HasVal gates wires i v2) : v = v2 := by
  induction h generalizing v2 with
  | input i g hg hin => exact (HasVal_input_eq gates wires i v2 g h2 hg hin).symm
  | gate i g a b hg hnin ha hna hb hnb iha ihb =>
    cases h2 with
    | input _ g2 hg2 hin2 =>
      rw [hg] at hg2
      rw [← Option.some.inj hg2] at hin2
      exact absurd hin2 hnin
    | gate _ g2 a2 b2 hg2 _ ha2 hna2 hb2 hnb2 =>
      rw [hg] at hg2
      rw [← Option.some.inj hg2]
      have ea : a = a2 := by
        cases hl : lastWireInto wires i 0 with
        | none => rw [hna hl, hna2 hl]
        | some w => exact iha w hl a2 (ha2 w hl)
      have eb : b = b2 := by
        cases hl : lastWireInto wires i 1 with
        | none => rw [hnb hl, hnb2 hl]
        | some w => exact ihb w hl b2 (hb2 w hl)
      rw [ea, eb]

theorem HasDepth_unique (gates : List Gate) (wires : List Wire) (i : Nat) (d d2 : Nat)
    (h : HasDepth gates wires i d) (h2 : HasDepth gates wires i d2) : d = d2 := by
  induction h generalizing d2 with
  | input i g hg hin =>
    cases h2 with
    | input _ _ _ _ => rfl
    | gate _ g2 da db hg2 hnin2 _ _ _ _ =>
      rw [hg] at hg2
      rw [← Option.some.inj hg2] at hnin2
      exact absurd hin hnin2
  | gate i g da db hg hnin ha hna hb hnb iha ihb =>
    cases h2 with
    | input _ g2 hg2 hin2 =>
      rw [hg] at hg2
      rw [← Option.some.inj hg2] at hin2
      exact absurd hin2 hnin
    | gate _ g2 da2 db2 hg2 _ ha2 hna2 hb2 hnb2 =>
      have ea : da = da2 := by
        cases hl : lastWireInto wires i 0 with
        | none => rw [hna hl, hna2 hl]
        | some w => exact iha w hl da2 (ha2 w hl)
      have eb : db = db2 := by
        cases hl : lastWireInto wires i 1 with
        | none => rw [hnb hl, hnb2 hl]
        | some w => exact ihb w hl db2 (hb2 w hl)
      rw [ea, eb]

theorem HasVal_HasDepth_exists (gates : List Gate) (wires : List Wire)
    (hr : WiresInRange wires gates) (rank : Int → Nat)
    (hrank : ∀ w ∈ wires, rank w.fromGateIndex < rank w.toGateIndex) (r : Nat) :
    ∀ i : Nat, i < gates.length → rank (i : Int) = r →
      ∃ v d, HasVal gates wires i v ∧ HasDepth gates wires i d := by
  induction r using Nat.strong_induction_on with
  | _ r ih =>
    intro i hi hri
    have hg : gates[i]? = some gates[i] := List.getElem?_eq_getElem hi
    by_cases hin : gates[i].type = .INPUT
    · exact ⟨_, 0, HasVal.input i _ hg hin, HasDepth.input i _ hg hin⟩
    · have hslot : ∀ s : Int, ∃ (a : Bool) (da : Nat),
          (∀ w, lastWireInto wires i s = some w →
            HasVal gates wires w.fromGateIndex.toNat a) ∧
          (lastWireInto wires i s = none → a = false) ∧
          (∀ w, lastWireInto wires i s = some w →
            HasDepth gates wires w.fromGateIndex.toNat da) ∧
          (lastWireInto wires i s = none → da = 0) := by
        intro s
        cases hl : lastWireInto wires i s with
        | none =>
          exact ⟨false, 0, fun w hw => (by cases hw), fun _ => rfl, fun w hw => (by cases hw),
            fun _ => rfl⟩
        | some w =>
          obtain ⟨hmem, ht⟩ := lastWireInto_mem wires i s w hl
          simp only [targets, Bool.and_eq_true, beq_iff_eq] at ht
          have hf := (indexInRange_iff _ _).1 (hr w hmem).1
          have hlt := hrank w hmem
          rw [ht.1, hri] at hlt
          have hcast : ((w.fromGateIndex.toNat : Nat) : Int) = w.fromGateIndex :=
            Int.toNat_of_nonneg hf.1
          obtain ⟨a, da, hva, hda⟩ := ih (rank w.fromGateIndex) hlt w.fromGateIndex.toNat hf.2
            (by rw [hcast])
          refine ⟨a, da, fun w2 hw2 => ?_, fun h => (by cases h), fun w2 hw2 => ?_,
            fun h => (by cases h)⟩
          · rw [← Option.some.inj hw2]; exact hva
          · rw [← Option.some.inj hw2]; exact hda
      obtain ⟨a, da, h1, h2, h3, h4⟩ := hslot 0
      obtain ⟨b, db, h5, h6, h7, h8⟩ := hslot 1
      exact ⟨_, _, HasVal.gate i _ a b hg hin h1 h2 h5 h6,
        HasDepth.gate i _ da db hg hin h3 h4 h7 h8⟩

theorem runSteps_val (s0 : WiringSystem × List Gate) (hr : WiresInRange s0.1.wires s0.2)
    (hni : NoWireIntoInput s0.1.wires s0.2) (i : Nat) (v : Bool)
    (hv : HasVal s0.2 s0.1.wires i v) :
    ∀ d : Nat, HasDepth s0.2 s0.1.wires i d → ∀ n : Nat, max 1 d ≤ n →
      outAt (runSteps n s0).2 (i : Int) = v := by
  induction hv with
  | input i g hg hin =>
    intro d _ n hn
    obtain ⟨m, rfl⟩ : ∃ m, n = m + 1 := ⟨n - 1, by omega⟩
    have hi : i < s0.2.length := (List.getElem?_eq_some.1 hg).1
    have e := outAt_step s0 (runSteps m s0) hr (SameCircuit_runSteps s0 hr hni m) i hi
    have e2 : outAt (runSteps (m + 1) s0).2 (i : Int) =
        nextOut s0 (outAt (runSteps m s0).2) i := e
    rw [e2]
    unfold nextOut
    rw [hg]
    simp only [hin, if_true]
  | gate i g a b hg hnin ha hna hb hnb iha ihb =>
    intro d hd n hn
    cases hd with
    | input _ g2 hg2 hin2 =>
      rw [hg] at hg2
      rw [← Option.some.inj hg2] at hin2
      exact absurd hin2 hnin
    | gate _ g2 da db hg2 _ hda hnda hdb hndb =>
      obtain ⟨m, rfl⟩ : ∃ m, n = m + 1 := ⟨n - 1, by omega⟩
      have hm : max da db ≤ m := by omega
      have hi : i < s0.2.length := (List.getElem?_eq_some.1 hg).1
      have e2 : outAt (runSteps (m + 1) s0).2 (i : Int) =
          nextOut s0 (outAt (runSteps m s0).2) i :=
        outAt_step s0 (runSteps m s0) hr (SameCircuit_runSteps s0 hr hni m) i hi
      have hslot : ∀ (s : Int) (x : Bool) (dx : Nat),
          (∀ w, lastWireInto s0.1.wires i s = some w → ∀ d : Nat,
            HasDepth s0.2 s0.1.wires w.fromGateIndex.toNat d → ∀ n : Nat, max 1 d ≤ n →
              outAt (runSteps n s0).2 (w.fromGateIndex.toNat : Int) = x) →
          (∀ w, lastWireInto s0.1.wires i s = some w →
            HasVal s0.2 s0.1.wires w.fromGateIndex.toNat x) →
          (lastWireInto s0.1.wires i s = none → x = false) →
          (∀ w, lastWireInto s0.1.wires i s = some w →
            HasDepth s0.2 s0.1.wires w.fromGateIndex.toNat dx) →
          dx ≤ m →
          slotAfter i s (sigOf s0.2 (outAt (runSteps m s0).2)) s0.1.wires false = x := by
        intro s x dx ihx hx hnx hdx hdm
        rw [slotAfter_eq]
        cases hl : lastWireInto s0.1.wires i s with
        | none => exact (hnx hl).symm
        | some w =>
          simp only
          obtain ⟨hmem, _⟩ := lastWireInto_mem s0.1.wires i s w hl
          have hf := (indexInRange_iff _ _).1 (hr w hmem).1
          have hcast : ((w.fromGateIndex.toNat : Nat) : Int) = w.fromGateIndex :=
            Int.toNat_of_nonneg hf.1
          have hsrc : s0.2[w.fromGateIndex.toNat]? = some s0.2[w.fromGateIndex.toNat] :=
            List.getElem?_eq_getElem hf.2
          unfold sigOf
          rw [hsrc]
          simp only
          by_cases hin : s0.2[w.fromGateIndex.toNat].type = .INPUT
          · rw [if_pos hin]
            exact (HasVal_input_eq _ _ _ _ _ (hx w hl) hsrc hin).symm
          · rw [if_neg hin]
            have hpos := HasDepth_pos _ _ _ _ _ (hdx w hl) hsrc hin
            have h := ihx w hl dx (hdx w hl) m (by omega)
            rw [hcast] at h
            exact h
      rw [e2]
      unfold nextOut
      rw [hg]
      simp only [hnin, if_false]
      rw [hslot 0 a da iha ha hna hda (by omega), hslot 1 b db ihb hb hnb hdb (by omega)]

/-- C25: in a gate store with a wire store whose wires are in range, end at existing
slots and form no cycle, every gate has exactly one combinational value `val` and exactly
one depth `depth`; and from any initial gate outputs and wire states, after `n`
consecutive steps (toggle bits held fixed) every gate with max(1, depth) ≤ n shows the
output `val`, so it keeps that output on all later steps. -/
theorem acyclic_settles_in_depth (ws : WiringSystem) (gates : List Gate)
    (hr : WiresInRange ws.wires gates) (hslots : SlotsBelowCount ws.wires gates)
    (hac : Acyclic ws.wires) :
    (∀ i : Nat, i < gates.length →
      ∃ v d, HasVal gates ws.wires i v ∧ HasDepth gates ws.wires i d ∧
        (∀ v2, HasVal gates ws.wires i v2 → v2 = v) ∧
        (∀ d2, HasDepth gates ws.wires i d2 → d2 = d)) ∧
    (∀ (i : Nat) (v : Bool) (d : Nat), HasVal gates ws.wires i v →
      HasDepth gates ws.wires i d → ∀ n : Nat, max 1 d ≤ n →
        ∃ g, (runSteps n (ws, gates)).2[i]? = some g ∧ g.output = v) := by
  have hni := NoWireIntoInput_of_SlotsBelowCount _ _ hslots
  obtain ⟨rank, hrank⟩ := hac
  refine ⟨fun i hi => ?_, fun i v d hv hd n hn => ?_⟩
  · obtain ⟨v, d, hv, hd⟩ := HasVal_HasDepth_exists gates ws.wires hr rank hrank _ i hi rfl
    exact ⟨v, d, hv, hd, fun v2 h2 => HasVal_unique _ _ _ _ _ h2 hv,
      fun d2 h2 => HasDepth_unique _ _ _ _ _ h2 hd⟩
  · have h := runSteps_val (ws, gates) hr hni i v hv d hd n hn
    have hi : i < gates.length := by
      cases hv with
      | input _ g hg _ => exact (List.getElem?_eq_some.1 hg).1
      | gate _ g _ _ hg _ _ _ _ _ => exact (List.getElem?_eq_some.1 hg).1
    have hlen : (runSteps n (ws, gates)).2.length = gates.length :=
      (SameCircuit_runSteps (ws, gates) hr hni n).1
    have hi2 : i < (runSteps n (ws, gates)).2.length := by rw [hlen]; exact hi
    refine ⟨_, List.getElem?_eq_getElem hi2, ?_⟩
    rw [← h, outAt_of_getElem _ i _ (List.getElem?_eq_getElem hi2)]
theorem sampleSystem_slots : SlotsBelowCount sampleSystem.wires sampleGates := by
  intro w hw dst hd
  simp only [sampleSystem, List.mem_cons, List.mem_singleton, List.not_mem_nil, or_false] at hw
  rcases hw with rfl | rfl
  · have e : dst = ⟨.AND, ⟨500, 150⟩, false, false, false⟩ := (Option.some.inj hd).symm
    rw [e]
    exact ⟨by decide, by decide⟩
  · have e : dst = ⟨.AND, ⟨500, 150⟩, false, false, false⟩ := (Option.some.inj hd).symm
    rw [e]
    exact ⟨by decide, by decide⟩

theorem sampleSystem_val : HasVal sampleGates sampleSystem.wires 2 true := by
  have h0 : HasVal sampleGates sampleSystem.wires 0 true :=
    HasVal.input 0 ⟨.INPUT, ⟨300, 100⟩, true, false, false⟩ rfl rfl
  have h1 : HasVal sampleGates sampleSystem.wires 1 true :=
    HasVal.input 1 ⟨.INPUT, ⟨300, 200⟩, true, false, false⟩ rfl rfl
  have l0 : lastWireInto sampleSystem.wires 2 0 = some
      ⟨0, 2, 0, false, [⟨368, 120⟩, ⟨430, 120⟩, ⟨430, 333 / 2⟩, ⟨492, 333 / 2⟩]⟩ := by decide!
  have l1 : lastWireInto sampleSystem.wires 2 1 = some
      ⟨1, 2, 1, false, [⟨368, 220⟩, ⟨430, 220⟩, ⟨430, 183⟩, ⟨492, 183⟩]⟩ := by decide!
  refine HasVal.gate 2 ⟨.AND, ⟨500, 150⟩, false, false, false⟩ true true rfl (by decide)
    (fun w hw => ?_) (fun h => ?_) (fun w hw => ?_) (fun h => ?_)
  · have hw2 : lastWireInto sampleSystem.wires 2 0 = some w := hw
    rw [l0] at hw2
    rw [← Option.some.inj hw2]
    exact h0
  · have h2 : lastWireInto sampleSystem.wires 2 0 = none := h
    rw [l0] at h2
    cases h2
  · have hw2 : lastWireInto sampleSystem.wires 2 1 = some w := hw
    rw [l1] at hw2
    rw [← Option.some.inj hw2]
    exact h1
  · have h2 : lastWireInto sampleSystem.wires 2 1 = none := h
    rw [l1] at h2
    cases h2

theorem sampleSystem_depth : HasDepth sampleGates sampleSystem.wires 2 1 := by
  have h0 : HasDepth sampleGates sampleSystem.wires 0 0 :=
    HasDepth.input 0 ⟨.INPUT, ⟨300, 100⟩, true, false, false⟩ rfl rfl
  have h1 : HasDepth sampleGates sampleSystem.wires 1 0 :=
    HasDepth.input 1 ⟨.INPUT, ⟨300, 200⟩, true, false, false⟩ rfl rfl
  have l0 : lastWireInto sampleSystem.wires 2 0 = some
      ⟨0, 2, 0, false, [⟨368, 120⟩, ⟨430, 120⟩, ⟨430, 333 / 2⟩, ⟨492, 333 / 2⟩]⟩ := by decide!
  have l1 : lastWireInto sampleSystem.wires 2 1 = some
      ⟨1, 2, 1, false, [⟨368, 220⟩, ⟨430, 220⟩, ⟨430, 183⟩, ⟨492, 183⟩]⟩ := by decide!
  refine HasDepth.gate 2 ⟨.AND, ⟨500, 150⟩, false, false, false⟩ 0 0 rfl (by decide)
    (fun w hw => ?_) (fun h => ?_) (fun w hw => ?_) (fun h => ?_)
  · have hw2 : lastWireInto sampleSystem.wires 2 0 = some w := hw
    rw [l0] at hw2
    rw [← Option.some.inj hw2]
    exact h0
  · rfl
  · have hw2 : lastWireInto sampleSystem.wires 2 1 = some w := hw
    rw [l1] at hw2
    rw [← Option.some.inj hw2]
    exact h1
  · rfl

theorem acyclic_settles_in_depth_witness :
    WiresInRange sampleSystem.wires sampleGates ∧
    SlotsBelowCount sampleSystem.wires sampleGates ∧ Acyclic sampleSystem.wires ∧
    HasVal sampleGates sampleSystem.wires 2 true ∧
    HasDepth sampleGates sampleSystem.wires 2 1 ∧
    ∀ n : Nat, max 1 1 ≤ n →
      ∃ g, (runSteps n (sampleSystem, sampleGates)).2[2]? = some g ∧ g.output = true :=
  ⟨sampleSystem_inRange, sampleSystem_slots, sampleSystem_acyclic, sampleSystem_val,
    sampleSystem_depth,
    (acyclic_settles_in_depth sampleSystem sampleGates sampleSystem_inRange sampleSystem_slots
      sampleSystem_acyclic).2 2 true 1 sampleSystem_val sampleSystem_depth⟩

/-! ### Invariants of the main loop -/

theorem GetInputCount_of_type (g g2 : Gate) (h : g.type = g2.type) :
    g.GetInputCount = g2.GetInputCount := by
  unfold Gate.GetInputCount
  rw [h]

theorem WiresSound_of_types (wires : List Wire) (gates gates2 : List Gate)
    (h : gates2.map Gate.type = gates.map Gate.type) (hs : WiresSound wires gates) :
    WiresSound wires gates2 := by
  have hlen : gates2.length = gates.length := by
    have := congrArg List.length h
    rw [List.length_map, List.length_map] at this
    exact this
  refine ⟨WiresInRange_of_length_eq _ hlen hs.1, hs.2.1, ?_⟩
  intro w hw dst2 hd2
  have hk := congrArg (fun l => l[w.toGateIndex.toNat]?) h
  simp only [List.getElem?_map, hd2, Option.map_some'] at hk
  cases hd : gates[w.toGateIndex.toNat]? with
  | none => rw [hd] at hk; cases hk
  | some dst =>
    rw [hd] at hk
    simp only [Option.map_some', Option.some.injEq] at hk
    rw [GetInputCount_of_type dst2 dst hk]
    exact hs.2.2 w hw dst hd

theorem WiresSound_append (wires : List Wire) (gates : List Gate) (g : Gate)
    (hs : WiresSound wires gates) : WiresSound wires (gates ++ [g]) := by
  have hin : ∀ idx : Int, indexInRange idx gates = true →
      indexInRange idx (gates ++ [g]) = true := by
    intro idx h
    rw [indexInRange_iff] at h ⊢
    rw [List.length_append]
    exact ⟨h.1, by omega⟩
  refine ⟨fun w hw => ⟨hin _ (hs.1 w hw).1, hin _ (hs.1 w hw).2⟩, hs.2.1, ?_⟩
  intro w hw dst hd
  have hlt := ((indexInRange_iff _ _).1 (hs.1 w hw).2).2
  rw [List.getElem?_append_left hlt] at hd
  exact hs.2.2 w hw dst hd

theorem WiresSound_of_wires (wires wires2 : List Wire) (gates : List Gate)
    (h : ∀ w ∈ wires2, ∃ w0 ∈ wires, w0.endpoints = w.endpoints)
    (hs : WiresSound wires gates) : WiresSound wires2 gates := by
  have key : ∀ w ∈ wires2, ∃ w0 ∈ wires, w0.fromGateIndex = w.fromGateIndex ∧
      w0.toGateIndex = w.toGateIndex ∧ w0.toInputIndex = w.toInputIndex := by
    intro w hw
    obtain ⟨w0, hw0, he⟩ := h w hw
    exact ⟨w0, hw0, congrArg (fun e => e.1) he, congrArg (fun e => e.2.1) he,
      congrArg (fun e => e.2.2) he⟩
  refine ⟨?_, ?_, ?_⟩
  · intro w hw
    obtain ⟨w0, hw0, h1, h2, -⟩ := key w hw
    rw [← h1, ← h2]
    exact hs.1 w0 hw0
  · intro w hw
    obtain ⟨w0, hw0, h1, h2, -⟩ := key w hw
    rw [← h1, ← h2]
    exact hs.2.1 w0 hw0
  · intro w hw dst hd
    obtain ⟨w0, hw0, -, h2, h3⟩ := key w hw
    rw [← h2] at hd
    rw [← h3]
    exact hs.2.2 w0 hw0 dst hd

theorem WiresSound_nil (gates : List Gate) : WiresSound [] gates :=
  ⟨fun w hw => absurd hw (List.not_mem_nil w), fun w hw => absurd hw (List.not_mem_nil w),
    fun w hw => absurd hw (List.not_mem_nil w)⟩

theorem WiresSound_delete (gates gates2 : List Gate) (ws ws2 : WiringSystem) (k : Int)
    (h : deleteGate gates ws k = some (gates2, ws2)) (hs : WiresSound ws.wires gates) :
    WiresSound ws2.wires gates2 := by
  unfold deleteGate at h
  by_cases hk : indexInRange k gates = true
  · rw [if_pos hk] at h
    simp only [Option.some.injEq, Prod.mk.injEq] at h
    obtain ⟨hg, hw⟩ := h
    have hk2 := (indexInRange_iff _ _).1 hk
    have key : ∀ r ∈ ws2.wires, ∃ w ∈ ws.wires, w.fromGateIndex ≠ k ∧ w.toGateIndex ≠ k ∧
        r.fromGateIndex = shiftIndex k w.fromGateIndex ∧
        r.toGateIndex = shiftIndex k w.toGateIndex ∧ r.toInputIndex = w.toInputIndex := by
      intro r hr
      rw [← hw, cascade_wires, List.mem_map] at hr
      obtain ⟨w, hwm, rfl⟩ := hr
      rw [List.mem_filter, not_references_iff] at hwm
      obtain ⟨h1, h2, h3, -⟩ := updateWireIndex_reindexed k w
      exact ⟨w, hwm.1, hwm.2.1, hwm.2.2, h1, h2, h3⟩
    rw [← hg]
    refine ⟨?_, ?_, ?_⟩
    · intro r hr
      obtain ⟨w, hwm, hne1, hne2, h1, h2, -⟩ := key r hr
      rw [h1, h2]
      exact ⟨shiftIndex_inRange gates k _ hk (hs.1 w hwm).1 hne1,
        shiftIndex_inRange gates k _ hk (hs.1 w hwm).2 hne2⟩
    · intro r hr
      obtain ⟨w, hwm, hne1, hne2, h1, h2, -⟩ := key r hr
      rw [h1, h2]
      intro heq
      exact hs.2.1 w hwm (shiftIndex_injective k _ _ hne1 hne2 heq)
    · intro r hr dst hd
      obtain ⟨w, hwm, hne1, hne2, h1, h2, h3⟩ := key r hr
      have hr2 := (indexInRange_iff _ _).1 (hs.1 w hwm).2
      rw [h2, eraseIdx_shift gates k _ hk2.1 hr2.1 hne2] at hd
      rw [h3]
      exact hs.2.2 w hwm dst hd
  · rw [if_neg hk] at h
    cases h
theorem HandleWireClick_cases (ws ws2 : WiringSystem) (mousePos : Vector2) (gates : List Gate)
    (handled : Bool) (h : ws.HandleWireClick mousePos gates = some (ws2, handled)) :
    (ws2.wires = ws.wires ∧
      ((ws2.isCreatingWire = ws.isCreatingWire ∧ ws2.wireSourceGate = ws.wireSourceGate) ∨
        ws2.isCreatingWire = false ∨
        ∃ cp, WiringSystem.FindConnectionPoint mousePos gates = some cp ∧
          ws2.wireSourceGate = cp.gateIndex)) ∨
    ∃ cp newWire, WiringSystem.FindConnectionPoint mousePos gates = some cp ∧
      ws2.wires = ws.wires ++ [newWire] ∧ ws2.isCreatingWire = false ∧
      cp.isInput = true ∧ cp.gateIndex ≠ ws.wireSourceGate ∧
      indexInRange ws.wireSourceGate gates = true ∧
      newWire.endpoints = (ws.wireSourceGate, cp.gateIndex, cp.inputIndex) := by
  unfold WiringSystem.HandleWireClick at h
  cases hf : WiringSystem.FindConnectionPoint mousePos gates with
  | none =>
    simp only [hf] at h
    split at h
    · cases h; exact Or.inl ⟨rfl, Or.inr (Or.inl rfl)⟩
    · cases h; exact Or.inl ⟨rfl, Or.inl ⟨rfl, rfl⟩⟩
  | some cp =>
    simp only [hf] at h
    split at h
    · split at h
      · cases h; exact Or.inl ⟨rfl, Or.inr (Or.inr ⟨cp, rfl, rfl⟩)⟩
      · cases h; exact Or.inl ⟨rfl, Or.inl ⟨rfl, rfl⟩⟩
    · split at h
      · rename_i hcond
        split at h
        · split at h
          · rename_i hrange
            split at h
            · cases h
              simp only [Bool.and_eq_true, bne_iff_ne, ne_eq] at hcond hrange
              refine Or.inr ⟨cp, _, rfl, rfl, rfl, hcond.1, hcond.2, hrange.1, ?_⟩
              unfold Wire.endpoints
              rw [CalculateLRoute_eq]
              rfl
            · cases h
          · cases h
        · cases h; exact Or.inl ⟨rfl, Or.inr (Or.inl rfl)⟩
      · cases h; exact Or.inl ⟨rfl, Or.inr (Or.inl rfl)⟩

theorem input_point_slot (g : Gate) (i : Nat) (p : ConnectionPoint)
    (hp : p ∈ gatePointsInOrder g i) (hin : p.isInput = true) :
    0 ≤ p.inputIndex ∧ p.inputIndex < (g.GetInputCount : Int) := by
  unfold gatePointsInOrder at hp
  simp only [List.mem_append, List.mem_map] at hp
  rcases hp with ⟨k, hk, rfl⟩ | hp
  · simp only [List.bind_eq_flatMap, List.pure_def, List.mem_flatMap, List.mem_range,
      List.mem_singleton] at hk
    obtain ⟨a, ha, rfl⟩ := hk
    exact ⟨Int.ofNat_nonneg a, Int.ofNat_lt.2 ha⟩
  · split at hp
    · rw [List.mem_singleton] at hp
      rw [hp] at hin
      cases hin
    · cases hp

theorem WiresSound_click (ws ws2 : WiringSystem) (mousePos : Vector2) (gates : List Gate)
    (handled : Bool) (h : ws.HandleWireClick mousePos gates = some (ws2, handled))
    (hs : WiresSound ws.wires gates) : WiresSound ws2.wires gates := by
  rcases HandleWireClick_cases ws ws2 mousePos gates handled h with ⟨h1, -⟩ |
    ⟨cp, nw, hf, h1, -, hin, hne, hsrc, hep⟩
  · rw [h1]; exact hs
  · obtain ⟨hmem, -, hdst⟩ := FindConnectionPoint_some mousePos gates cp hf
    obtain ⟨i, g, hg, hp, hi⟩ := mem_connectionPointsInOrder gates cp hmem
    have hfrom : nw.fromGateIndex = ws.wireSourceGate := congrArg (fun e => e.1) hep
    have hto : nw.toGateIndex = cp.gateIndex := congrArg (fun e => e.2.1) hep
    have hsl : nw.toInputIndex = cp.inputIndex := congrArg (fun e => e.2.2) hep
    rw [h1]
    refine ⟨?_, ?_, ?_⟩
    · intro w hw
      rcases List.mem_append.1 hw with hw | hw
      · exact hs.1 w hw
      · rw [List.mem_singleton] at hw
        rw [hw, hfrom, hto]
        exact ⟨hsrc, hdst⟩
    · intro w hw
      rcases List.mem_append.1 hw with hw | hw
      · exact hs.2.1 w hw
      · rw [List.mem_singleton] at hw
        rw [hw, hfrom, hto]
        exact fun e => hne e.symm
    · intro w hw dst hd
      rcases List.mem_append.1 hw with hw | hw
      · exact hs.2.2 w hw dst hd
      · rw [List.mem_singleton] at hw
        rw [hw, hto, hi, Int.toNat_ofNat, hg] at hd
        rw [hw, hsl, ← Option.some.inj hd]
        exact input_point_slot g i cp hp hin
theorem UpdateSignals_types (ws : WiringSystem) (gates : List Gate) :
    (ws.UpdateSignals gates).2.map Gate.type = gates.map Gate.type := by
  apply List.ext_getElem?
  intro i
  rw [List.getElem?_map, List.getElem?_map]
  cases hg : gates[i]? with
  | none =>
    have hlen : gates.length ≤ i := List.getElem?_eq_none_iff.1 hg
    rw [List.getElem?_eq_none (by rw [UpdateSignals_length]; exact hlen)]
  | some g =>
    rw [UpdateSignals_gate_any ws gates i g hg]
    simp only [Option.map_some', stepGate_type]

theorem WiresSound_step (ws : WiringSystem) (gates : List Gate)
    (hs : WiresSound ws.wires gates) :
    WiresSound (ws.UpdateSignals gates).1.wires (ws.UpdateSignals gates).2 := by
  apply WiresSound_of_types _ gates _ (UpdateSignals_types ws gates)
  exact WiresSound_of_wires ws.wires _ gates
    (mem_of_endpoints_eq _ _ (UpdateSignals_endpoints ws gates)) hs

theorem InputSlotsClear_step (ws : WiringSystem) (gates : List Gate)
    (hs : WiresSound ws.wires gates) (hc : InputSlotsClear gates) :
    InputSlotsClear (ws.UpdateSignals gates).2 := by
  intro g2 hg2 hin
  obtain ⟨i, hi⟩ := List.mem_iff_getElem?.1 hg2
  have hlt : i < gates.length := by
    have := (List.getElem?_eq_some.1 hi).1
    rw [UpdateSignals_length] at this
    exact this
  have hg : gates[i]? = some gates[i] := List.getElem?_eq_getElem hlt
  rw [UpdateSignals_gate_any ws gates i _ hg] at hi
  have e := Option.some.inj hi
  have ht : gates[i].type = .INPUT := by
    rw [← stepGate_type gates (ws.wires.filter (wireInRange gates)) i gates[i], e]
    exact hin
  rw [← e]
  unfold stepGate
  rw [if_pos ht]
  have hni := NoWireIntoInput_of_SlotsBelowCount _ _ hs.2.2
  show slotAfter _ _ _ _ _ = false
  rw [slotAfter_no_target _ _ _ _ _ (targets_false_of_noInput _ _ hni i _ hg ht 1)]
  exact hc _ (List.getElem_mem hlt) ht

theorem map_type_set (gates : List Gate) (i : Nat) (g g1 : Gate) (hg : gates[i]? = some g)
    (ht : g1.type = g.type) : (gates.set i g1).map Gate.type = gates.map Gate.type := by
  apply List.ext_getElem?
  intro j
  rw [List.getElem?_map, List.getElem?_map, List.getElem?_set]
  by_cases hij : i = j
  · subst hij
    have hlt := (List.getElem?_eq_some.1 hg).1
    rw [if_pos rfl, if_pos hlt, hg]
    simp only [Option.map_some', ht]
  · rw [if_neg hij]

theorem InputSlotsClear_set (gates : List Gate) (i : Nat) (g1 : Gate)
    (h1 : g1.type = .INPUT → g1.input2 = false) (hc : InputSlotsClear gates) :
    InputSlotsClear (gates.set i g1) := by
  intro g hg hin
  rcases List.mem_or_eq_of_mem_set hg with h | h
  · exact hc g h hin
  · rw [h]; rw [h] at hin; exact h1 hin

theorem placeGate_cases (gates : List Gate) (t : GateType) (mousePos : Vector2) :
    placeGate gates t mousePos = gates ∨
      placeGate gates t mousePos = gates ++ [proposedGate t mousePos] := by
  unfold placeGate proposedGate
  simp only
  split
  · exact Or.inr rfl
  · exact Or.inl rfl

theorem MainInvariant_placementClick (s : MainState) (mousePos : Vector2)
    (h : MainInvariant s) : MainInvariant (placementClick s mousePos) := by
  unfold placementClick
  split
  · rename_i i hfind
    split
    · rename_i g hg
      refine ⟨?_, ?_, h.2.2⟩
      · apply WiresSound_of_types _ s.gates _ _ h.1
        apply map_type_set _ _ g _ hg
        unfold Gate.GetType
        split <;> rfl
      · apply InputSlotsClear_set _ _ _ _ h.2.1
        intro ht
        have hmem : g ∈ s.gates := List.getElem?_mem hg
        unfold Gate.GetType at ht ⊢
        split at ht
        · rename_i hin
          rw [if_pos hin]
          exact h.2.1 g hmem hin
        · rename_i hin
          exact absurd ht hin
    · exact h
  · split
    · rcases placeGate_cases s.gates s.selectedGateType mousePos with e | e
      · refine ⟨?_, ?_, h.2.2⟩
        · show WiresSound _ (placeGate s.gates s.selectedGateType mousePos)
          rw [e]; exact h.1
        · show InputSlotsClear (placeGate s.gates s.selectedGateType mousePos)
          rw [e]; exact h.2.1
      · refine ⟨?_, ?_, h.2.2⟩
        · show WiresSound _ (placeGate s.gates s.selectedGateType mousePos)
          rw [e]; exact WiresSound_append _ _ _ h.1
        · show InputSlotsClear (placeGate s.gates s.selectedGateType mousePos)
          rw [e]
          intro g hg hin
          rcases List.mem_append.1 hg with hg | hg
          · exact h.2.1 g hg hin
          · rw [List.mem_singleton] at hg
            rw [hg]
            rfl
    · exact h

theorem MainInvariant_leftClick (s s2 : MainState) (mousePos : Vector2)
    (hl : leftClick s mousePos = some s2) (h : MainInvariant s) : MainInvariant s2 := by
  unfold leftClick at hl
  simp only at hl
  split at hl
  · cases hl; exact h
  · split at hl
    · cases hl; exact h
    · split at hl
      · cases hl; exact h
      · split at hl
        · split at hl
          · cases hl; exact MainInvariant_placementClick s mousePos h
          · split at hl
            · rename_i r hr
              cases hl
              have hr2 : s.wiringSystem.HandleWireClick mousePos s.gates = some (r.1, r.2) := hr
              refine ⟨WiresSound_click _ _ _ _ _ hr2 h.1, h.2.1, ?_⟩
              intro hcw
              rcases HandleWireClick_cases _ _ _ _ _ hr2 with ⟨-, hc⟩ | ⟨_, _, _, _, hc, _⟩
              · rcases hc with ⟨h1, h2⟩ | hc | ⟨cp, hf, h2⟩
                · show 0 ≤ r.1.wireSourceGate
                  rw [h2]
                  exact h.2.2 (h1 ▸ hcw)
                · have hcw2 : r.1.isCreatingWire = true := hcw
                  rw [hc] at hcw2
                  cases hcw2
                · show 0 ≤ r.1.wireSourceGate
                  rw [h2]
                  exact ((indexInRange_iff _ _).1
                    (FindConnectionPoint_some mousePos s.gates cp hf).2.2).1
              · have hcw2 : r.1.isCreatingWire = true := hcw
                rw [hc] at hcw2
                cases hcw2
            · cases hl
        · cases hl; exact h

theorem MainInvariant_rightClick (s : MainState) (mousePos : Vector2) (h : MainInvariant s) :
    MainInvariant (rightClick s mousePos) := by
  unfold rightClick
  split
  · refine ⟨?_, h.2.1, ?_⟩
    · apply WiresSound_of_wires s.wiringSystem.wires _ s.gates _ h.1
      intro w hw
      exact ⟨w, (HandleWireDeletion_sublist _ mousePos s.gates).subset hw, rfl⟩
    · show (s.wiringSystem.HandleWireDeletion mousePos s.gates).1.isCreatingWire = true → _
      unfold WiringSystem.HandleWireDeletion
      split
      · exact h.2.2
      · exact h.2.2
  · exact h

theorem MainInvariant_dragging (s s2 : MainState) (inp : FrameInput)
    (hd : dragging s inp = some s2) (h : MainInvariant s) : MainInvariant s2 := by
  have hrel : ∀ a : MainState, MainInvariant a →
      MainInvariant { a with draggedGateIndex := -1 } := fun a ha => ha
  unfold dragging at hd
  split at hd
  · simp only at hd
    split at hd
    · rename_i s1 hm
      have h1 : MainInvariant s1 := by
        split at hm
        · split at hm
          · split at hm
            · rename_i g hg
              cases hm
              refine ⟨?_, ?_, h.2.2⟩
              · apply WiresSound_of_types _ s.gates _ _ h.1
                exact map_type_set _ _ g _ hg rfl
              · apply InputSlotsClear_set _ _ _ _ h.2.1
                intro ht
                exact h.2.1 g (List.getElem?_mem hg) ht
            · cases hm
          · cases hm
        · cases hm; exact h
      split at hd
      · cases hd; exact hrel s1 h1
      · cases hd; exact h1
    · cases hd
  · cases hd; exact h

theorem InputSlotsClear_eraseIdx (gates : List Gate) (k : Nat) (hc : InputSlotsClear gates) :
    InputSlotsClear (gates.eraseIdx k) :=
  fun g hg hin => hc g ((List.eraseIdx_sublist gates k).subset hg) hin

theorem MainInvariant_deleteKey (s s2 : MainState) (inp : FrameInput)
    (hd : deleteKey s inp = some s2) (h : MainInvariant s) : MainInvariant s2 := by
  unfold deleteKey at hd
  split at hd
  · split at hd
    · rename_i r hr
      cases hd
      have hr2 : deleteGate s.gates s.wiringSystem s.draggedGateIndex = some (r.1, r.2) := hr
      refine ⟨WiresSound_delete _ _ _ _ _ hr2 h.1, ?_, ?_⟩
      · unfold deleteGate at hr2
        split at hr2
        · have e := congrArg Prod.fst (Option.some.inj hr2)
          show InputSlotsClear r.1
          rw [← e]
          exact InputSlotsClear_eraseIdx _ _ h.2.1
        · cases hr2
      · unfold deleteGate at hr2
        split at hr2
        · have e := congrArg Prod.snd (Option.some.inj hr2)
          show r.2.isCreatingWire = true → 0 ≤ r.2.wireSourceGate
          rw [← e]
          exact h.2.2
        · cases hr2
    · cases hd
  · cases hd; exact h

theorem MainInvariant_logicStep (s : MainState) (h : MainInvariant s) :
    MainInvariant (logicStep s) :=
  ⟨WiresSound_step _ _ h.1, InputSlotsClear_step _ _ h.1 h.2.1, h.2.2⟩

theorem MainInvariant_mainLoopBody (s s2 : MainState) (inp : FrameInput)
    (hb : mainLoopBody s inp = some s2) (h : MainInvariant s) : MainInvariant s2 := by
  unfold mainLoopBody at hb
  split at hb
  · cases hb
  · rename_i s1 h1
    have i1 : MainInvariant s1 := by
      split at h1
      · exact MainInvariant_leftClick s s1 inp.mousePos h1 h
      · cases h1; exact h
    simp only at hb
    have i2 : MainInvariant (if inp.rightPressed then rightClick s1 inp.mousePos else s1) := by
      split
      · exact MainInvariant_rightClick s1 inp.mousePos i1
      · exact i1
    split at hb
    · cases hb
    · rename_i s3 h3
      have i3 := MainInvariant_dragging _ s3 inp h3 i2
      split at hb
      · cases hb
      · rename_i s4 h4
        cases hb
        exact MainInvariant_logicStep s4 (MainInvariant_deleteKey s3 s4 inp h4 i3)

theorem MainInvariant_new : MainInvariant MainState.new :=
  ⟨WiresSound_nil [], fun g hg => absurd hg (List.not_mem_nil g), fun h => by cases h⟩

theorem MainReachable_invariant (s : MainState) (h : MainReachable s) : MainInvariant s := by
  induction h with
  | init => exact MainInvariant_new
  | frame s s2 inp _ hb ih => exact MainInvariant_mainLoopBody s s2 inp hb ih

theorem MainReachable_runFrames (inps : List FrameInput) (s s2 : MainState)
    (hs : MainReachable s) (h : runFrames inps s = some s2) : MainReachable s2 := by
  induction inps generalizing s with
  | nil =>
    cases h
    exact hs
  | cons inp rest ih =>
    unfold runFrames at h
    split at h
    · rename_i s1 h1
      exact ih s1 (MainReachable.frame s s1 inp hs h1) h
    · cases h
/-! ### The pending wire and gate deletion -/

/-- C26 (the code at the failing input): the inputs `stalePendingInputs` (place an Input
gate and a NOT gate, click the NOT gate's output point in wiring mode, delete the Input
gate in placement mode) lead the loop to a state with one gate in which a wire is still
pending from gate index 1; the next click on the NOT gate's input point makes
`HandleWireClick` index the gate store out of range.  The same in terms of the
operations: after two placements `HandleWireClick` on the output point leaves a wire
pending from gate 1, and the deletion of gate 0 leaves that pending state untouched.
What does hold in every state the loop reaches is the lower bound: a pending wire's source
index is not negative. -/
theorem pending_source_out_of_range :
    runFrames stalePendingInputs MainState.new = some stalePendingState ∧
    MainReachable stalePendingState ∧
    stalePendingState.wiringSystem.isCreatingWire = true ∧
    stalePendingState.wiringSystem.wireSourceGate = 1 ∧
    stalePendingState.gates.length = 1 ∧
    indexInRange stalePendingState.wiringSystem.wireSourceGate stalePendingState.gates = false ∧
    stalePendingState.wiringSystem.HandleWireClick ⟨292, 633 / 2⟩ stalePendingState.gates =
      none ∧
    runFrames (stalePendingInputs ++ clickAt ⟨100, 840⟩ ++ clickAt ⟨292, 633 / 2⟩)
      MainState.new = none ∧
    WiringSystem.new.HandleWireClick ⟨383, 325⟩
        (placeGate (placeGate [] .INPUT ⟨330, 120⟩) .NOT ⟨675 / 2, 325⟩) =
      some (⟨[], true, 1, ⟨0, 0⟩⟩, true) ∧
    deleteGate (placeGate (placeGate [] .INPUT ⟨330, 120⟩) .NOT ⟨675 / 2, 325⟩)
        ⟨[], true, 1, ⟨0, 0⟩⟩ 0 =
      some ([⟨.NOT, ⟨300, 300⟩, false, false, false⟩], ⟨[], true, 1, ⟨0, 0⟩⟩) ∧
    (∀ s, MainReachable s → s.wiringSystem.isCreatingWire = true →
      0 ≤ s.wiringSystem.wireSourceGate) := by
  have hrun : runFrames stalePendingInputs MainState.new = some stalePendingState := by decide!
  exact ⟨hrun, MainReachable_runFrames _ _ _ MainReachable.init hrun, rfl, rfl, rfl, by decide,
    by decide!, by decide!, by decide!, by decide!,
    fun s hs => (MainReachable_invariant s hs).2.2⟩

/-- C27 (the code at the failing input): the inputs `outputSourceInputs` (place an Input
gate, a NOT gate and an Output gate, click the NOT gate's output point, delete the Input
gate, click the NOT gate's input point) lead the loop to a state whose one wire has the
Output gate as its source.  The other two parts of the claim hold in every state the loop
reaches: every wire has a source index in the store and other than its destination index,
and a destination slot that is at least 0 and below the destination gate's slot count, so
no wire ends at an Input gate. -/
theorem wire_source_can_be_output_gate :
    runFrames outputSourceInputs MainState.new = some outputSourceState ∧
    MainReachable outputSourceState ∧
    (∃ w src, w ∈ outputSourceState.wiringSystem.wires ∧
      outputSourceState.gates[w.fromGateIndex.toNat]? = some src ∧ src.type = .OUTPUT ∧
      src.HasOutput = false) ∧
    (∀ s, MainReachable s → ∀ w ∈ s.wiringSystem.wires,
      w.fromGateIndex ≠ w.toGateIndex ∧ indexInRange w.fromGateIndex s.gates = true ∧
      ∃ dst, s.gates[w.toGateIndex.toNat]? = some dst ∧ 0 ≤ w.toInputIndex ∧
        w.toInputIndex < (dst.GetInputCount : Int) ∧ dst.type ≠ .INPUT) := by
  have hrun : runFrames outputSourceInputs MainState.new = some outputSourceState := by decide!
  refine ⟨hrun, MainReachable_runFrames _ _ _ MainReachable.init hrun,
    ⟨⟨1, 0, 0, false, [⟨668, 320⟩, ⟨480, 320⟩, ⟨480, 633 / 2⟩, ⟨292, 633 / 2⟩]⟩,
      ⟨.OUTPUT, ⟨600, 300⟩, false, false, false⟩, List.mem_singleton.2 rfl, rfl, rfl, rfl⟩, ?_⟩
  intro s hs w hw
  obtain ⟨⟨hr, hne, hsl⟩, -, -⟩ := MainReachable_invariant s hs
  have ht := (indexInRange_iff _ _).1 (hr w hw).2
  have hd : s.gates[w.toGateIndex.toNat]? = some s.gates[w.toGateIndex.toNat] :=
    List.getElem?_eq_getElem ht.2
  refine ⟨hne w hw, (hr w hw).1, _, hd, (hsl w hw _ hd).1, (hsl w hw _ hd).2, ?_⟩
  exact NoWireIntoInput_of_SlotsBelowCount _ _ hsl w hw _ hd

/-! ### Binary32 rounding -/

theorem round_examples :
    Binary32.round (7 / 10) = 11744051 / 16777216 ∧
    Binary32.round (1 / 10) = 13421773 / 134217728 ∧
    Binary32.round (33 / 100) = 11072963 / 33554432 ∧
    Binary32.round (-7 / 10) = -11744051 / 16777216 ∧
    Binary32.round (1 / 2) = 1 / 2 ∧ Binary32.round 368 = 368 ∧
    Binary32.round 16777217 = 16777216 ∧ Binary32.round 16777219 = 16777220 ∧
    Binary32.round (11534337 / 524288) = 11534337 / 524288 ∧
    Binary32.round (-38 + 1 / 524288) = -38 ∧
    Binary32.round (60 + 1 / 524288) = 60 := by
  refine ⟨by decide!, by decide!, by decide!, by decide!, by decide!, by decide!, by decide!,
    by decide!, by decide!, by decide!, by decide!⟩
/-! ### Route synthesis: axis alignment -/

theorem straightLoop_aligned (w : Wire) (start endPt : Vector2) (gates : List Gate)
    (clearance : ℚ) (l : List ℚ) (r : Vector2)
    (h : Wire.straightLoop w start endPt gates clearance l = some r) : AxisAligned start r := by
  induction l with
  | nil => cases h
  | cons pct rest ih =>
    unfold Wire.straightLoop at h
    simp only at h
    split at h
    · cases h; exact Or.inr rfl
    · split at h
      · cases h; exact Or.inl rfl
      · exact ih h

theorem straightLoop_aligned_binary32 (w : Wire) (start endPt : Vector2) (gates : List Gate)
    (clearance : ℚ) (l : List ℚ) (r : Vector2)
    (h : Binary32.straightLoop w start endPt gates clearance l = some r) :
    AxisAligned start r := by
  induction l with
  | nil => cases h
  | cons pct rest ih =>
    unfold Binary32.straightLoop at h
    simp only at h
    split at h
    · cases h; exact Or.inr rfl
    · split at h
      · cases h; exact Or.inl rfl
      · exact ih h

theorem CalculateSimpleLRoute_axis_aligned_binary32 (start endPt : Vector2) :
    (Binary32.CalculateSimpleLRoute [start] start endPt).length = 3 ∧
    ConsecutiveWaypoints AxisAligned (Binary32.CalculateSimpleLRoute [start] start endPt) := by
  unfold Binary32.CalculateSimpleLRoute
  simp only
  split
  · exact ⟨rfl, consecutive_three _ _ _ _ (Or.inr rfl) (Or.inl rfl)⟩
  · exact ⟨rfl, consecutive_three _ _ _ _ (Or.inl rfl) (Or.inr rfl)⟩

theorem CalculateLRoute_waypoints_binary32 (w : Wire) (start endPt : Vector2)
    (gates : Option (List Gate)) :
    (Binary32.CalculateLRoute w start endPt gates).waypoints =
      match gates with
      | none => Binary32.CalculateSimpleLRoute [start] start endPt
      | some gs =>
        if gs.isEmpty then Binary32.CalculateSimpleLRoute [start] start endPt
        else if (Binary32.CalculateAvoidanceRoute w start endPt gs 5).x ≠ -1 then
          [start, Binary32.CalculateAvoidanceRoute w start endPt gs 5,
            ⟨(Binary32.CalculateAvoidanceRoute w start endPt gs 5).x, endPt.y⟩, endPt]
        else Binary32.CalculateSimpleLRoute [start] start endPt := by
  unfold Binary32.CalculateLRoute
  cases gates with
  | none => rfl
  | some gs =>
    simp only
    split
    · rfl
    · split <;> rfl

theorem consecutive_tail (R : Vector2 → Vector2 → Prop) (route : List Vector2)
    (h : ConsecutiveWaypoints R route) : ConsecutiveWaypoints R route.tail := by
  cases route with
  | nil => exact h
  | cons a rest =>
    intro i x y hx hy
    exact h (i + 1) x y (by simpa using hx) (by simpa using hy)

theorem consecutive_tail_four (a b c d : Vector2) (h2 : AxisAligned b c) (h3 : AxisAligned c d) :
    ConsecutiveWaypoints AxisAligned [a, b, c, d].tail :=
  consecutive_three _ b c d h2 h3

/-- C15 (as stated, refuted): two stored routes with a pair of consecutive waypoints that
does not differ along exactly one axis.  Between the connection points (368, 120) and
(492, 120) of two gates in one row the bend and the corner coincide, in exact and in
binary32 arithmetic alike.  In the store `subPixelGates`, in binary32 arithmetic, the
wire from gate 0 to slot 0 of gate 1 runs from (368, 22 + 2⁻¹⁹) to (592, 433/2); the
first loop of the search accepts nothing, the offset sweep accepts the candidate with
offset −60 and fraction 1/2, bend (480, −38), and the stored route starts with the
diagonal segment from (368, 22 + 2⁻¹⁹) to (480, −38). -/
theorem CalculateLRoute_not_one_axis :
    ¬ ConsecutiveWaypoints DiffersOnOneAxis
      ((Wire.new 0 1 0).CalculateLRoute ⟨368, 120⟩ ⟨492, 120⟩ (some alignedGates)).waypoints ∧
    (Binary32.CalculateLRoute (Wire.new 0 1 0) ⟨368, 120⟩ ⟨492, 120⟩
      (some alignedGates)).waypoints = [⟨368, 120⟩, ⟨430, 120⟩, ⟨430, 120⟩, ⟨492, 120⟩] ∧
    subPixelGates[0]?.map Binary32.GetOutputPoint = some ⟨368, 11534337 / 524288⟩ ∧
    subPixelGates[1]?.map (fun g => Binary32.GetInputPoint g 0) = some ⟨592, 433 / 2⟩ ∧
    Binary32.straightLoop (Wire.new 0 1 0) ⟨368, 11534337 / 524288⟩ ⟨592, 433 / 2⟩
      subPixelGates 5 Binary32.percentages = none ∧
    Binary32.CalculateAvoidanceRoute (Wire.new 0 1 0) ⟨368, 11534337 / 524288⟩ ⟨592, 433 / 2⟩
      subPixelGates 5 = ⟨480, -38⟩ ∧
    (Binary32.CalculateLRoute (Wire.new 0 1 0) ⟨368, 11534337 / 524288⟩ ⟨592, 433 / 2⟩
      (some subPixelGates)).waypoints =
      [⟨368, 11534337 / 524288⟩, ⟨480, -38⟩, ⟨480, 433 / 2⟩, ⟨592, 433 / 2⟩] ∧
    ¬ AxisAligned ⟨368, 11534337 / 524288⟩ ⟨480, -38⟩ ∧
    ¬ ConsecutiveWaypoints AxisAligned
      (Binary32.CalculateLRoute (Wire.new 0 1 0) ⟨368, 11534337 / 524288⟩ ⟨592, 433 / 2⟩
        (some subPixelGates)).waypoints := by
  have hroute : (Binary32.CalculateLRoute (Wire.new 0 1 0) ⟨368, 11534337 / 524288⟩
      ⟨592, 433 / 2⟩ (some subPixelGates)).waypoints =
      [⟨368, 11534337 / 524288⟩, ⟨480, -38⟩, ⟨480, 433 / 2⟩, ⟨592, 433 / 2⟩] := by decide!
  have hdiag : ¬ AxisAligned ⟨368, 11534337 / 524288⟩ ⟨480, -38⟩ := by
    unfold AxisAligned
    decide!
  refine ⟨?_, by decide!, by decide!, by decide!, by decide!, by decide!, hroute, hdiag, ?_⟩
  · intro h
    have h1 := h 1 ⟨430, 120⟩ ⟨430, 120⟩ (by decide!) (by decide!)
    unfold DiffersOnOneAxis at h1
    simp at h1
  · intro h
    rw [hroute] at h
    exact hdiag (h 0 _ _ rfl rfl)

/-- C15 (amended): every route `CalculateLRoute` produces has at least two waypoints, and
every pair of consecutive waypoints after the first pair shares its x or its y (the two
may coincide); the first pair, start and bend, does so too unless the bend was supplied
by the offset sweep, that is, whenever the route is the fallback or the bend comes from
the first loop of the search.  This holds for every wire, start, end and gate list, in
exact arithmetic and in binary32 arithmetic. -/
theorem CalculateLRoute_axis_aligned :
    (∀ (w : Wire) (start endPt : Vector2) (gates : Option (List Gate)),
      2 ≤ (w.CalculateLRoute start endPt gates).waypoints.length ∧
      ConsecutiveWaypoints AxisAligned (w.CalculateLRoute start endPt gates).waypoints.tail ∧
      (¬ OffsetBendStored w start endPt gates →
        ConsecutiveWaypoints AxisAligned (w.CalculateLRoute start endPt gates).waypoints)) ∧
    (∀ (w : Wire) (start endPt : Vector2) (gates : Option (List Gate)),
      2 ≤ (Binary32.CalculateLRoute w start endPt gates).waypoints.length ∧
      ConsecutiveWaypoints AxisAligned
        (Binary32.CalculateLRoute w start endPt gates).waypoints.tail ∧
      (¬ Binary32.OffsetBendStored w start endPt gates →
        ConsecutiveWaypoints AxisAligned
          (Binary32.CalculateLRoute w start endPt gates).waypoints)) := by
  constructor
  · intro w start endPt gates
    have hsimple := CalculateSimpleLRoute_axis_aligned start endPt
    have hs3 : 2 ≤ (Wire.CalculateSimpleLRoute [start] start endPt).length := by
      rw [hsimple.1]; norm_num
    rw [CalculateLRoute_waypoints]
    cases gates with
    | none => exact ⟨hs3, consecutive_tail _ _ hsimple.2, fun _ => hsimple.2⟩
    | some gs =>
      simp only
      split
      · exact ⟨hs3, consecutive_tail _ _ hsimple.2, fun _ => hsimple.2⟩
      · rename_i hemp
        split
        · rename_i hne
          refine ⟨by simp, consecutive_tail_four _ _ _ _ (Or.inl rfl) (Or.inr rfl), ?_⟩
          intro hno
          cases hsl : Wire.straightLoop w start endPt gs 5 Wire.percentages with
          | none =>
            exfalso
            exact hno ⟨gs, rfl, by simpa using hemp, hsl, hne⟩
          | some r =>
            have hb : w.CalculateAvoidanceRoute start endPt gs 5 = r := by
              unfold Wire.CalculateAvoidanceRoute
              rw [hsl]
            rw [hb]
            exact consecutive_four _ _ _ _ _
              (straightLoop_aligned w start endPt gs 5 _ r hsl) (Or.inl rfl) (Or.inr rfl)
        · exact ⟨hs3, consecutive_tail _ _ hsimple.2, fun _ => hsimple.2⟩
  · intro w start endPt gates
    have hsimple := CalculateSimpleLRoute_axis_aligned_binary32 start endPt
    have hs3 : 2 ≤ (Binary32.CalculateSimpleLRoute [start] start endPt).length := by
      rw [hsimple.1]; norm_num
    rw [CalculateLRoute_waypoints_binary32]
    cases gates with
    | none => exact ⟨hs3, consecutive_tail _ _ hsimple.2, fun _ => hsimple.2⟩
    | some gs =>
      simp only
      split
      · exact ⟨hs3, consecutive_tail _ _ hsimple.2, fun _ => hsimple.2⟩
      · rename_i hemp
        split
        · rename_i hne
          refine ⟨by simp, consecutive_tail_four _ _ _ _ (Or.inl rfl) (Or.inr rfl), ?_⟩
          intro hno
          cases hsl : Binary32.straightLoop w start endPt gs 5 Binary32.percentages with
          | none =>
            exfalso
            exact hno ⟨gs, rfl, by simpa using hemp, hsl, hne⟩
          | some r =>
            have hb : Binary32.CalculateAvoidanceRoute w start endPt gs 5 = r := by
              unfold Binary32.CalculateAvoidanceRoute
              rw [hsl]
            rw [hb]
            exact consecutive_four _ _ _ _ _
              (straightLoop_aligned_binary32 w start endPt gs 5 _ r hsl) (Or.inl rfl)
              (Or.inr rfl)
        · exact ⟨hs3, consecutive_tail _ _ hsimple.2, fun _ => hsimple.2⟩
/-! ### The wire-creation state machine: clicks that do not make the transition -/

/-- C7 (as stated, refuted): in the store `shadowedOutputGates`, which two placements
build, a click at (384, 120) is at distance 0 from the output point of gate 1, but
`FindConnectionPoint` returns the input point (392, 233/2) of gate 0, which comes first
and is within snap distance; from Idle `HandleWireClick` returns false and stays Idle.
And in the state `stalePendingState`, which the main loop reaches, a wire is pending
from gate index 1 of a one-gate store; a click on the input point of gate 0, which no
wire enters, appends no wire: `HandleWireClick` indexes the gate store out of range. -/
theorem HandleWireClick_transition_missed :
    placeGate (placeGate [] .AND ⟨875 / 2, 125⟩) .INPUT ⟨346, 120⟩ = shadowedOutputGates ∧
    shadowedOutputGates[1]?.map Gate.GetOutputPoint = some ⟨384, 120⟩ ∧
    distanceLE ⟨384, 120⟩ ⟨384, 120⟩ CONNECTION_SNAP_DISTANCE = true ∧
    WiringSystem.FindConnectionPoint ⟨384, 120⟩ shadowedOutputGates =
      some ⟨⟨392, 233 / 2⟩, true, 0, 0⟩ ∧
    WiringSystem.new.isCreatingWire = false ∧
    WiringSystem.new.HandleWireClick ⟨384, 120⟩ shadowedOutputGates =
      some (WiringSystem.new, false) ∧
    MainReachable stalePendingState ∧
    stalePendingState.wiringSystem.isCreatingWire = true ∧
    stalePendingState.wiringSystem.wireSourceGate = 1 ∧
    stalePendingState.wiringSystem.wires = [] ∧
    WiringSystem.FindConnectionPoint ⟨292, 633 / 2⟩ stalePendingState.gates =
      some ⟨⟨292, 633 / 2⟩, true, 0, 0⟩ ∧
    stalePendingState.wiringSystem.HandleWireClick ⟨292, 633 / 2⟩ stalePendingState.gates =
      none := by
  have hrun : runFrames stalePendingInputs MainState.new = some stalePendingState := by decide!
  exact ⟨by decide!, by decide!, by decide!, by decide!, rfl, by decide!,
    MainReachable_runFrames _ _ _ MainReachable.init hrun, rfl, rfl, rfl, by decide!,
    by decide!⟩
/-! ### Unused input slots -/

theorem targets_false_of_count (wires : List Wire) (gates : List Gate)
    (hslot : ∀ w ∈ wires, wireInRange gates w = true → ∀ dst,
      gates[w.toGateIndex.toNat]? = some dst → w.toInputIndex < (dst.GetInputCount : Int))
    (i : Nat) (g : Gate) (hg : gates[i]? = some g) (s : Int)
    (hs : (g.GetInputCount : Int) ≤ s) :
    ∀ w ∈ wires.filter (wireInRange gates), targets i s w = false := by
  intro w hw
  obtain ⟨hmem, hin⟩ := List.mem_filter.1 hw
  cases ht : targets i s w with
  | false => rfl
  | true =>
    exfalso
    unfold targets at ht
    rw [Bool.and_eq_true, beq_iff_eq, beq_iff_eq] at ht
    have h := hslot w hmem hin g
    rw [ht.1, Int.toNat_ofNat, ht.2] at h
    have := h hg
    omega

theorem UpdateSignals_unused_slots (ws : WiringSystem) (gates : List Gate)
    (hslot : ∀ w ∈ ws.wires, wireInRange gates w = true → ∀ dst,
      gates[w.toGateIndex.toNat]? = some dst → w.toInputIndex < (dst.GetInputCount : Int))
    (i : Nat) (g : Gate) (hg : gates[i]? = some g) :
    ∃ g2, (ws.UpdateSignals gates).2[i]? = some g2 ∧ g2.type = g.type ∧
      (g.type ≠ .INPUT → ∀ s : Int, s = 0 ∨ s = 1 →
        (g2.GetInputCount : Int) ≤ s → slotOf g2 s = false) ∧
      (g.type = .NOT ∨ g.type = .OUTPUT → g2.input2 = false) ∧
      (g.type = .INPUT → g2.input2 = g.input2) := by
  have hnon : g.type ≠ .INPUT → ∀ s : Int, s = 0 ∨ s = 1 → (g.GetInputCount : Int) ≤ s →
      slotOf (stepGate gates (ws.wires.filter (wireInRange gates)) i g) s = false := by
    intro hnin s hs hc
    have ht := targets_false_of_count ws.wires gates hslot i g hg s hc
    unfold slotOf stepGate
    rw [if_neg hnin]
    rcases hs with rfl | rfl
    · simp only [if_true]
      exact slotAfter_no_target _ _ _ _ _ ht
    · simp only [one_ne_zero, if_false]
      exact slotAfter_no_target _ _ _ _ _ ht
  refine ⟨_, UpdateSignals_gate_any ws gates i g hg, stepGate_type _ _ _ _, ?_, ?_, ?_⟩
  · intro hnin s hs hc
    rw [GetInputCount_of_type _ g (stepGate_type _ _ _ _)] at hc
    exact hnon hnin s hs hc
  · intro hk
    have hc : (g.GetInputCount : Int) ≤ 1 := by
      unfold Gate.GetInputCount
      rcases hk with h | h <;> rw [h] <;> decide
    have hnin : g.type ≠ .INPUT := by
      rcases hk with h | h <;> rw [h] <;> decide
    exact hnon hnin 1 (Or.inr rfl) hc
  · intro hin
    have hc : (g.GetInputCount : Int) ≤ 1 := by
      unfold Gate.GetInputCount
      rw [hin]
      decide
    have ht := targets_false_of_count ws.wires gates hslot i g hg 1 hc
    unfold stepGate
    rw [if_pos hin]
    exact slotAfter_no_target _ _ _ _ _ ht

theorem mainLoopBody_logicStep (s s2 : MainState) (inp : FrameInput)
    (hb : mainLoopBody s inp = some s2) (h : MainInvariant s) :
    ∃ s4, MainInvariant s4 ∧ s2 = logicStep s4 := by
  unfold mainLoopBody at hb
  split at hb
  · cases hb
  · rename_i s1 h1
    have i1 : MainInvariant s1 := by
      split at h1
      · exact MainInvariant_leftClick s s1 inp.mousePos h1 h
      · cases h1; exact h
    simp only at hb
    have i2 : MainInvariant (if inp.rightPressed then rightClick s1 inp.mousePos else s1) := by
      split
      · exact MainInvariant_rightClick s1 inp.mousePos i1
      · exact i1
    split at hb
    · cases hb
    · rename_i s3 h3
      have i3 := MainInvariant_dragging _ s3 inp h3 i2
      split at hb
      · cases hb
      · rename_i s4 h4
        cases hb
        exact ⟨s4, MainInvariant_deleteKey s3 s4 inp h4 i3, rfl⟩

theorem MainReachable_unused_slots (s : MainState) (h : MainReachable s) :
    ∀ g ∈ s.gates,
      (g.type ≠ .INPUT → ∀ slot : Int, slot = 0 ∨ slot = 1 →
        (g.GetInputCount : Int) ≤ slot → slotOf g slot = false) ∧
      (g.type = .INPUT → g.input2 = false) := by
  intro g hg
  refine ⟨?_, (MainReachable_invariant s h).2.1 g hg⟩
  cases h with
  | init => exact absurd hg (List.not_mem_nil g)
  | frame s0 _ inp h0 hb =>
    obtain ⟨s4, hinv, rfl⟩ := mainLoopBody_logicStep s0 s inp hb (MainReachable_invariant s0 h0)
    have hg2 : g ∈ (s4.wiringSystem.UpdateSignals s4.gates).2 := hg
    obtain ⟨i, hi⟩ := List.mem_iff_getElem?.1 hg2
    have hlt : i < s4.gates.length := by
      have := (List.getElem?_eq_some.1 hi).1
      rw [UpdateSignals_length] at this
      exact this
    have hslot : ∀ w ∈ s4.wiringSystem.wires, wireInRange s4.gates w = true → ∀ dst,
        s4.gates[w.toGateIndex.toNat]? = some dst →
          w.toInputIndex < (dst.GetInputCount : Int) :=
      fun w hw _ dst hd => (hinv.1.2.2 w hw dst hd).2
    obtain ⟨g2, h2, ht, hnon, -, -⟩ := UpdateSignals_unused_slots s4.wiringSystem s4.gates
      hslot i _ (List.getElem?_eq_getElem hlt)
    rw [hi] at h2
    have e : g = g2 := Option.some.inj h2
    intro hnin slot hs hc
    rw [e]
    rw [e] at hnin hc
    exact hnon (by rw [← ht]; exact hnin) slot hs hc

/-- C21: after a step on stores in which every wire that is in range ends at a slot
below its destination gate's slot count, every gate that is not of the Input kind has
each slot at or beyond its slot count equal to false (slot 1 of every NOT and Output
gate), and the step leaves slot 1 of every Input gate as it was; the constructor sets
that slot to false and nothing else writes it, so in every state the main loop reaches,
each of which but the initial one is the result of a step, every gate that is not of the
Input kind has each slot at or beyond its slot count equal to false and slot 1 of every
Input gate is false. -/
theorem unused_slots_after_step :
    (∀ (ws : WiringSystem) (gates : List Gate),
      (∀ w ∈ ws.wires, wireInRange gates w = true → ∀ dst,
        gates[w.toGateIndex.toNat]? = some dst →
          w.toInputIndex < (dst.GetInputCount : Int)) →
      ∀ (i : Nat) (g : Gate), gates[i]? = some g →
        ∃ g2, (ws.UpdateSignals gates).2[i]? = some g2 ∧ g2.type = g.type ∧
          (g.type ≠ .INPUT → ∀ s : Int, s = 0 ∨ s = 1 →
            (g2.GetInputCount : Int) ≤ s → slotOf g2 s = false) ∧
          (g.type = .NOT ∨ g.type = .OUTPUT → g2.input2 = false) ∧
          (g.type = .INPUT → g2.input2 = g.input2)) ∧
    (∀ (t : GateType) (pos : Vector2), (Gate.new t pos).input2 = false) ∧
    (∀ s, MainReachable s →
      (∀ w ∈ s.wiringSystem.wires, ∀ dst, s.gates[w.toGateIndex.toNat]? = some dst →
        w.toInputIndex < (dst.GetInputCount : Int)) ∧
      ∀ g ∈ s.gates,
        (g.type ≠ .INPUT → ∀ slot : Int, slot = 0 ∨ slot = 1 →
          (g.GetInputCount : Int) ≤ slot → slotOf g slot = false) ∧
        (g.type = .INPUT → g.input2 = false)) :=
  ⟨fun ws gates hslot i g hg => UpdateSignals_unused_slots ws gates hslot i g hg,
    fun _ _ => rfl,
    fun s hs => ⟨fun w hw dst hd => ((MainReachable_invariant s hs).1.2.2 w hw dst hd).2,
      MainReachable_unused_slots s hs⟩⟩

end GateSim
